import Mathlib

/-!
The program `bark`: a shallow embedding of `bark.c` and its verified properties.

`bark.c` is a two-player card game on a toroidal grid.  The C functions are
embedded below as Lean functions of the same names.

Conventions of the embedding:

* a `char` is its character code (a `Nat`): `'*'` is 42, `'1'..'9'` are 49..57,
  `'A'..'Z'` are 65..90, `' '` is 32 and the line feed is 10;
* a C string is the list of its characters, without the terminating NUL;
* arrays are functions from indices, so a slot beyond the part in use still
  holds whatever was last stored there, as it does in memory;
* `int` values that can become negative in the program (results of `read_int`,
  coordinate offsets, the `length` of a card array) are `Int`; the others are
  `Nat`;
* a recursion whose termination is a property of the data takes a fuel
  argument and answers `none` when the fuel runs out;
* `exit_game` and undefined behaviour (a NULL pointer handed to `strtol`, a
  store outside an array) are the two errors of `Except Err`.
-/

namespace Bark

/-! ## Constants of `bark.c` -/

def ERROR_BAD_ARGS : Nat := 1
def ERROR_PLAYER_INVALID : Nat := 2
def ERROR_DECK_READ : Nat := 3
def ERROR_SAVE_READ : Nat := 4
def ERROR_SHORT_DECK : Nat := 5
def ERROR_FULL_BOARD : Nat := 6
def ERROR_END_HUMAN_INPUT : Nat := 7

def NEW_GAME : Nat := 1
def END_GAME : Nat := 0
def MIDDLE_GAME : Nat := 2

def HAND_SIZE : Nat := 6
def NUM_PLAYERS : Nat := 2
def PLAYER_ONE : Nat := 0
def PLAYER_TWO : Nat := 1
def TURN_ONE : Nat := 1
def TURN_TWO : Nat := 2

/-- Macro `GET_NUM(x)`. -/
def GET_NUM (x : Nat) : Nat := 2 * x

/-- Macro `GET_SUIT(x)`. -/
def GET_SUIT (x : Nat) : Nat := 2 * x + 1

/-! ## Data model -/

/-- Struct `Card`: two characters. -/
structure Card where
  num : Nat
  suit : Nat
deriving DecidableEq

/-- Struct `CardArray`: the memory behind `cards` and the `int length`. -/
structure CardArray where
  cards : Nat → Card
  length : Int

/-- Struct `Game`. -/
structure Game where
  width : Nat
  height : Nat
  turn : Nat
  status : Nat
  playerType : Nat → Nat
  board : Nat → Nat → Card
  deckFile : List Nat
  cardsDrawn : Nat
  deck : CardArray
  hands : Nat → CardArray

/-- Outcome of a run that does not return normally. -/
inductive Err where
  | exit (code : Nat)
  | undefined
deriving DecidableEq

/-- Array store `a[i] = v`. -/
def store {α : Type} (a : Nat → α) (i : Nat) (v : α) : Nat → α :=
  fun k => if k = i then v else a k

/-- Board store `board[row][col] = v`. -/
def store2 {α : Type} (a : Nat → Nat → α) (row col : Nat) (v : α) : Nat → Nat → α :=
  fun r c => if r = row ∧ c = col then v else a r c

/-! ## Toroidal neighbours and the path scorer -/

/-- The expression `(v + d == -1) ? size - 1 : (v + d) % size`, with C's
truncating remainder. -/
def wrap (v : Nat) (d : Int) (size : Nat) : Nat :=
  if (v : Int) + d = -1 then size - 1 else (Int.tmod ((v : Int) + d) (size : Int)).toNat

/-- The `while ((*size) < j)` loop of `get_neighbour`; `*size` is the number of
coordinate pairs stored so far.  Each iteration either stores a pair or
decrements `j`, so `j - *size` drops by one per iteration. -/
def get_neighbour_loop (g : Game) (c : Card) (row col : Nat) :
    Nat → Int → Int → Nat → List (Nat × Nat) → List (Nat × Nat) × Nat
  | 0, _, _, j, coords => (coords, j)
  | fuel + 1, x, y, j, coords =>
    if coords.length < j then
      let temp := wrap row x g.height
      let temp2 := wrap col y g.width
      let temp' : Int := -y
      let y' : Int := if x = 0 then 0 else x
      let x' : Int := if x = 0 then temp' else 0
      if (g.board temp temp2).num > c.num ∧ (g.board temp temp2).suit ≠ 42 then
        get_neighbour_loop g c row col fuel x' y' j (coords ++ [(temp, temp2)])
      else
        get_neighbour_loop g c row col fuel x' y' (j - 1) coords
    else (coords, j)

/-- Function `get_neighbour`: the stored coordinates and the returned flag
`j != 0`.  The loop starts with `j - *size = 4`, so four iterations finish it. -/
def get_neighbour (g : Game) (c : Card) (row col : Nat) : Bool × List (Nat × Nat) :=
  let r := get_neighbour_loop g c row col 4 1 0 4 []
  (decide (r.2 ≠ 0), r.1)

/-- Function `get_path_length`; the result is the final `*longest`, and `none`
means the fuel ran out before the recursion ended. -/
def get_path_length (g : Game) :
    Nat → Nat → Nat → Nat → Nat → Nat → Option Nat
  | 0, _, _, _, _, _ => none
  | fuel + 1, row, col, length, longest, charToCheck =>
    let c := g.board row col
    let longest1 :=
      if charToCheck = c.suit then (if longest < length then length else longest)
      else longest
    let nb := get_neighbour g c row col
    if nb.1 then
      nb.2.foldlM
        (fun lg p => get_path_length g fuel p.1 p.2 (length + 1) lg charToCheck) longest1
    else some longest1

/-- Function `calc_scores`: the pair `(pLength[0], pLength[1])` it prints. -/
def calc_scores (g : Game) (fuel : Nat) : Option (Nat × Nat) :=
  (List.range g.height).foldlM (fun p i =>
    (List.range g.width).foldlM (fun p j =>
      if (g.board i j).suit = 42 then some p
      else if (g.board i j).suit % 2 ≠ 0 then
        (get_path_length g fuel i j 1 p.1 (g.board i j).suit).map (fun l => (l, p.2))
      else
        (get_path_length g fuel i j 1 p.2 (g.board i j).suit).map (fun l => (p.1, l))) p)
    (0, 0)

/-! ## Text input: lines, integers, tokens -/

/-- A buffer seen as a C string: the characters before the first NUL. -/
def cstr (buf : List Nat) : List Nat := buf.takeWhile (fun c => c ≠ 0)

/-- Function `read_line` on the unread part of a stream, with the characters
already put in the buffer: the line as a C string and the rest of the stream,
or `none` (NULL) when the end of the stream comes before a line feed. -/
def read_line : List Nat → List Nat → Option (List Nat × List Nat)
  | [], _ => none
  | c :: rest, cur =>
    if c = 10 then some (cstr cur, rest) else read_line rest (cur ++ [c])

/-- The lines that successive calls `while (read_line(f, &line))` deliver. -/
def read_lines : List Nat → List Nat → List (List Nat)
  | [], _ => []
  | c :: rest, cur =>
    if c = 10 then cstr cur :: read_lines rest [] else read_lines rest (cur ++ [c])

/-- C `isspace` in the "C" locale. -/
def isspace (c : Nat) : Bool := c = 32 || (9 ≤ c && c ≤ 13)

/-- C `isdigit`. -/
def isdigit (c : Nat) : Bool := 48 ≤ c && c ≤ 57

def LONG_MAX : Int := 2 ^ 63 - 1
def LONG_MIN : Int := -(2 ^ 63)

/-- Library call `strtol(s, &pointTo, 10)` for a 64-bit `long`: the value and
the unparsed rest `pointTo`.  Without digits nothing is consumed. -/
def strtol (s : List Nat) : Int × List Nat :=
  let t := s.dropWhile isspace
  let signed : Bool × List Nat :=
    match t with
    | 45 :: u => (true, u)
    | 43 :: u => (false, u)
    | _ => (false, t)
  let ds := signed.2.takeWhile isdigit
  if ds = [] then (0, s)
  else
    let v : Nat := ds.foldl (fun a d => 10 * a + (d - 48)) 0
    let r : Int := if signed.1 then -(v : Int) else (v : Int)
    (max LONG_MIN (min LONG_MAX r), signed.2.dropWhile isdigit)

/-- Conversion of a `long` to a 32-bit `int` (wrap-around). -/
def toInt32 (v : Int) : Int := (v + 2 ^ 31) % 2 ^ 32 - 2 ^ 31

/-- Function `read_int` on a string. -/
def read_int (line : List Nat) : Int :=
  let r := strtol line
  if r.2.length > 0 then -1 else toInt32 r.1

/-- Function `read_int` on a pointer that may be NULL (`none`): `strtol` on a
NULL pointer is undefined. -/
def read_int_ptr : Option (List Nat) → Except Err Int
  | none => .error .undefined
  | some line => .ok (read_int line)

/-- Library call `strtok(s, " ")` on the string at the saved position: the
token (`none` is NULL) and the new saved position. -/
def strtok (s : List Nat) : Option (List Nat) × List Nat :=
  let t := s.dropWhile (fun c => c = 32)
  if t = [] then (none, [])
  else (some (t.takeWhile (fun c => c ≠ 32)), (t.dropWhile (fun c => c ≠ 32)).drop 1)

/-- The loop of `check_spaces` from position `i` with the characters
`line[i]`, `line[i+1]`, ... in hand; `none` is the early `return false`. -/
def check_spaces_loop : List Nat → Nat → Option Nat
  | c :: d :: rest, spaces =>
    if c = 32 then
      if d = 32 then none else check_spaces_loop (d :: rest) (spaces + 1)
    else check_spaces_loop (d :: rest) spaces
  | _, spaces => some spaces

/-- Function `check_spaces`.  On the empty string `strlen(line) - 1` wraps
around (it is unsigned) and the loop reads beyond the buffer: undefined. -/
def check_spaces (line : List Nat) (spaceReq : Nat) : Except Err Bool :=
  if line = [] then .error .undefined
  else
    match check_spaces_loop line 0 with
    | none => .ok false
    | some spaces => .ok (decide (spaces = spaceReq))

/-- Function `check_card`. -/
def check_card (suit num : Nat) : Bool :=
  if suit = 42 ∧ num = 42 then true
  else if suit > 90 ∨ suit < 65 ∨ num > 57 ∨ num < 49 then false
  else true

/-- Function `check_player`. -/
def check_player (line : List Nat) : Except Err Nat :=
  match line with
  | [c] => if c ≠ 104 ∧ c ≠ 97 then .error (.exit ERROR_PLAYER_INVALID) else .ok c
  | _ => .error (.exit ERROR_PLAYER_INVALID)

/-- Function `check_dimension` on a pointer that may be NULL. -/
def check_dimension (line : Option (List Nat)) : Except Err Nat :=
  match read_int_ptr line with
  | .error e => .error e
  | .ok len =>
    if len < 3 ∨ len > 100 then .error (.exit ERROR_PLAYER_INVALID) else .ok len.toNat

/-- Conversion `%d` of `printf` for a non-negative value, most significant
digit first; the first argument bounds the number of digits. -/
def fmt_d_aux : Nat → Nat → List Nat → List Nat
  | 0, _, acc => acc
  | fuel + 1, n, acc =>
    if n < 10 then (48 + n) :: acc
    else fmt_d_aux fuel (n / 10) ((48 + n % 10) :: acc)

/-- Conversion `%d` of `printf` for a non-negative value. -/
def fmt_d (n : Nat) : List Nat := fmt_d_aux (n + 1) n []

/-! ## Set-up: allocation, dealing, loading -/

/-- The empty marker `(Card){.num = '*', .suit = '*'}`. -/
def blank : Card := ⟨42, 42⟩

/-- Function `malloc_var`: a board of empty markers and fresh memory for the
two hands (its indeterminate contents read as NUL characters here). -/
def malloc_var (g : Game) : Game :=
  { g with
    board := fun _ _ => blank
    hands := fun i => ⟨fun _ => ⟨0, 0⟩, (g.hands i).length⟩ }

/-- The inner `for (j = hands[i].length; j < HAND_SIZE; j++)` loop of
`deal_cards` for player index `i`; `j` always equals `hands[i].length`.  The
flag is `false` when the loop left through `return false`.  The read
`deck.cards[cardsDrawn++]` comes before the test against `deck.length`. -/
def deal_loop (i : Nat) : Nat → Game → Bool × Game
  | 0, g => (true, g)
  | fuel + 1, g =>
    let j := (g.hands i).length
    if j < (HAND_SIZE : Int) then
      if j = (HAND_SIZE : Int) - 1 ∧ i + 1 ≠ g.turn then (true, g)
      else
        let hand : CardArray :=
          ⟨store (g.hands i).cards j.toNat (g.deck.cards g.cardsDrawn), j + 1⟩
        let g1 : Game :=
          { g with hands := store g.hands i hand, cardsDrawn := g.cardsDrawn + 1 }
        if g1.deck.length < (g1.cardsDrawn : Int) then (false, g1)
        else deal_loop i fuel g1
    else (true, g)

/-- Function `deal_cards`: the returned flag and the state it leaves. -/
def deal_cards (g : Game) : Bool × Game :=
  let r0 := deal_loop 0 ((HAND_SIZE : Int) - (g.hands 0).length).toNat g
  if r0.1 then deal_loop 1 ((HAND_SIZE : Int) - (r0.2.hands 1).length).toNat r0.2
  else r0

/-- Function `board_full`, the scan only. -/
def board_full_scan (g : Game) : Bool :=
  (List.range g.height).all (fun i =>
    (List.range g.width).all (fun j => decide ((g.board i j).suit ≠ 42)))

/-- Function `board_full`: the returned flag and the state (a full board sets
`status` to `END_GAME`). -/
def board_full (g : Game) : Bool × Game :=
  if board_full_scan g then (true, { g with status := END_GAME }) else (false, g)

/-- The `while (read_line(f, &line))` loop of `parse_deck_file` over the
remaining lines, with `lineN` and the cards stored so far. -/
def parse_deck_loop (length : Int) :
    List (List Nat) → Nat → (Nat → Card) → Except Err (Nat × (Nat → Card))
  | [], lineN, cards => .ok (lineN, cards)
  | line :: rest, lineN, cards =>
    if line.length ≠ 2 ∨ (lineN : Int) ≥ length
        ∨ check_card (line.getD 1 0) (line.getD 0 0) = false then
      .error (.exit ERROR_DECK_READ)
    else
      parse_deck_loop length rest (lineN + 1)
        (store cards lineN ⟨line.getD 0 0, line.getD 1 0⟩)

/-- Function `parse_deck_file`; `fs` gives the contents of the files that can
be opened for reading. -/
def parse_deck_file (fs : List Nat → Option (List Nat)) (g : Game) : Except Err Game :=
  match fs g.deckFile with
  | none => .error (.exit ERROR_DECK_READ)
  | some text =>
    match read_lines text [] with
    | [] => .error (.exit ERROR_DECK_READ)
    | first :: rest =>
      let length := read_int first
      if length ≤ 0 ∨ length < (g.cardsDrawn : Int) then .error (.exit ERROR_DECK_READ)
      else
        match parse_deck_loop length rest 0 (fun _ => ⟨0, 0⟩) with
        | .error e => .error e
        | .ok (lineN, cards) =>
          if (lineN : Int) ≠ length then .error (.exit ERROR_DECK_READ)
          else .ok { g with deck := ⟨cards, length⟩ }

/-- The `for` loop of `parse_hands` from index `i`, `n` iterations left. -/
def parse_hands_loop (line : List Nat) :
    Nat → Nat → (Nat → Card) → Except Err (Nat → Card)
  | 0, _, cards => .ok cards
  | n + 1, i, cards =>
    let temp : Card := ⟨line.getD (GET_NUM i) 0, line.getD (GET_SUIT i) 0⟩
    if check_card temp.suit temp.num = false then .error (.exit ERROR_SAVE_READ)
    else parse_hands_loop line n (i + 1) (store cards i temp)

/-- Function `parse_hands`; `player` is 1 or 2. -/
def parse_hands (g : Game) (line : List Nat) (player : Nat) : Except Err Game :=
  let length := line.length
  if length ≠ HAND_SIZE * 2 ∧ length ≠ (HAND_SIZE - 1) * 2 then
    .error (.exit ERROR_SAVE_READ)
  else
    let player := player - 1
    match parse_hands_loop line (length / 2) 0 (g.hands player).cards with
    | .error e => .error e
    | .ok cards => .ok { g with hands := store g.hands player ⟨cards, ((length / 2 : Nat) : Int)⟩ }

/-- The `for` loop of `parse_board` from index `i`, `n` iterations left.  A
store into a row at or beyond `height` lies outside the board. -/
def parse_board_loop (line : List Nat) (lineN : Nat) : Nat → Nat → Game → Except Err Game
  | 0, _, g => .ok g
  | n + 1, i, g =>
    let temp : Card := ⟨line.getD (GET_NUM i) 0, line.getD (GET_SUIT i) 0⟩
    if check_card temp.suit temp.num = false then .error (.exit ERROR_SAVE_READ)
    else
      let g1 : Game :=
        if g.status = NEW_GAME ∧ temp.suit ≠ 42 then { g with status := MIDDLE_GAME } else g
      if lineN ≥ g1.height then .error .undefined
      else parse_board_loop line lineN n (i + 1) { g1 with board := store2 g1.board lineN i temp }

/-- Function `parse_board`. -/
def parse_board (g : Game) (line : List Nat) (lineN : Nat) : Except Err Game :=
  let length := line.length
  if length ≠ g.width * 2 then .error (.exit ERROR_SAVE_READ)
  else parse_board_loop line lineN (length / 2) 0 g

/-- Function `parse_line_one`. -/
def parse_line_one (line : List Nat) (g : Game) : Except Err Game :=
  match check_spaces line 3 with
  | .error e => .error e
  | .ok false => .error (.exit ERROR_SAVE_READ)
  | .ok true =>
    let t1 := strtok line
    match check_dimension t1.1 with
    | .error e => .error e
    | .ok width =>
      let t2 := strtok t1.2
      match check_dimension t2.1 with
      | .error e => .error e
      | .ok height =>
        let t3 := strtok t2.2
        match read_int_ptr t3.1 with
        | .error e => .error e
        | .ok cardsDrawn =>
          let t4 := strtok t3.2
          match read_int_ptr t4.1 with
          | .error e => .error e
          | .ok turn =>
            if (turn ≠ (TURN_ONE : Int) ∧ turn ≠ (TURN_TWO : Int)) ∨ cardsDrawn < 11 then
              .error (.exit ERROR_SAVE_READ)
            else
              .ok (malloc_var
                { g with
                  width := width
                  height := height
                  cardsDrawn := cardsDrawn.toNat
                  turn := turn.toNat
                  status := NEW_GAME })

/-- The `while (read_line(f, &line))` loop of `parse_save_file` over the
remaining lines; the result carries the final `lineN`.  After `free(line)` the
pointer `deckFile` dangles: `freed` is what that memory reads as from then on. -/
def parse_save_loop (fs : List Nat → Option (List Nat)) (freed : List Nat) :
    List (List Nat) → Nat → Game → Except Err (Nat × Game)
  | [], lineN, g => .ok (lineN, g)
  | line :: rest, lineN, g =>
    let step : Except Err Game :=
      if lineN = 0 then parse_line_one line g
      else if lineN = 1 then
        match parse_deck_file fs { g with deckFile := line } with
        | .error e => .error e
        | .ok g1 => .ok { g1 with deckFile := freed }
      else if lineN = 2 ∨ lineN = 3 then parse_hands g line (lineN - 1)
      else parse_board g line (lineN - 4)
    match step with
    | .error e => .error e
    | .ok g1 => parse_save_loop fs freed rest (lineN + 1) g1

/-- Function `parse_save_file`. -/
def parse_save_file (fs : List Nat → Option (List Nat)) (freed : List Nat)
    (g : Game) (fileName : List Nat) : Except Err Game :=
  match fs fileName with
  | none => .error (.exit ERROR_SAVE_READ)
  | some text =>
    match parse_save_loop fs freed (read_lines text []) 0 g with
    | .error e => .error e
    | .ok (lineN, g1) =>
      if lineN ≠ g1.height + 4 then .error (.exit ERROR_SAVE_READ)
      else if (board_full g1).1 then .error (.exit ERROR_FULL_BOARD)
      else .ok (board_full g1).2

/-! ## Moves -/

/-- Function `adjacent_to`; the two `for` loops run `j` and `i` over -1, 0, 1
and leave with `true` at the first occupied orthogonal neighbour. -/
def adjacent_to (g : Game) (x y : Nat) : Bool :=
  if g.status = NEW_GAME then true
  else if (g.board x y).suit ≠ 42 then false
  else
    [(-1 : Int), 0, 1].any (fun j =>
      [(-1 : Int), 0, 1].any (fun i =>
        if i.natAbs = j.natAbs then false
        else decide ((g.board (wrap x j g.height) (wrap y i g.width)).suit ≠ 42)))

/-- The loop `for (k = c; k < HAND_SIZE - 1; k++) cards[k] = cards[k + 1]` of
`make_move`, from index `k`. -/
def shuffle_down : Nat → Nat → (Nat → Card) → (Nat → Card)
  | 0, _, cards => cards
  | fuel + 1, k, cards =>
    if k < HAND_SIZE - 1 then shuffle_down fuel (k + 1) (store cards k (cards (k + 1)))
    else cards

/-- Function `make_move`; `game->turn` is 1 or 2 when it is called. -/
def make_move (g : Game) (row col c : Nat) : Game :=
  let turn := g.turn - 1
  let temp := (g.hands turn).cards c
  let hand : CardArray :=
    ⟨shuffle_down (HAND_SIZE - 1 - c) c (g.hands turn).cards, (g.hands turn).length - 1⟩
  { g with
    hands := store g.hands turn hand
    board := store2 g.board row col temp
    status := if g.status = NEW_GAME then MIDDLE_GAME else g.status }

/-- What a call of `save_game` does. -/
inductive SaveOutcome where
  | nameRejected
  | openFailed
  | written (text : List Nat)
deriving DecidableEq

/-- The first loop of `save_game` over the characters of `fileName` from
position `i` on; `true` is the `return` after "Unable to save". -/
def save_name_loop : List Nat → Bool
  | [] => false
  | c :: rest =>
    if (c ≥ 65 ∧ c ≤ 90) ∨ (c ≥ 97 ∧ c ≤ 122) then false
    else if rest = [] then true
    else save_name_loop rest

/-- The characters `fprintf(f, "%c%c", ...)` writes for the cards
`cards[0..n-1]`. -/
def save_cards (cards : Nat → Card) (n : Nat) : List Nat :=
  (List.range n).flatMap (fun j => [(cards j).num, (cards j).suit])

/-- The text `save_game` writes once the file is open. -/
def save_text (g : Game) : List Nat :=
  fmt_d g.width ++ [32] ++ fmt_d g.height ++ [32] ++ fmt_d g.cardsDrawn ++ [32]
    ++ fmt_d g.turn ++ [10]
    ++ g.deckFile ++ [10]
    ++ (List.range NUM_PLAYERS).flatMap (fun i =>
        save_cards (g.hands i).cards (if g.turn = i + 1 then HAND_SIZE else HAND_SIZE - 1)
          ++ [10])
    ++ (List.range g.height).flatMap (fun i => save_cards (g.board i) g.width ++ [10])

/-- Function `save_game`; `canOpen` tells which names `fopen(fileName, "w")`
can open. -/
def save_game (canOpen : List Nat → Bool) (g : Game) (fileName : List Nat) : SaveOutcome :=
  if save_name_loop fileName then .nameRejected
  else if canOpen fileName = false then .openFailed
  else .written (save_text g)

/-- Function `check_entry`: the returned flag and the state it leaves. -/
def check_entry (g : Game) (line : List Nat) : Except Err (Bool × Game) :=
  match check_spaces line 2 with
  | .error e => .error e
  | .ok false => .ok (false, g)
  | .ok true =>
    let t1 := strtok line
    match read_int_ptr t1.1 with
    | .error e => .error e
    | .ok card =>
      let t2 := strtok t1.2
      match read_int_ptr t2.1 with
      | .error e => .error e
      | .ok col =>
        let t3 := strtok t2.2
        match read_int_ptr t3.1 with
        | .error e => .error e
        | .ok row =>
          if card < 1 ∨ card > (HAND_SIZE : Int) ∨ col < 1 ∨ col > (g.width : Int) ∨ row < 1
              ∨ row > (g.height : Int)
              ∨ adjacent_to g (row - 1).toNat (col - 1).toNat = false then
            .ok (false, g)
          else
            .ok (true, make_move g (row - 1).toNat (col - 1).toNat (card - 1).toNat)

/-- Function `check_input`: the returned flag, the state it leaves and what a
`SAVE` request did. -/
def check_input (canOpen : List Nat → Bool) (g : Game) (line : List Nat) :
    Except Err (Bool × Game × Option SaveOutcome) :=
  if line.length < 5 then .ok (false, g, none)
  else if line.take 4 ≠ [83, 65, 86, 69] then
    match check_entry g line with
    | .error e => .error e
    | .ok r => .ok (r.1, r.2, none)
  else .ok (false, g, some (save_game canOpen g (line.drop 4)))

/-- The `while (1)` loop of `player_handler` for a human player; `input` holds
the lines that `read_line(stdin, &line)` still delivers before the end of
input.  The result is the state after the accepted move and the unread lines. -/
def player_handler_loop (canOpen : List Nat → Bool) :
    Game → List (List Nat) → Except Err (Game × List (List Nat))
  | _, [] => .error (.exit ERROR_END_HUMAN_INPUT)
  | g, line :: rest =>
    match check_input canOpen g line with
    | .error e => .error e
    | .ok (true, g1, _) => .ok (g1, rest)
    | .ok (false, g1, _) => player_handler_loop canOpen g1 rest

/-- The inner `for (j = 0; j < width; j++)` loop of `return_move` from `j`, with
the current `i`, `row` and `column`; the result is `i`, `row` and `column` when
the loop ends.  A hit sets `i = height; j = width;` before `j++`. -/
def return_move_cols (g : Game) (player : Nat) :
    Nat → Nat → Nat → Nat → Nat → Nat × Nat × Nat
  | 0, i, _, row, column => (i, row, column)
  | fuel + 1, i, j, row, column =>
    if j < g.width then
      let row1 := if player ≠ PLAYER_ONE then g.height - i - 1 else i
      let column1 := if player ≠ PLAYER_ONE then g.width - j - 1 else j
      if adjacent_to g row1 column1 then
        return_move_cols g player fuel g.height (g.width + 1) row1 column1
      else return_move_cols g player fuel i (j + 1) row1 column1
    else (i, row, column)

/-- The outer `for (i = 0; i < height; i++)` loop of `return_move` from `i`. -/
def return_move_rows (g : Game) (player : Nat) : Nat → Nat → Nat → Nat → Nat × Nat
  | 0, _, row, column => (row, column)
  | fuel + 1, i, row, column =>
    if i < g.height then
      let r := return_move_cols g player (g.width + 1) i 0 row column
      return_move_rows g player fuel (r.1 + 1) r.2.1 r.2.2
    else (row, column)

/-- The cell `(row, column)` that `return_move` hands to `make_move`.  The two
variables are not initialised in C; they read as 0 here until first assigned. -/
def return_move_target (g : Game) : Nat × Nat :=
  let player := g.turn - 1
  if g.status = NEW_GAME then ((g.height - 1) / 2, (g.width - 1) / 2)
  else return_move_rows g player (g.height + 1) 0 0 0

/-- Function `return_move`: the state after the automated move (always hand
slot 0). -/
def return_move (g : Game) : Game :=
  make_move g (return_move_target g).1 (return_move_target g).2 0

/-- Function `player_handler`: the automated player (`'a'`) moves at once, a
human player is asked until a line is accepted. -/
def player_handler (canOpen : List Nat → Bool) (g : Game) (input : List (List Nat)) :
    Except Err (Game × List (List Nat)) :=
  if g.playerType (g.turn - 1) = 97 then .ok (return_move g, input)
  else player_handler_loop canOpen g input

/-! ## Start-up -/

/-- Function `main` up to the call of `game_loop`: the state handed to
`game_loop`.  `argv` includes the program name; `g` is the uninitialised
`Game game` on the stack. -/
def main_start (fs : List Nat → Option (List Nat)) (freed : List Nat) (g : Game)
    (argv : List (List Nat)) : Except Err Game :=
  match argv with
  | [_, a1, a2, a3] =>
    match check_player a2 with
    | .error e => .error e
    | .ok p1 =>
      match check_player a3 with
      | .error e => .error e
      | .ok p2 =>
        parse_save_file fs freed { g with playerType := store (store g.playerType 0 p1) 1 p2 } a1
  | [_, a1, a2, a3, a4, a5] =>
    match check_dimension (some a2) with
    | .error e => .error e
    | .ok width =>
      match check_dimension (some a3) with
      | .error e => .error e
      | .ok height =>
        match check_player a4 with
        | .error e => .error e
        | .ok p1 =>
          match check_player a5 with
          | .error e => .error e
          | .ok p2 =>
            let g1 : Game :=
              { g with
                deckFile := a1
                width := width
                height := height
                playerType := store (store g.playerType 0 p1) 1 p2
                cardsDrawn := 0 }
            match parse_deck_file fs g1 with
            | .error e => .error e
            | .ok g2 =>
              let g3 : Game :=
                { g2 with
                  status := NEW_GAME
                  hands := store (store g2.hands PLAYER_ONE
                      ⟨(g2.hands PLAYER_ONE).cards, 0⟩) PLAYER_TWO
                      ⟨(g2.hands PLAYER_TWO).cards, 0⟩
                  turn := PLAYER_ONE }
              let d := deal_cards (malloc_var g3)
              if d.1 = false then .error (.exit ERROR_SHORT_DECK)
              else .ok { d.2 with turn := TURN_ONE }
  | _ => .error (.exit ERROR_BAD_ARGS)

/-! ## The game loop -/

/-- The deck positions that the loop `deal_loop` reads, in order: one read
`deck.cards[cardsDrawn]` per iteration that reaches the assignment. -/
def deal_loop_reads (i : Nat) : Nat → Game → List Nat
  | 0, _ => []
  | fuel + 1, g =>
    let j := (g.hands i).length
    if j < (HAND_SIZE : Int) then
      if j = (HAND_SIZE : Int) - 1 ∧ i + 1 ≠ g.turn then []
      else
        let hand : CardArray :=
          ⟨store (g.hands i).cards j.toNat (g.deck.cards g.cardsDrawn), j + 1⟩
        let g1 : Game :=
          { g with hands := store g.hands i hand, cardsDrawn := g.cardsDrawn + 1 }
        if g1.deck.length < (g1.cardsDrawn : Int) then [g.cardsDrawn]
        else g.cardsDrawn :: deal_loop_reads i fuel g1
    else []

/-- The deck positions that a call of `deal_cards` reads, in order. -/
def deal_cards_reads (g : Game) : List Nat :=
  let r0 := deal_loop 0 ((HAND_SIZE : Int) - (g.hands 0).length).toNat g
  deal_loop_reads 0 ((HAND_SIZE : Int) - (g.hands 0).length).toNat g ++
    (if r0.1 then deal_loop_reads 1 ((HAND_SIZE : Int) - (r0.2.hands 1).length).toNat r0.2
     else [])

/-- The condition `game->status && !board_full(game) && deal_cards(game)` of
the loop of `game_loop`, evaluated left to right: its value and the state it
leaves. -/
def game_loop_cond (g : Game) : Bool × Game :=
  if g.status = 0 then (false, g)
  else if (board_full g).1 then (false, (board_full g).2)
  else deal_cards (board_full g).2

/-- The body of the loop of `game_loop`: `player_handler`, then the turn passes
to the other player. -/
def game_loop_body (canOpen : List Nat → Bool) (g : Game) (input : List (List Nat)) :
    Except Err (Game × List (List Nat)) :=
  match player_handler canOpen g input with
  | .error e => .error e
  | .ok (g1, rest) =>
    .ok ({ g1 with turn := if g1.turn = TURN_ONE then TURN_TWO else TURN_ONE }, rest)

/-- The loop of `game_loop`: the state when the loop ends and the unread input,
or `none` when the fuel (a bound on the number of turns) runs out. -/
def game_loop (canOpen : List Nat → Bool) :
    Nat → Game → List (List Nat) → Except Err (Option (Game × List (List Nat)))
  | 0, _, _ => .ok none
  | fuel + 1, g, input =>
    if (game_loop_cond g).1 = false then .ok (some ((game_loop_cond g).2, input))
    else
      match game_loop_body canOpen (game_loop_cond g).2 input with
      | .error e => .error e
      | .ok (g1, rest) => game_loop canOpen fuel g1 rest

/-- Function `main`, the whole run: an error is the exit status of `exit_game`
(or undefined behaviour); `.ok (some scores)` is the normal end, exit status 0,
with the scores `calc_scores` prints; `.ok none` means the fuel ran out. -/
def main_run (fs : List Nat → Option (List Nat)) (canOpen : List Nat → Bool)
    (freed : List Nat) (g : Game) (argv : List (List Nat)) (input : List (List Nat))
    (fuel : Nat) : Except Err (Option (Nat × Nat)) :=
  match main_start fs freed g argv with
  | .error e => .error e
  | .ok g1 =>
    match game_loop canOpen fuel g1 input with
    | .error e => .error e
    | .ok none => .ok none
    | .ok (some (g2, _)) => .ok (calc_scores g2 fuel)

/-! ## Notions used to state the properties -/

/-- The test `get_neighbour` applies to the cell at `p` against the card `c`. -/
def qualifies (g : Game) (c : Card) (p : Nat × Nat) : Prop :=
  (g.board p.1 p.2).num > c.num ∧ (g.board p.1 p.2).suit ≠ 42

instance (g : Game) (c : Card) (p : Nat × Nat) : Decidable (qualifies g c p) := by
  unfold qualifies; infer_instance

/-- The four cells `get_neighbour` looks at, in its order. -/
def around (g : Game) (row col : Nat) : List (Nat × Nat) :=
  [(wrap row 1 g.height, wrap col 0 g.width), (wrap row 0 g.height, wrap col 1 g.width),
   (wrap row (-1) g.height, wrap col 0 g.width), (wrap row 0 g.height, wrap col (-1) g.width)]

/-- One recursive call of `get_path_length`: the invocation with arguments
`(row, col, length) = a` calls the one with arguments `b`, which happens for
each stored coordinate pair when `get_neighbour` returned `true`, with
`length + 1`. -/
def Calls (g : Game) (a b : Nat × Nat × Nat) : Prop :=
  (get_neighbour g (g.board a.1 a.2.1) a.1 a.2.1).1 = true ∧
  (b.1, b.2.1) ∈ (get_neighbour g (g.board a.1 a.2.1) a.1 a.2.1).2 ∧
  b.2.2 = a.2.2 + 1

/-- The invocations of `get_path_length` that a first invocation `a` leads to,
itself included. -/
def Invokes (g : Game) (a b : Nat × Nat × Nat) : Prop :=
  Relation.ReflTransGen (Calls g) a b

/-- Every occupied cell of the board holds a rank `'1'..'9'` and a suit
`'A'..'Z'`. -/
def ValidCards (g : Game) : Prop :=
  ∀ r, r < g.height → ∀ c, c < g.width → (g.board r c).suit ≠ 42 →
    (49 ≤ (g.board r c).num ∧ (g.board r c).num ≤ 57) ∧
    (65 ≤ (g.board r c).suit ∧ (g.board r c).suit ≤ 90)

/-- Every occupied cell of the board holds a rank `'1'..'9'`. -/
def ValidRanks (g : Game) : Prop :=
  ∀ r, r < g.height → ∀ c, c < g.width → (g.board r c).suit ≠ 42 →
    49 ≤ (g.board r c).num ∧ (g.board r c).num ≤ 57

/-- Orthogonal adjacency on the torus, as the specification words it: `b` is
`a` moved one step up, down, left or right, wrapped modulo height or width. -/
def torusAdj (height width : Nat) (a b : Nat × Nat) : Prop :=
  (b.2 = a.2 ∧ (b.1 = (a.1 + 1) % height ∨ b.1 = (a.1 + height - 1) % height)) ∨
  (b.1 = a.1 ∧ (b.2 = (a.2 + 1) % width ∨ b.2 = (a.2 + width - 1) % width))

/-- Reference definition of a chain `c1, rest...`, after the specification: all
cells are occupied cells of the board, consecutive cells are orthogonally
adjacent on the torus with strictly increasing rank, and the last cell has the
suit of the first. -/
def IsChain (g : Game) (c1 : Nat × Nat) (rest : List (Nat × Nat)) : Prop :=
  (∀ p ∈ c1 :: rest, p.1 < g.height ∧ p.2 < g.width ∧ (g.board p.1 p.2).suit ≠ 42) ∧
  List.Chain (fun a b => torusAdj g.height g.width a b ∧
    (g.board a.1 a.2).num < (g.board b.1 b.2).num) c1 rest ∧
  (g.board ((c1 :: rest).getLast (List.cons_ne_nil c1 rest)).1
    ((c1 :: rest).getLast (List.cons_ne_nil c1 rest)).2).suit = (g.board c1.1 c1.2).suit

/-- Reference definition of a score, after the specification: `s` is the
greatest number of cells of a chain whose first suit has the parity `odd`, and
0 when there is no such chain. -/
def IsScore (g : Game) (odd : Bool) (s : Nat) : Prop :=
  (∀ c1 rest, IsChain g c1 rest → (decide ((g.board c1.1 c1.2).suit % 2 ≠ 0) = odd) →
    rest.length + 1 ≤ s) ∧
  (s = 0 ∨ ∃ c1 rest, IsChain g c1 rest ∧ decide ((g.board c1.1 c1.2).suit % 2 ≠ 0) = odd ∧
    rest.length + 1 = s)

/-- What one invocation of `get_path_length` computes: the final `*longest`
is the greatest of the incoming value and the `length` arguments of all
invocations it leads to whose cell has the suit `charToCheck`. -/
def PathResult (g : Game) (a : Nat × Nat × Nat) (lg ch L : Nat) : Prop :=
  lg ≤ L ∧
  (∀ b, Invokes g a b → (g.board b.1 b.2.1).suit = ch → b.2.2 ≤ L) ∧
  (L = lg ∨ ∃ b, Invokes g a b ∧ (g.board b.1 b.2.1).suit = ch ∧ L = b.2.2)

/-- The running maximum of `calc_scores` for the roots in `Done` whose suit has
the parity `odd`: `s` bounds the `length` argument of every invocation, started
from such a root, whose cell has the root's suit, and is reached by one of them
unless it is 0. -/
def ScoreOver (g : Game) (Done : Nat → Nat → Prop) (odd : Bool) (s : Nat) : Prop :=
  (∀ i j, Done i j → i < g.height → j < g.width → (g.board i j).suit ≠ 42 →
    decide ((g.board i j).suit % 2 ≠ 0) = odd →
    ∀ b, Invokes g (i, j, 1) b → (g.board b.1 b.2.1).suit = (g.board i j).suit → b.2.2 ≤ s) ∧
  (s = 0 ∨ ∃ i j, Done i j ∧ i < g.height ∧ j < g.width ∧ (g.board i j).suit ≠ 42 ∧
    decide ((g.board i j).suit % 2 ≠ 0) = odd ∧
    ∃ b, Invokes g (i, j, 1) b ∧ (g.board b.1 b.2.1).suit = (g.board i j).suit ∧ s = b.2.2)

/-- The body of the two loops of `calc_scores` for the cell `(i, j)`. -/
def calc_scores_cell (g : Game) (fuel i : Nat) (p : Nat × Nat) (j : Nat) : Option (Nat × Nat) :=
  if (g.board i j).suit = 42 then some p
  else if (g.board i j).suit % 2 ≠ 0 then
    (get_path_length g fuel i j 1 p.1 (g.board i j).suit).map (fun l => (l, p.2))
  else
    (get_path_length g fuel i j 1 p.2 (g.board i j).suit).map (fun l => (p.1, l))

/-! ## Concrete states used as instances -/

/-- A board given by its rows; cells outside the rows read as empty markers. -/
def boardOf (rows : List (List Card)) : Nat → Nat → Card :=
  fun r c => (rows.getD r []).getD c blank

/-- A card array holding the listed cards, then NUL characters. -/
def handOf (cards : List Card) (length : Int) : CardArray :=
  ⟨fun i => cards.getD i ⟨0, 0⟩, length⟩

/-- A 3x3 board in mid-game: `1A 2B 3A` in the top row, `4B` below the `3A`. -/
def demoScored : Game :=
  { width := 3
    height := 3
    turn := 1
    status := MIDDLE_GAME
    playerType := fun _ => 104
    board := boardOf [[⟨49, 65⟩, ⟨50, 66⟩, ⟨51, 65⟩], [blank, blank, ⟨52, 66⟩]]
    deckFile := [100]
    cardsDrawn := 11
    deck := handOf [] 11
    hands := fun _ => handOf [] 0 }

/-- No cell of the board is occupied. -/
def BoardEmpty (g : Game) : Prop :=
  ∀ r, r < g.height → ∀ c, c < g.width → (g.board r c).suit = 42

/-- The phase invariant of the data model: the phase is `New` exactly when the
board has no occupied cell. -/
def PhaseInv (g : Game) : Prop := g.status = NEW_GAME ↔ BoardEmpty g

/-- The cards a hand holds, in order: the first `length` slots of its array. -/
def handList (h : CardArray) : List Card := (List.range h.length.toNat).map h.cards

/-- The thirteen cards `1A 2B 3C 4D 5E 6F 7G 8H 9I 1J 2K 3L 4M`. -/
def demoDeck : List Card :=
  [⟨49, 65⟩, ⟨50, 66⟩, ⟨51, 67⟩, ⟨52, 68⟩, ⟨53, 69⟩, ⟨54, 70⟩, ⟨55, 71⟩, ⟨56, 72⟩,
    ⟨57, 73⟩, ⟨49, 74⟩, ⟨50, 75⟩, ⟨51, 76⟩, ⟨52, 77⟩]

/-- The state of a 3x3 game of two human players on the deck `demoDeck` (file
`d`) when player one is asked for the first move: player one holds
`1A 2B 3C 4D 5E 2K`, player two `6F 7G 8H 9I 1J`. -/
def demoFresh : Game :=
  { width := 3
    height := 3
    turn := 1
    status := NEW_GAME
    playerType := fun _ => 104
    board := fun _ _ => blank
    deckFile := [100]
    cardsDrawn := 11
    deck := handOf demoDeck 13
    hands := fun i =>
      if i = 0 then handOf [⟨49, 65⟩, ⟨50, 66⟩, ⟨51, 67⟩, ⟨52, 68⟩, ⟨53, 69⟩, ⟨50, 75⟩] 6
      else handOf [⟨54, 70⟩, ⟨55, 71⟩, ⟨56, 72⟩, ⟨57, 73⟩, ⟨49, 74⟩] 5 }

/-- The state `demoFresh` with only five cards `1A 2B 3C 4D 5E` in the hand of
player one, who is on turn. -/
def demoShort : Game :=
  { demoFresh with
    hands := fun i =>
      if i = 0 then handOf [⟨49, 65⟩, ⟨50, 66⟩, ⟨51, 67⟩, ⟨52, 68⟩, ⟨53, 69⟩] 5
      else handOf [⟨54, 70⟩, ⟨55, 71⟩, ⟨56, 72⟩, ⟨57, 73⟩, ⟨49, 74⟩] 5 }

/-- The cell `(row, column)` that `return_move` computes from the loop
variables `i` and `j`. -/
def scanCell (g : Game) (player i j : Nat) : Nat × Nat :=
  (if player ≠ PLAYER_ONE then g.height - i - 1 else i,
    if player ≠ PLAYER_ONE then g.width - j - 1 else j)

/-- The cells in row-major order, after the specification: rows 0 to
`height - 1`, in each row columns 0 to `width - 1`. -/
def rowMajor (height width : Nat) : List (Nat × Nat) :=
  (List.range height).flatMap (fun i => (List.range width).map (fun j => (i, j)))

/-- The cells in the mirrored order, after the specification: rows
`height - 1` down to 0, in each row columns `width - 1` down to 0. -/
def mirrored (height width : Nat) : List (Nat × Nat) :=
  (List.range height).reverse.flatMap (fun i => (List.range width).reverse.map (fun j => (i, j)))

/-- The text of the deck file `d`: the line `13` and the thirteen card lines of
`demoDeck`. -/
def demoDeckText : List Nat :=
  [49, 51, 10] ++ demoDeck.flatMap (fun c => [c.num, c.suit, 10])

/-- A file system holding the deck file `d` only. -/
def demoFs : List Nat → Option (List Nat) :=
  fun name => if name = [100] then some demoDeckText else none

/-- The command line `bark d 3 3 h h`. -/
def demoArgv : List (List Nat) :=
  [[98, 97, 114, 107], [100], [51], [51], [104], [104]]

/-- An uninitialised `Game`, read as zeros. -/
def demoStack : Game :=
  { width := 0
    height := 0
    turn := 0
    status := 0
    playerType := fun _ => 0
    board := fun _ _ => ⟨0, 0⟩
    deckFile := []
    cardsDrawn := 0
    deck := handOf [] 0
    hands := fun _ => handOf [] 0 }

/-- The first line `save_game` writes. -/
def save_header (g : Game) : List Nat :=
  fmt_d g.width ++ 32 :: (fmt_d g.height ++ 32 :: (fmt_d g.cardsDrawn ++ 32 :: fmt_d g.turn))

/-- The line `save_game` writes for the hand of player index `i`. -/
def save_hand (g : Game) (i : Nat) : List Nat :=
  save_cards (g.hands i).cards (if g.turn = i + 1 then HAND_SIZE else HAND_SIZE - 1)

/-- The lines `save_game` writes, without their line feeds. -/
def save_lines (g : Game) : List (List Nat) :=
  [save_header g, g.deckFile, save_hand g 0, save_hand g 1]
    ++ (List.range g.height).map (fun i => save_cards (g.board i) g.width)

/-- The state `g1` differs from `g` at most in the board and the status. -/
def SameExceptBoard (g g1 : Game) : Prop :=
  g1.width = g.width ∧ g1.height = g.height ∧ g1.turn = g.turn ∧
  g1.playerType = g.playerType ∧ g1.deckFile = g.deckFile ∧
  g1.cardsDrawn = g.cardsDrawn ∧ g1.deck = g.deck ∧ g1.hands = g.hands

/-- A card with a rank `'1'..'9'` and a suit `'A'..'Z'`. -/
def ValidCard (c : Card) : Prop :=
  (49 ≤ c.num ∧ c.num ≤ 57) ∧ (65 ≤ c.suit ∧ c.suit ≤ 90)

instance (c : Card) : Decidable (ValidCard c) := by
  unfold ValidCard; infer_instance

/-- A valid mid-game state, as the round-trip property lists it: width and
height in [3,100], the turn 1 or 2, six valid cards in the hand of the player
on turn and five in the other, the cursor between 11 and the deck length (and
an `int`), every board cell an empty marker or a valid card, the board not
full, the phase `New` on an empty board and `Middle` otherwise, and a deck file
name that is a C string. -/
def MidGame (g : Game) : Prop :=
  (3 ≤ g.width ∧ g.width ≤ 100) ∧ (3 ≤ g.height ∧ g.height ≤ 100) ∧
  (g.turn = 1 ∨ g.turn = 2) ∧
  (g.hands (g.turn - 1)).length = 6 ∧ (g.hands (2 - g.turn)).length = 5 ∧
  (∀ i, i < 2 → ∀ k, k < (g.hands i).length.toNat → ValidCard ((g.hands i).cards k)) ∧
  (11 ≤ g.cardsDrawn ∧ (g.cardsDrawn : Int) ≤ g.deck.length ∧ g.cardsDrawn < 2 ^ 31) ∧
  (∀ r, r < g.height → ∀ c, c < g.width → g.board r c = blank ∨ ValidCard (g.board r c)) ∧
  (∃ r, r < g.height ∧ ∃ c, c < g.width ∧ (g.board r c).suit = 42) ∧
  ((BoardEmpty g → g.status = NEW_GAME) ∧ (¬ BoardEmpty g → g.status = MIDDLE_GAME)) ∧
  (∀ c ∈ g.deckFile, c ≠ 0)

/-- The state `demoFresh` one move later: player one has played `1A` on the
centre cell, player two is on turn and has been dealt `3L`. -/
def demoMid : Game :=
  { width := 3
    height := 3
    turn := 2
    status := MIDDLE_GAME
    playerType := fun _ => 104
    board := boardOf [[], [blank, ⟨49, 65⟩]]
    deckFile := [100]
    cardsDrawn := 12
    deck := handOf demoDeck 13
    hands := fun i =>
      if i = 0 then handOf [⟨50, 66⟩, ⟨51, 67⟩, ⟨52, 68⟩, ⟨53, 69⟩, ⟨50, 75⟩, ⟨50, 75⟩] 5
      else handOf [⟨54, 70⟩, ⟨55, 71⟩, ⟨56, 72⟩, ⟨57, 73⟩, ⟨49, 74⟩, ⟨51, 76⟩] 6 }

/-- The file system `demoFs` after `demoMid` was saved to the file `s`. -/
def demoFsSaved : List Nat → Option (List Nat) :=
  fun name =>
    if name = [100] then some demoDeckText
    else if name = [115] then some (save_text demoMid)
    else none

/-- The state `demoMid` of a game whose deck file is named `a`, line feed, `b`. -/
def demoNewline : Game := { demoMid with deckFile := [97, 10, 98] }

/-- A file system in which the deck is readable under the name of
`demoNewline` and also under the name `a`, after `demoNewline` was saved to the
file `s`. -/
def demoFsNewline : List Nat → Option (List Nat) :=
  fun name =>
    if name = [97, 10, 98] then some demoDeckText
    else if name = [97] then some demoDeckText
    else if name = [115] then some (save_text demoNewline)
    else none

/-- The text of the deck file `e`: the line `13`, the card line `**` and the
last twelve card lines of `demoDeck`. -/
def demoStarDeckText : List Nat :=
  [49, 51, 10, 42, 42, 10] ++ demoDeck.tail.flatMap (fun c => [c.num, c.suit, 10])

/-- A file system holding the deck file `e` only. -/
def demoFsStar : List Nat → Option (List Nat) :=
  fun name => if name = [101] then some demoStarDeckText else none

/-- The command line `bark e 3 3 h h`. -/
def demoArgvStar : List (List Nat) :=
  [[98, 97, 114, 107], [101], [51], [51], [104], [104]]

/-- The number of cards `deal_cards` fills the hand of player index `i` to: six
for the player on turn, five for the other. -/
def dealTarget (g : Game) (i : Nat) : Nat :=
  if i + 1 = g.turn then HAND_SIZE else HAND_SIZE - 1

/-- The state `g1` differs from `g` at most in the hand of player index `i` and
in the cursor. -/
def DealFrame (i : Nat) (g g1 : Game) : Prop :=
  g1.width = g.width ∧ g1.height = g.height ∧ g1.turn = g.turn ∧ g1.status = g.status ∧
  g1.playerType = g.playerType ∧ g1.board = g.board ∧ g1.deckFile = g.deckFile ∧
  g1.deck = g.deck ∧ ∀ k, k ≠ i → g1.hands k = g.hands k

/-- The text of the deck file `t`: the line `10` followed by only the first
nine card lines of `demoDeck`. -/
def demoNineText : List Nat :=
  [49, 48, 10] ++ (demoDeck.take 9).flatMap (fun c => [c.num, c.suit, 10])

/-- A file system holding the deck file `t` only. -/
def demoFsNine : List Nat → Option (List Nat) :=
  fun name => if name = [116] then some demoNineText else none

/-- A 3x3 board that holds the single card `5A` on the centre cell. -/
def demoSingle : Game :=
  { demoScored with board := boardOf [[], [blank, ⟨53, 65⟩]] }

/-- The state `demoMid` with the card `1A` on every cell of the board. -/
def demoFull : Game :=
  { demoMid with board := fun _ _ => ⟨49, 65⟩ }

/-- The file system `demoFs` with the snapshot of `demoFull` in the file `f`. -/
def demoFsFull : List Nat → Option (List Nat) :=
  fun name =>
    if name = [100] then some demoDeckText
    else if name = [102] then some (save_text demoFull)
    else none

/-- The snapshot of `demoMid` followed by one more board row `******`. -/
def demoExtraRowText : List Nat :=
  save_text demoMid ++ [42, 42, 42, 42, 42, 42, 10]

/-- The snapshot of `demoMid` with the header line `2 3 12 2` (width 2). -/
def demoNarrowText : List Nat :=
  save_text { demoMid with width := 2 }

/-- The snapshot of `demoMid` behind the header line ` 3 3 12`: a leading
space and only three fields. -/
def demoThreeFieldText : List Nat :=
  [32, 51, 32, 51, 32, 49, 50, 10] ++ save_text demoMid

/-- The file system `demoFs` with the three snapshots above in the files `x`,
`w` and `u`. -/
def demoFsBroken : List Nat → Option (List Nat) :=
  fun name =>
    if name = [100] then some demoDeckText
    else if name = [120] then some demoExtraRowText
    else if name = [119] then some demoNarrowText
    else if name = [117] then some demoThreeFieldText
    else none

/-- The text of the deck file `n`: the line `10` and the first ten card lines of
`demoDeck`. -/
def demoTenText : List Nat :=
  [49, 48, 10] ++ (demoDeck.take 10).flatMap (fun c => [c.num, c.suit, 10])

/-- The text of the deck file `m`: the line `9` and the first nine card lines of
`demoDeck`. -/
def demoNineCardText : List Nat :=
  [57, 10] ++ (demoDeck.take 9).flatMap (fun c => [c.num, c.suit, 10])

/-- A file system holding the deck files `n` (ten cards) and `m` (nine cards). -/
def demoFsTen : List Nat → Option (List Nat) :=
  fun name =>
    if name = [110] then some demoTenText
    else if name = [109] then some demoNineCardText
    else none

/-- The command line `bark n 3 3 h h`. -/
def demoArgvTen : List (List Nat) :=
  [[98, 97, 114, 107], [110], [51], [51], [104], [104]]

/-- The command line `bark m 3 3 h h`. -/
def demoArgvNine : List (List Nat) :=
  [[98, 97, 114, 107], [109], [51], [51], [104], [104]]

/-! ## Reachable states and their invariants -/

/-- A well-formed cell or card: exactly the empty marker, or a rank `'1'..'9'`
together with a suit `'A'..'Z'`. -/
def WellFormed (c : Card) : Prop := c = blank ∨ ValidCard c

instance (c : Card) : Decidable (WellFormed c) := by
  unfold WellFormed; infer_instance

/-- Every cell of the board is well-formed. -/
def BoardWellFormed (g : Game) : Prop :=
  ∀ r, r < g.height → ∀ c, c < g.width → WellFormed (g.board r c)

/-- Every card of the deck satisfies `P`. -/
def DeckInv (P : Card → Prop) (g : Game) : Prop :=
  ∀ k : Nat, (k : Int) < g.deck.length → P (g.deck.cards k)

/-- The hand of player index `i` holds between 0 and 6 cards and each of them
satisfies `P`. -/
def HandInv (P : Card → Prop) (g : Game) (i : Nat) : Prop :=
  0 ≤ (g.hands i).length ∧ (g.hands i).length ≤ 6 ∧
    ∀ k : Nat, (k : Int) < (g.hands i).length → P ((g.hands i).cards k)

/-- The invariant of the loop of `game_loop` used for the board: the turn is 1
or 2, the board is well-formed, and so are the cards of the deck and of both
hands. -/
def LoopInv (g : Game) : Prop :=
  (g.turn = TURN_ONE ∨ g.turn = TURN_TWO) ∧ BoardWellFormed g ∧
    DeckInv WellFormed g ∧ HandInv WellFormed g 0 ∧ HandInv WellFormed g 1

/-- What the lines of a snapshot read so far have established, `lineN` being
the number of lines read. -/
def LoadInv (lineN : Nat) (g : Game) : Prop :=
  (1 ≤ lineN → (g.turn = TURN_ONE ∨ g.turn = TURN_TWO) ∧ BoardWellFormed g) ∧
  (2 ≤ lineN → DeckInv WellFormed g) ∧
  (3 ≤ lineN → HandInv WellFormed g 0) ∧
  (4 ≤ lineN → HandInv WellFormed g 1)

/-- The states at the head of the loop of `game_loop` in a run that enters the
loop with `g0`: `g0` itself, and the state after each turn that was played (the
loop condition held and `player_handler` returned with a committed move). -/
inductive Reachable (canOpen : List Nat → Bool) (g0 : Game) : Game → Prop
  | start : Reachable canOpen g0 g0
  | turn (g g1 : Game) (input rest : List (List Nat)) :
      Reachable canOpen g0 g → (game_loop_cond g).1 = true →
      game_loop_body canOpen (game_loop_cond g).2 input = .ok (g1, rest) →
      Reachable canOpen g0 g1

/-- The number of occupied cells of the board. -/
def occupied (g : Game) : Nat :=
  ((List.range g.height).map (fun r =>
    ((List.range g.width).filter (fun c => decide ((g.board r c).suit ≠ 42))).length)).sum

/-- The state `demoMid` with the empty marker in the first slot of the hand of
player two, who is on turn. -/
def demoMarkerMid : Game :=
  { demoMid with
    hands := fun i =>
      if i = 1 then handOf [blank, ⟨55, 71⟩, ⟨56, 72⟩, ⟨57, 73⟩, ⟨49, 74⟩, ⟨51, 76⟩] 6
      else demoMid.hands i }

/-- The file system `demoFs` with the snapshot of `demoMarkerMid` in the file
`p`: its second hand line is `**7G8H9I1J3L`. -/
def demoFsMarker : List Nat → Option (List Nat) :=
  fun name =>
    if name = [100] then some demoDeckText
    else if name = [112] then some (save_text demoMarkerMid)
    else none

/-- The command line `bark p h h`. -/
def demoArgvLoad : List (List Nat) :=
  [[98, 97, 114, 107], [112], [104], [104]]

/-- The invariant of the loop of `game_loop` in a game whose deck and hands
hold valid cards only: the turn is 1 or 2, the board has cells, the phase is
`New` exactly on an empty board, and every card of the deck and of both hands
is a valid card. -/
def PlayInv (g : Game) : Prop :=
  (g.turn = TURN_ONE ∨ g.turn = TURN_TWO) ∧ 0 < g.height ∧ 0 < g.width ∧ PhaseInv g ∧
    DeckInv ValidCard g ∧ HandInv ValidCard g 0 ∧ HandInv ValidCard g 1

/-! ## Files as text -/

/-- The text of a file that consists of the complete lines `lines`, each ended
by a line feed, followed by the characters `tail` after the last line feed. -/
def fileText (lines : List (List Nat)) (tail : List Nat) : List Nat :=
  lines.flatMap (fun l => l ++ [10]) ++ tail

/-- The command line `bark s h h`: load the snapshot `s`. -/
def demoArgvSaved : List (List Nat) :=
  [[98, 97, 114, 107], [115], [104], [104]]

/-- The text of the deck file `y`: the deck file `d` (the line `13` and thirteen
card lines) followed by the card `9Z` without a line feed. -/
def demoTailText : List Nat := demoDeckText ++ [57, 90]

/-- A file system holding the deck file `y` only. -/
def demoFsTail : List Nat → Option (List Nat) :=
  fun name => if name = [121] then some demoTailText else none

/-- The command line `bark y 3 3 h h`. -/
def demoArgvTail : List (List Nat) :=
  [[98, 97, 114, 107], [121], [51], [51], [104], [104]]

/-! ## Lemmas and theorems -/

/-! ### The path scorer -/

theorem get_neighbour_eq (g : Game) (c : Card) (row col : Nat) :
    get_neighbour g c row col =
      (decide ((around g row col).filter (fun p => qualifies g c p) ≠ []),
        (around g row col).filter (fun p => qualifies g c p)) := by
  unfold get_neighbour around
  simp only [get_neighbour_loop, qualifies]
  by_cases h1 : (g.board (wrap row 1 g.height) (wrap col 0 g.width)).num > c.num ∧
      (g.board (wrap row 1 g.height) (wrap col 0 g.width)).suit ≠ 42 <;>
  by_cases h2 : (g.board (wrap row 0 g.height) (wrap col 1 g.width)).num > c.num ∧
      (g.board (wrap row 0 g.height) (wrap col 1 g.width)).suit ≠ 42 <;>
  by_cases h3 : (g.board (wrap row (-1) g.height) (wrap col 0 g.width)).num > c.num ∧
      (g.board (wrap row (-1) g.height) (wrap col 0 g.width)).suit ≠ 42 <;>
  by_cases h4 : (g.board (wrap row 0 g.height) (wrap col (-1) g.width)).num > c.num ∧
      (g.board (wrap row 0 g.height) (wrap col (-1) g.width)).suit ≠ 42 <;>
  simp [h1, h2, h3, h4, List.filter]

theorem wrap_lt (v size : Nat) (d : Int) (hv : v < size) (hd : d = -1 ∨ d = 0 ∨ d = 1) :
    wrap v d size < size := by
  unfold wrap
  split
  · omega
  · rename_i hne
    have h0 : (0 : Int) ≤ (v : Int) + d := by omega
    have h1 := Int.tmod_lt_of_pos ((v : Int) + d) (show (0 : Int) < (size : Int) by omega)
    have h2 := Int.tmod_nonneg (size : Int) h0
    omega

theorem around_lt (g : Game) (row col : Nat) (hr : row < g.height) (hc : col < g.width)
    (p : Nat × Nat) (hp : p ∈ around g row col) : p.1 < g.height ∧ p.2 < g.width := by
  unfold around at hp
  simp only [List.mem_cons, List.mem_singleton, List.not_mem_nil, or_false] at hp
  rcases hp with h | h | h | h <;> subst h <;>
    (constructor <;> dsimp only <;> apply wrap_lt <;> first | assumption | omega)

theorem calls_iff (g : Game) (a b : Nat × Nat × Nat) :
    Calls g a b ↔ (b.1, b.2.1) ∈ around g a.1 a.2.1 ∧
      qualifies g (g.board a.1 a.2.1) (b.1, b.2.1) ∧ b.2.2 = a.2.2 + 1 := by
  unfold Calls
  rw [get_neighbour_eq]
  simp only [ne_eq, decide_not, Bool.not_eq_eq_eq_not, Bool.not_true, decide_eq_false_iff_not,
    List.mem_filter, decide_eq_true_eq]
  constructor
  · rintro ⟨_, ⟨h1, h2⟩, h3⟩
    exact ⟨h1, h2, h3⟩
  · rintro ⟨h1, h2, h3⟩
    refine ⟨?_, ⟨h1, h2⟩, h3⟩
    intro hnil
    have : (b.1, b.2.1) ∈ (around g a.1 a.2.1).filter (fun p => qualifies g (g.board a.1 a.2.1) p) := by
      simp [List.mem_filter, h1, h2]
    rw [hnil] at this
    simp at this

theorem get_path_length_succ (g : Game) (fuel row col len lg ch : Nat) :
    get_path_length g (fuel + 1) row col len lg ch =
      ((around g row col).filter (fun p => qualifies g (g.board row col) p)).foldlM
        (fun lg p => get_path_length g fuel p.1 p.2 (len + 1) lg ch)
        (if ch = (g.board row col).suit then (if lg < len then len else lg) else lg) := by
  simp only [get_path_length, get_neighbour_eq]
  by_cases h : (around g row col).filter (fun p => qualifies g (g.board row col) p) = []
  · simp [h]
  · simp [h]

theorem invokes_head (g : Game) (a b : Nat × Nat × Nat) :
    Invokes g a b ↔ b = a ∨ ∃ p, Calls g a p ∧ Invokes g p b := by
  unfold Invokes
  constructor
  · intro h
    rcases Relation.ReflTransGen.cases_head h with h | ⟨p, hp, hpb⟩
    · exact Or.inl h.symm
    · exact Or.inr ⟨p, hp, hpb⟩
  · rintro (h | ⟨p, hp, hpb⟩)
    · subst h; exact Relation.ReflTransGen.refl
    · exact Relation.ReflTransGen.head hp hpb

theorem get_path_length_fold (g : Game) (fuel len ch : Nat) (l : List (Nat × Nat))
    (ih : ∀ p ∈ l, ∀ lg, ∃ L, get_path_length g fuel p.1 p.2 (len + 1) lg ch = some L ∧
      PathResult g (p.1, p.2, len + 1) lg ch L) :
    ∀ lg, ∃ L, l.foldlM (fun lg p => get_path_length g fuel p.1 p.2 (len + 1) lg ch) lg = some L ∧
      lg ≤ L ∧
      (∀ p ∈ l, ∀ b, Invokes g (p.1, p.2, len + 1) b → (g.board b.1 b.2.1).suit = ch → b.2.2 ≤ L) ∧
      (L = lg ∨ ∃ p ∈ l, ∃ b, Invokes g (p.1, p.2, len + 1) b ∧
        (g.board b.1 b.2.1).suit = ch ∧ L = b.2.2) := by
  induction l with
  | nil =>
    intro lg
    exact ⟨lg, by simp [List.foldlM], le_refl _, by simp, Or.inl rfl⟩
  | cons p rest ihr =>
    intro lg
    obtain ⟨L1, h1, hle1, hub1, hat1⟩ := ih p (List.mem_cons_self _ _) lg
    obtain ⟨L2, h2, hle2, hub2, hat2⟩ :=
      ihr (fun q hq => ih q (List.mem_cons_of_mem _ hq)) L1
    refine ⟨L2, ?_, le_trans hle1 hle2, ?_, ?_⟩
    · simp only [List.foldlM, h1]
      exact h2
    · intro q hq b hb hs
      rcases List.mem_cons.mp hq with rfl | hq
      · exact le_trans (hub1 b hb hs) hle2
      · exact hub2 q hq b hb hs
    · rcases hat2 with h | ⟨q, hq, b, hb, hs, hL⟩
      · rcases hat1 with h' | ⟨b, hb, hs, hL⟩
        · exact Or.inl (h.trans h')
        · exact Or.inr ⟨p, List.mem_cons_self _ _, b, hb, hs, h.trans hL⟩
      · exact Or.inr ⟨q, List.mem_cons_of_mem _ hq, b, hb, hs, hL⟩

theorem get_path_length_spec (g : Game) (hv : ValidRanks g) :
    ∀ fuel row col len lg ch, row < g.height → col < g.width →
      (g.board row col).suit ≠ 42 → 58 ≤ fuel + (g.board row col).num →
      ∃ L, get_path_length g fuel row col len lg ch = some L ∧
        PathResult g (row, col, len) lg ch L := by
  intro fuel
  induction fuel with
  | zero =>
    intro row col len lg ch hr hc ho hf
    have := (hv row hr col hc ho).2
    omega
  | succ fuel ih =>
    intro row col len lg ch hr hc ho hf
    rw [get_path_length_succ]
    have hl : ∀ p ∈ (around g row col).filter (fun p => qualifies g (g.board row col) p),
        ∀ lg, ∃ L, get_path_length g fuel p.1 p.2 (len + 1) lg ch = some L ∧
          PathResult g (p.1, p.2, len + 1) lg ch L := by
      intro p hp lg'
      rw [List.mem_filter] at hp
      have hb := around_lt g row col hr hc p hp.1
      have hq : qualifies g (g.board row col) p := by simpa using hp.2
      have hn := (hv p.1 hb.1 p.2 hb.2 hq.2).2
      exact ih p.1 p.2 (len + 1) lg' ch hb.1 hb.2 hq.2 (by have := hq.1; omega)
    obtain ⟨L, hL, hle, hub, hat⟩ := get_path_length_fold g fuel len ch _ hl
      (if ch = (g.board row col).suit then (if lg < len then len else lg) else lg)
    refine ⟨L, hL, ?_, ?_, ?_⟩
    · split at hle
      · split at hle <;> omega
      · exact hle
    · intro b hb hs
      rcases (invokes_head g _ b).mp hb with rfl | ⟨p, hp, hpb⟩
      · simp only at hs
        rw [if_pos hs.symm] at hle
        simp only
        split at hle <;> omega
      · rw [calls_iff] at hp
        have hm : (p.1, p.2.1) ∈ (around g row col).filter
            (fun p => qualifies g (g.board row col) p) := by
          rw [List.mem_filter]; exact ⟨hp.1, by simpa using hp.2.1⟩
        have hpe : p = (p.1, p.2.1, len + 1) := by
          rcases p with ⟨a, b', c⟩; simp only at hp; simp [hp.2.2]
        rw [hpe] at hpb
        exact hub _ hm b hpb hs
    · rcases hat with h | ⟨p, hp, b, hb, hs, hLb⟩
      · by_cases hch : ch = (g.board row col).suit
        · rw [if_pos hch] at h
          by_cases hlt : lg < len
          · rw [if_pos hlt] at h
            exact Or.inr ⟨(row, col, len), (invokes_head g _ _).mpr (Or.inl rfl), hch.symm, h⟩
          · rw [if_neg hlt] at h
            exact Or.inl h
        · rw [if_neg hch] at h
          exact Or.inl h
      · refine Or.inr ⟨b, ?_, hs, hLb⟩
        rw [List.mem_filter] at hp
        refine (invokes_head g _ b).mpr (Or.inr ⟨(p.1, p.2, len + 1), ?_, hb⟩)
        rw [calls_iff]
        exact ⟨hp.1, by simpa using hp.2, rfl⟩
theorem wrap_zero (v size : Nat) (hv : v < size) : wrap v 0 size = v := by
  unfold wrap
  have h : (v : Int) + 0 ≠ -1 := by omega
  rw [if_neg h, Int.add_zero, Int.tmod_eq_emod (by omega) (by omega)]
  have := Int.emod_eq_of_lt (show (0 : Int) ≤ v by omega) (show (v : Int) < size by omega)
  omega

theorem wrap_one (v size : Nat) : wrap v 1 size = (v + 1) % size := by
  unfold wrap
  have h : (v : Int) + 1 ≠ -1 := by omega
  rw [if_neg h, Int.tmod_eq_emod (by omega) (by omega)]
  have : ((v : Int) + 1) % (size : Int) = (((v + 1) % size : Nat) : Int) := by
    push_cast; rfl
  omega

theorem wrap_neg_one (v size : Nat) (hv : v < size) :
    wrap v (-1) size = (v + size - 1) % size := by
  unfold wrap
  by_cases h0 : v = 0
  · subst h0
    simp only [Nat.cast_zero, zero_add, if_true]
    rw [Nat.mod_eq_of_lt (by omega)]
  · have h : (v : Int) + -1 ≠ -1 := by omega
    rw [if_neg h, Int.tmod_eq_emod (by omega) (by omega)]
    have e1 : (v : Int) + -1 = ((v - 1 : Nat) : Int) := by omega
    rw [e1]
    have e2 : (v + size - 1) % size = v - 1 := by
      have : v + size - 1 = (v - 1) + size := by omega
      rw [this, Nat.add_mod_right, Nat.mod_eq_of_lt (by omega)]
    rw [e2]
    have := Int.emod_eq_of_lt (show (0 : Int) ≤ ((v - 1 : Nat) : Int) by omega)
      (show ((v - 1 : Nat) : Int) < size by omega)
    omega

theorem mem_around_iff (g : Game) (row col : Nat) (hr : row < g.height) (hc : col < g.width)
    (p : Nat × Nat) : p ∈ around g row col ↔ torusAdj g.height g.width (row, col) p := by
  unfold around torusAdj
  rw [wrap_zero _ _ hr, wrap_zero _ _ hc, wrap_one, wrap_one,
    wrap_neg_one _ _ hr, wrap_neg_one _ _ hc]
  rcases p with ⟨a, b⟩
  simp only [List.mem_cons, Prod.mk.injEq, List.mem_singleton, List.not_mem_nil, or_false]
  tauto
theorem chain_invokes (g : Game) (rest : List (Nat × Nat)) :
    ∀ (c1 : Nat × Nat) (len : Nat),
      (∀ p ∈ c1 :: rest, p.1 < g.height ∧ p.2 < g.width ∧ (g.board p.1 p.2).suit ≠ 42) →
      List.Chain (fun a b => torusAdj g.height g.width a b ∧
        (g.board a.1 a.2).num < (g.board b.1 b.2).num) c1 rest →
      Invokes g (c1.1, c1.2, len)
        (((c1 :: rest).getLast (List.cons_ne_nil c1 rest)).1,
          ((c1 :: rest).getLast (List.cons_ne_nil c1 rest)).2, len + rest.length) := by
  induction rest with
  | nil =>
    intro c1 len _ _
    exact (invokes_head g _ _).mpr (Or.inl rfl)
  | cons c2 rest ih =>
    intro c1 len hall hch
    rw [List.chain_cons] at hch
    have h1 := hall c1 (List.mem_cons_self _ _)
    have h2 := hall c2 (List.mem_cons_of_mem _ (List.mem_cons_self _ _))
    have hrec := ih c2 (len + 1) (fun p hp => hall p (List.mem_cons_of_mem _ hp)) hch.2
    refine (invokes_head g _ _).mpr (Or.inr ⟨(c2.1, c2.2, len + 1), ?_, ?_⟩)
    · rw [calls_iff]
      refine ⟨(mem_around_iff g c1.1 c1.2 h1.1 h1.2.1 _).mpr hch.1.1, ⟨hch.1.2, h2.2.2⟩, rfl⟩
    · rw [List.getLast_cons (List.cons_ne_nil c2 rest)]
      have e : len + (c2 :: rest).length = len + 1 + rest.length := by
        simp only [List.length_cons]; omega
      rw [e]
      exact hrec

theorem invokes_chain (g : Game) (a b : Nat × Nat × Nat) (h : Invokes g a b) :
    a.1 < g.height → a.2.1 < g.width → (g.board a.1 a.2.1).suit ≠ 42 →
    ∃ rest : List (Nat × Nat),
      (∀ p ∈ (a.1, a.2.1) :: rest,
        p.1 < g.height ∧ p.2 < g.width ∧ (g.board p.1 p.2).suit ≠ 42) ∧
      List.Chain (fun a b => torusAdj g.height g.width a b ∧
        (g.board a.1 a.2).num < (g.board b.1 b.2).num) (a.1, a.2.1) rest ∧
      ((a.1, a.2.1) :: rest).getLast (List.cons_ne_nil _ rest) = (b.1, b.2.1) ∧
      b.2.2 = a.2.2 + rest.length := by
  unfold Invokes at h
  induction h using Relation.ReflTransGen.head_induction_on with
  | refl =>
    intro hr hc ho
    refine ⟨[], ?_, List.Chain.nil, rfl, rfl⟩
    intro p hp
    rw [List.mem_singleton] at hp
    subst hp
    exact ⟨hr, hc, ho⟩
  | @head a c hac _ ih =>
    intro hr hc ho
    rw [calls_iff] at hac
    have hb := around_lt g a.1 a.2.1 hr hc _ hac.1
    obtain ⟨rest, hall, hch, hlast, hlen⟩ := ih hb.1 hb.2 hac.2.1.2
    refine ⟨(c.1, c.2.1) :: rest, ?_, ?_, ?_, ?_⟩
    · intro p hp
      rcases List.mem_cons.mp hp with rfl | hp
      · exact ⟨hr, hc, ho⟩
      · exact hall p hp
    · rw [List.chain_cons]
      exact ⟨⟨(mem_around_iff g a.1 a.2.1 hr hc _).mp hac.1, hac.2.1.1⟩, hch⟩
    · rw [List.getLast_cons (List.cons_ne_nil _ rest)]
      exact hlast
    · rw [hlen, hac.2.2]
      simp only [List.length_cons]
      omega
theorem calc_scores_eq (g : Game) (fuel : Nat) :
    calc_scores g fuel =
      (List.range g.height).foldlM (fun p i =>
        (List.range g.width).foldlM (calc_scores_cell g fuel i) p) (0, 0) := rfl

theorem scoreOver_mono (g : Game) (D D' : Nat → Nat → Prop) (odd : Bool) (s s' : Nat)
    (h : ScoreOver g D odd s) (hs : s = s')
    (hD : ∀ i j, D' i j → i < g.height → j < g.width → (g.board i j).suit ≠ 42 →
      decide ((g.board i j).suit % 2 ≠ 0) = odd → D i j)
    (hD' : ∀ i j, D i j → D' i j) : ScoreOver g D' odd s' := by
  subst hs
  refine ⟨?_, ?_⟩
  · intro i j hd hi hj ho hp
    exact h.1 i j (hD i j hd hi hj ho hp) hi hj ho hp
  · rcases h.2 with h0 | ⟨i, j, hd, rest⟩
    · exact Or.inl h0
    · exact Or.inr ⟨i, j, hD' i j hd, rest⟩

theorem scoreOver_add (g : Game) (D : Nat → Nat → Prop) (odd : Bool) (s L i j : Nat)
    (h : ScoreOver g D odd s) (hi : i < g.height) (hj : j < g.width)
    (ho : (g.board i j).suit ≠ 42) (hp : decide ((g.board i j).suit % 2 ≠ 0) = odd)
    (hL : PathResult g (i, j, 1) s (g.board i j).suit L) :
    ScoreOver g (fun r c => D r c ∨ (r = i ∧ c = j)) odd L := by
  obtain ⟨hle, hub, hat⟩ := hL
  refine ⟨?_, ?_⟩
  · intro r c hd hr hc hoc hpc b hb hs
    rcases hd with hd | ⟨rfl, rfl⟩
    · exact le_trans (h.1 r c hd hr hc hoc hpc b hb hs) hle
    · exact hub b hb hs
  · rcases hat with h0 | ⟨b, hb, hs, hLb⟩
    · rcases h.2 with hz | ⟨r, c, hd, rest⟩
      · exact Or.inl (h0.trans hz)
      · refine Or.inr ⟨r, c, Or.inl hd, ?_⟩
        rw [h0]; exact rest
    · exact Or.inr ⟨i, j, Or.inr ⟨rfl, rfl⟩, hi, hj, ho, hp, b, hb, hs, hLb⟩

theorem calc_scores_cell_spec (g : Game) (hv : ValidRanks g) (fuel : Nat) (hf : 9 ≤ fuel)
    (D : Nat → Nat → Prop) (i j : Nat) (hi : i < g.height) (hj : j < g.width) (p : Nat × Nat)
    (h1 : ScoreOver g D true p.1) (h2 : ScoreOver g D false p.2) :
    ∃ p', calc_scores_cell g fuel i p j = some p' ∧
      ScoreOver g (fun r c => D r c ∨ (r = i ∧ c = j)) true p'.1 ∧
      ScoreOver g (fun r c => D r c ∨ (r = i ∧ c = j)) false p'.2 := by
  unfold calc_scores_cell
  by_cases ho : (g.board i j).suit = 42
  · rw [if_pos ho]
    refine ⟨p, rfl, ?_, ?_⟩
    · refine scoreOver_mono g D _ true _ _ h1 rfl ?_ (fun _ _ h => Or.inl h)
      rintro r c (hd | ⟨rfl, rfl⟩) _ _ hoc _
      · exact hd
      · exact absurd ho hoc
    · refine scoreOver_mono g D _ false _ _ h2 rfl ?_ (fun _ _ h => Or.inl h)
      rintro r c (hd | ⟨rfl, rfl⟩) _ _ hoc _
      · exact hd
      · exact absurd ho hoc
  · rw [if_neg ho]
    have hn := hv i hi j hj ho
    by_cases hpar : (g.board i j).suit % 2 ≠ 0
    · rw [if_pos hpar]
      obtain ⟨L, hL, hres⟩ := get_path_length_spec g hv fuel i j 1 p.1 (g.board i j).suit
        hi hj ho (by omega)
      refine ⟨(L, p.2), by rw [hL]; rfl, ?_, ?_⟩
      · exact scoreOver_add g D true p.1 L i j h1 hi hj ho (by simpa using hpar) hres
      · refine scoreOver_mono g D _ false _ _ h2 rfl ?_ (fun _ _ h => Or.inl h)
        rintro r c (hd | ⟨rfl, rfl⟩) _ _ _ hpc
        · exact hd
        · simp [hpar] at hpc
    · rw [if_neg hpar]
      obtain ⟨L, hL, hres⟩ := get_path_length_spec g hv fuel i j 1 p.2 (g.board i j).suit
        hi hj ho (by omega)
      refine ⟨(p.1, L), by rw [hL]; rfl, ?_, ?_⟩
      · refine scoreOver_mono g D _ true _ _ h1 rfl ?_ (fun _ _ h => Or.inl h)
        rintro r c (hd | ⟨rfl, rfl⟩) _ _ _ hpc
        · exact hd
        · simp [hpar] at hpc
      · exact scoreOver_add g D false p.2 L i j h2 hi hj ho (by simpa using hpar) hres

theorem calc_scores_row_spec (g : Game) (hv : ValidRanks g) (fuel : Nat) (hf : 9 ≤ fuel)
    (i : Nat) (hi : i < g.height) :
    ∀ k, k ≤ g.width → ∀ p : Nat × Nat,
      ScoreOver g (fun r _ => r < i) true p.1 → ScoreOver g (fun r _ => r < i) false p.2 →
      ∃ p', (List.range k).foldlM (calc_scores_cell g fuel i) p = some p' ∧
        ScoreOver g (fun r c => r < i ∨ (r = i ∧ c < k)) true p'.1 ∧
        ScoreOver g (fun r c => r < i ∨ (r = i ∧ c < k)) false p'.2 := by
  intro k
  induction k with
  | zero =>
    intro _ p h1 h2
    refine ⟨p, rfl, ?_, ?_⟩
    · exact scoreOver_mono g _ _ true _ _ h1 rfl
        (fun r c h _ _ _ _ => by rcases h with h | ⟨_, h⟩; exact h; omega) (fun _ _ h => Or.inl h)
    · exact scoreOver_mono g _ _ false _ _ h2 rfl
        (fun r c h _ _ _ _ => by rcases h with h | ⟨_, h⟩; exact h; omega) (fun _ _ h => Or.inl h)
  | succ k ih =>
    intro hk p h1 h2
    obtain ⟨p1, hp1, a1, a2⟩ := ih (by omega) p h1 h2
    obtain ⟨p2, hp2, b1, b2⟩ := calc_scores_cell_spec g hv fuel hf _ i k hi (by omega) p1 a1 a2
    refine ⟨p2, ?_, ?_, ?_⟩
    · rw [List.range_succ, List.foldlM_append, hp1]
      simp only [Option.bind_eq_bind, Option.some_bind, List.foldlM, hp2]
      rfl
    · exact scoreOver_mono g _ _ true _ _ b1 rfl
        (fun r c h _ _ _ _ => by
          rcases h with h | ⟨h, h'⟩
          · exact Or.inl (Or.inl h)
          · by_cases e : c = k
            · exact Or.inr ⟨h, e⟩
            · exact Or.inl (Or.inr ⟨h, by omega⟩))
        (fun r c h => by
          rcases h with (h | ⟨h, h'⟩) | ⟨h, h'⟩
          · exact Or.inl h
          · exact Or.inr ⟨h, by omega⟩
          · exact Or.inr ⟨h, by omega⟩)
    · exact scoreOver_mono g _ _ false _ _ b2 rfl
        (fun r c h _ _ _ _ => by
          rcases h with h | ⟨h, h'⟩
          · exact Or.inl (Or.inl h)
          · by_cases e : c = k
            · exact Or.inr ⟨h, e⟩
            · exact Or.inl (Or.inr ⟨h, by omega⟩))
        (fun r c h => by
          rcases h with (h | ⟨h, h'⟩) | ⟨h, h'⟩
          · exact Or.inl h
          · exact Or.inr ⟨h, by omega⟩
          · exact Or.inr ⟨h, by omega⟩)

theorem calc_scores_rows_spec (g : Game) (hv : ValidRanks g) (fuel : Nat) (hf : 9 ≤ fuel) :
    ∀ k, k ≤ g.height →
      ∃ p', (List.range k).foldlM (fun p i =>
          (List.range g.width).foldlM (calc_scores_cell g fuel i) p) (0, 0) = some p' ∧
        ScoreOver g (fun r _ => r < k) true p'.1 ∧
        ScoreOver g (fun r _ => r < k) false p'.2 := by
  intro k
  induction k with
  | zero =>
    intro _
    refine ⟨(0, 0), rfl, ⟨?_, Or.inl rfl⟩, ⟨?_, Or.inl rfl⟩⟩
    · intro i j h; omega
    · intro i j h; omega
  | succ k ih =>
    intro hk
    obtain ⟨p1, hp1, a1, a2⟩ := ih (by omega)
    obtain ⟨p2, hp2, b1, b2⟩ :=
      calc_scores_row_spec g hv fuel hf k (by omega) g.width (le_refl _) p1 a1 a2
    refine ⟨p2, ?_, ?_, ?_⟩
    · rw [List.range_succ, List.foldlM_append, hp1]
      simp only [Option.bind_eq_bind, Option.some_bind, List.foldlM, hp2]
      rfl
    · exact scoreOver_mono g _ _ true _ _ b1 rfl
        (fun r c h _ hc _ _ => by
          by_cases e : r = k
          · exact Or.inr ⟨e, hc⟩
          · exact Or.inl (by omega))
        (fun r c h => by rcases h with h | ⟨h, _⟩ <;> omega)
    · exact scoreOver_mono g _ _ false _ _ b2 rfl
        (fun r c h _ hc _ _ => by
          by_cases e : r = k
          · exact Or.inr ⟨e, hc⟩
          · exact Or.inl (by omega))
        (fun r c h => by rcases h with h | ⟨h, _⟩ <;> omega)

theorem scoreOver_isScore (g : Game) (odd : Bool) (s : Nat)
    (h : ScoreOver g (fun r _ => r < g.height) odd s) : IsScore g odd s := by
  refine ⟨?_, ?_⟩
  · intro c1 rest hch hp
    obtain ⟨hall, hchain, hlast⟩ := hch
    have h1 := hall c1 (List.mem_cons_self _ _)
    have hinv := chain_invokes g rest c1 1 hall hchain
    have := h.1 c1.1 c1.2 h1.1 h1.1 h1.2.1 h1.2.2 hp _ hinv hlast
    simp only at this
    omega
  · rcases h.2 with h0 | ⟨i, j, _, hi, hj, ho, hp, b, hb, hs, hsb⟩
    · exact Or.inl h0
    · obtain ⟨rest, hall, hchain, hlast, hlen⟩ := invokes_chain g _ b hb hi hj ho
      refine Or.inr ⟨(i, j), rest, ⟨hall, hchain, ?_⟩, hp, ?_⟩
      · simp only at hlast
        rw [hlast]
        exact hs
      · simp only at hlen
        omega
theorem validCards_ranks (g : Game) (hv : ValidCards g) : ValidRanks g :=
  fun r hr c hc ho => (hv r hr c hc ho).1

theorem foldlM_option_mono {α β : Type} (f f' : β → α → Option β)
    (hf : ∀ b a r, f b a = some r → f' b a = some r) (l : List α) :
    ∀ b r, l.foldlM f b = some r → l.foldlM f' b = some r := by
  induction l with
  | nil => intro b r h; simpa [List.foldlM] using h
  | cons a rest ih =>
    intro b r h
    simp only [List.foldlM] at h ⊢
    cases hfa : f b a with
    | none => rw [hfa] at h; simp at h
    | some b1 =>
      rw [hfa] at h
      rw [hf b a b1 hfa]
      exact ih b1 r h

theorem get_path_length_fuel_succ (g : Game) :
    ∀ fuel row col len lg ch L, get_path_length g fuel row col len lg ch = some L →
      get_path_length g (fuel + 1) row col len lg ch = some L := by
  intro fuel
  induction fuel with
  | zero => intro row col len lg ch L h; simp [get_path_length] at h
  | succ fuel ih =>
    intro row col len lg ch L h
    rw [get_path_length_succ] at h ⊢
    exact foldlM_option_mono _ _ (fun b a r hr => ih a.1 a.2 (len + 1) b ch r hr) _ _ _ h

theorem get_path_length_fuel_le (g : Game) (fuel fuel' row col len lg ch L : Nat)
    (hle : fuel ≤ fuel') (h : get_path_length g fuel row col len lg ch = some L) :
    get_path_length g fuel' row col len lg ch = some L := by
  induction hle with
  | refl => exact h
  | step _ ih => exact get_path_length_fuel_succ g _ row col len lg ch L ih

theorem invokes_length_le (g : Game) (hv : ValidRanks g) (row col : Nat)
    (hr : row < g.height) (hc : col < g.width) (ho : (g.board row col).suit ≠ 42)
    (b : Nat × Nat × Nat) (h : Invokes g (row, col, 1) b) :
    b.1 < g.height ∧ b.2.1 < g.width ∧ (g.board b.1 b.2.1).suit ≠ 42 ∧
      b.2.2 + 48 ≤ (g.board b.1 b.2.1).num := by
  unfold Invokes at h
  induction h with
  | refl =>
    have := hv row hr col hc ho
    exact ⟨hr, hc, ho, by simp only; omega⟩
  | @tail a c _ hac ih =>
    rw [calls_iff] at hac
    have hb := around_lt g a.1 a.2.1 ih.1 ih.2.1 _ hac.1
    have hq := hac.2.1
    unfold qualifies at hq
    simp only at hq hb
    exact ⟨hb.1, hb.2, hq.2, by have := ih.2.2.2; have := hac.2.2; omega⟩

/-- C1: on a board whose occupied cells hold ranks `'1'..'9'` and suits
`'A'..'Z'`, `calc_scores` returns a pair (the recursion ends within the fuel 9)
and the pair is the reference one: player one's score is the greatest number of
cells of a chain of occupied, toroidally adjacent cells with strictly
increasing rank whose last suit equals its first suit and whose first suit has
an odd character code, player two's the same for an even code, and a player
without such a chain scores 0. -/
theorem calc_scores_is_reference (g : Game) (hv : ValidCards g) (fuel : Nat) (hf : 9 ≤ fuel) :
    ∃ s1 s2, calc_scores g fuel = some (s1, s2) ∧ IsScore g true s1 ∧ IsScore g false s2 := by
  obtain ⟨p, hp, h1, h2⟩ :=
    calc_scores_rows_spec g (validCards_ranks g hv) fuel hf g.height (le_refl _)
  exact ⟨p.1, p.2, by rw [calc_scores_eq, hp], scoreOver_isScore g true _ h1,
    scoreOver_isScore g false _ h2⟩

theorem demoScored_valid : ValidCards demoScored := by
  unfold ValidCards
  decide

theorem calc_scores_is_reference_witness :
    calc_scores demoScored 9 = some (3, 3) ∧ IsScore demoScored true 3 ∧
      IsScore demoScored false 3 := by
  obtain ⟨s1, s2, h, h1, h2⟩ :=
    calc_scores_is_reference demoScored demoScored_valid 9 (le_refl _)
  have e : calc_scores demoScored 9 = some (3, 3) := by decide
  rw [e] at h
  simp only [Option.some.injEq, Prod.mk.injEq] at h
  rw [← h.1] at h1
  rw [← h.2] at h2
  exact ⟨e, h1, h2⟩

/-- C2: on a board of any height and width whose occupied cells hold ranks
`'1'..'9'`, the recursion of `get_path_length` started at an occupied cell with
length 1 ends (with any fuel from 9 on it returns, and the value does not
depend on the fuel), every invocation it leads to has a `length` argument of
at most 9, and both scores of `calc_scores` are at most 9. -/
theorem get_path_length_bounded (g : Game) (hv : ValidRanks g) :
    (∀ row col, row < g.height → col < g.width → (g.board row col).suit ≠ 42 →
      (∀ longest ch, ∃ L, ∀ fuel, 9 ≤ fuel →
        get_path_length g fuel row col 1 longest ch = some L) ∧
      (∀ b, Invokes g (row, col, 1) b → b.2.2 ≤ 9)) ∧
    (∀ fuel, 9 ≤ fuel → ∃ s1 s2, calc_scores g fuel = some (s1, s2) ∧ s1 ≤ 9 ∧ s2 ≤ 9) := by
  have hlen : ∀ row col, row < g.height → col < g.width → (g.board row col).suit ≠ 42 →
      ∀ b, Invokes g (row, col, 1) b → b.2.2 ≤ 9 := by
    intro row col hr hc ho b hb
    obtain ⟨h1, h2, h3, h4⟩ := invokes_length_le g hv row col hr hc ho b hb
    have := (hv b.1 h1 b.2.1 h2 h3).2
    omega
  refine ⟨?_, ?_⟩
  · intro row col hr hc ho
    refine ⟨?_, hlen row col hr hc ho⟩
    intro longest ch
    have hn := hv row hr col hc ho
    obtain ⟨L, hL, _⟩ := get_path_length_spec g hv 9 row col 1 longest ch hr hc ho (by omega)
    exact ⟨L, fun fuel hf => get_path_length_fuel_le g 9 fuel row col 1 longest ch L hf hL⟩
  · intro fuel hf
    obtain ⟨p, hp, h1, h2⟩ := calc_scores_rows_spec g hv fuel hf g.height (le_refl _)
    refine ⟨p.1, p.2, by rw [calc_scores_eq, hp], ?_, ?_⟩
    · rcases h1.2 with h0 | ⟨i, j, _, hi, hj, ho, _, b, hb, _, hs⟩
      · omega
      · have := hlen i j hi hj ho b hb; omega
    · rcases h2.2 with h0 | ⟨i, j, _, hi, hj, ho, _, b, hb, _, hs⟩
      · omega
      · have := hlen i j hi hj ho b hb; omega

theorem get_path_length_bounded_witness :
    ValidRanks demoScored ∧ get_path_length demoScored 9 0 0 1 0 65 = some 3 ∧
      (∀ b, Invokes demoScored (0, 0, 1) b → b.2.2 ≤ 9) ∧
      ∃ s1 s2, calc_scores demoScored 9 = some (s1, s2) ∧ s1 ≤ 9 ∧ s2 ≤ 9 := by
  have hv : ValidRanks demoScored := by unfold ValidRanks; decide
  have h := get_path_length_bounded demoScored hv
  exact ⟨hv, by decide, (h.1 0 0 (by decide) (by decide) (by decide)).2, h.2 9 (le_refl _)⟩

/-! ### Saving and loading: numbers -/

theorem fmt_d_aux_spec :
    ∀ fuel n acc, n < fuel →
      ∃ ds, fmt_d_aux fuel n acc = ds ++ acc ∧ ds ≠ [] ∧ (∀ c ∈ ds, 48 ≤ c ∧ c ≤ 57) ∧
        ds.foldl (fun a d => 10 * a + (d - 48)) 0 = n := by
  intro fuel
  induction fuel with
  | zero => intro n acc h; omega
  | succ fuel ih =>
    intro n acc hn
    unfold fmt_d_aux
    by_cases h10 : n < 10
    · rw [if_pos h10]
      refine ⟨[48 + n], rfl, by simp, ?_, ?_⟩
      · intro c hc
        rw [List.mem_singleton] at hc
        omega
      · simp
    · rw [if_neg h10]
      obtain ⟨ds, h1, h2, h3, h4⟩ := ih (n / 10) ((48 + n % 10) :: acc) (by omega)
      refine ⟨ds ++ [48 + n % 10], by rw [h1]; simp, by simp, ?_, ?_⟩
      · intro c hc
        rcases List.mem_append.mp hc with hc | hc
        · exact h3 c hc
        · rw [List.mem_singleton] at hc
          omega
      · rw [List.foldl_append, h4]
        simp only [List.foldl_cons, List.foldl_nil]
        omega

theorem fmt_d_spec (n : Nat) :
    fmt_d n ≠ [] ∧ (∀ c ∈ fmt_d n, 48 ≤ c ∧ c ≤ 57) ∧
      (fmt_d n).foldl (fun a d => 10 * a + (d - 48)) 0 = n := by
  obtain ⟨ds, h1, h2, h3, h4⟩ := fmt_d_aux_spec (n + 1) n [] (by omega)
  unfold fmt_d
  rw [h1, List.append_nil]
  exact ⟨h2, h3, h4⟩

theorem takeWhile_all {α : Type} (p : α → Bool) (l : List α) (h : ∀ c ∈ l, p c = true) :
    l.takeWhile p = l ∧ l.dropWhile p = [] := by
  induction l with
  | nil => simp
  | cons a rest ih =>
    have ha := h a (List.mem_cons_self _ _)
    have hr := ih (fun c hc => h c (List.mem_cons_of_mem _ hc))
    simp [List.takeWhile, List.dropWhile, ha, hr.1, hr.2]

theorem strtol_digits (ds : List Nat) (hne : ds ≠ []) (hd : ∀ c ∈ ds, 48 ≤ c ∧ c ≤ 57) :
    strtol ds =
      (max LONG_MIN (min LONG_MAX ((ds.foldl (fun a d => 10 * a + (d - 48)) 0 : Nat) : Int)), []) := by
  obtain ⟨c, rest, rfl⟩ := List.exists_cons_of_ne_nil hne
  have hc := hd c (List.mem_cons_self _ _)
  have hall := takeWhile_all isdigit (c :: rest) (fun x hx => by
    have := hd x hx
    simp [isdigit, this.1, this.2])
  have hsp : isspace c = false := by
    unfold isspace
    simp only [Bool.or_eq_false_iff, decide_eq_false_iff_not, Bool.and_eq_false_imp,
      decide_eq_true_eq]
    omega
  have h45 : c ≠ 45 := by omega
  have h43 : c ≠ 43 := by omega
  unfold strtol
  have hdw : (c :: rest).dropWhile isspace = c :: rest := by
    simp [List.dropWhile, hsp]
  rw [hdw]
  have hm : (match c :: rest with
      | 45 :: u => (true, u)
      | 43 :: u => (false, u)
      | _ => (false, c :: rest)) = (false, c :: rest) := by
    split
    · rename_i heq; simp only [List.cons.injEq] at heq; exact absurd heq.1 h45
    · rename_i heq; simp only [List.cons.injEq] at heq; exact absurd heq.1 h43
    · rfl
  simp only [hm, hall.1, hall.2]
  simp

theorem read_int_fmt_d (n : Nat) (hn : n < 2 ^ 31) : read_int (fmt_d n) = (n : Int) := by
  obtain ⟨h1, h2, h3⟩ := fmt_d_spec n
  unfold read_int
  rw [strtol_digits _ h1 h2, h3]
  simp only [List.length_nil, gt_iff_lt, lt_self_iff_false, if_false]
  unfold toInt32 LONG_MIN LONG_MAX
  have : (n : Int) < 2 ^ 31 := by exact_mod_cast hn
  omega

/-! ### Saving and loading: the header line -/

theorem check_spaces_loop_skip (l : List Nat) (hl : ∀ c ∈ l, c ≠ 32) :
    ∀ rest k, check_spaces_loop (l ++ rest) k = check_spaces_loop rest k := by
  induction l with
  | nil => intro rest k; rfl
  | cons c l ih =>
    intro rest k
    have hc := hl c (List.mem_cons_self _ _)
    have ih' := ih (fun x hx => hl x (List.mem_cons_of_mem _ hx)) rest k
    cases hlr : l ++ rest with
    | nil =>
      rw [List.cons_append, hlr]
      have hrest : rest = [] := (List.append_eq_nil.mp hlr).2
      rw [hrest]
      rfl
    | cons d t =>
      rw [List.cons_append, hlr]
      rw [hlr] at ih'
      simp only [check_spaces_loop, if_neg hc]
      exact ih'

theorem check_spaces_loop_space (d : Nat) (t : List Nat) (k : Nat) (hd : d ≠ 32) :
    check_spaces_loop (32 :: d :: t) k = check_spaces_loop (d :: t) (k + 1) := by
  simp [check_spaces_loop, hd]

theorem digits_no_space (ds : List Nat) (hd : ∀ c ∈ ds, 48 ≤ c ∧ c ≤ 57) :
    ∀ c ∈ ds, c ≠ 32 := by
  intro c hc
  have := hd c hc
  omega

theorem strtok_first (ds rest : List Nat) (hne : ds ≠ []) (hd : ∀ c ∈ ds, c ≠ 32) :
    strtok (ds ++ 32 :: rest) = (some ds, rest) := by
  obtain ⟨c, l, rfl⟩ := List.exists_cons_of_ne_nil hne
  have hc := hd c (List.mem_cons_self _ _)
  unfold strtok
  have hdw : (c :: l ++ 32 :: rest).dropWhile (fun c => decide (c = 32)) = c :: l ++ 32 :: rest := by
    simp [List.dropWhile, hc]
  simp only [hdw]
  have htw : ∀ (l : List Nat), (∀ c ∈ l, c ≠ 32) →
      (l ++ 32 :: rest).takeWhile (fun c => decide (c ≠ 32)) = l ∧
      (l ++ 32 :: rest).dropWhile (fun c => decide (c ≠ 32)) = 32 :: rest := by
    intro l
    induction l with
    | nil => intro _; simp [List.takeWhile, List.dropWhile]
    | cons a l ih =>
      intro h
      have ha := h a (List.mem_cons_self _ _)
      have := ih (fun x hx => h x (List.mem_cons_of_mem _ hx))
      have hda : decide (a ≠ 32) = true := by simpa using ha
      rw [List.cons_append, List.takeWhile_cons, List.dropWhile_cons]
      simp only [hda, if_true]
      exact ⟨by rw [this.1], this.2⟩
  have h2 := htw (c :: l) hd
  rw [h2.1, h2.2]
  simp

theorem strtok_last (ds : List Nat) (hne : ds ≠ []) (hd : ∀ c ∈ ds, c ≠ 32) :
    strtok ds = (some ds, []) := by
  obtain ⟨c, l, rfl⟩ := List.exists_cons_of_ne_nil hne
  have hc := hd c (List.mem_cons_self _ _)
  unfold strtok
  have hdw : (c :: l).dropWhile (fun c => decide (c = 32)) = c :: l := by
    simp [List.dropWhile, hc]
  simp only [hdw]
  have h2 := takeWhile_all (fun c => decide (c ≠ 32)) (c :: l) (fun x hx => by
    simpa using hd x hx)
  rw [h2.1, h2.2]
  simp

/-- The header line that `save_game` writes. -/
theorem check_spaces_header (a b c d : List Nat)
    (ha : a ≠ [] ∧ ∀ x ∈ a, x ≠ 32) (hb : b ≠ [] ∧ ∀ x ∈ b, x ≠ 32)
    (hc : c ≠ [] ∧ ∀ x ∈ c, x ≠ 32) (hd : d ≠ [] ∧ ∀ x ∈ d, x ≠ 32) :
    check_spaces (a ++ 32 :: (b ++ 32 :: (c ++ 32 :: d))) 3 = .ok true := by
  obtain ⟨b0, bt, rfl⟩ := List.exists_cons_of_ne_nil hb.1
  obtain ⟨c0, ct, rfl⟩ := List.exists_cons_of_ne_nil hc.1
  obtain ⟨d0, dt, rfl⟩ := List.exists_cons_of_ne_nil hd.1
  unfold check_spaces
  have hne : a ++ 32 :: (b0 :: bt ++ 32 :: (c0 :: ct ++ 32 :: d0 :: dt)) ≠ [] := by simp
  rw [if_neg hne, check_spaces_loop_skip a ha.2]
  rw [List.cons_append, check_spaces_loop_space _ _ _ (hb.2 b0 (List.mem_cons_self _ _))]
  rw [← List.cons_append, check_spaces_loop_skip _ hb.2]
  rw [List.cons_append, check_spaces_loop_space _ _ _ (hc.2 c0 (List.mem_cons_self _ _))]
  rw [← List.cons_append, check_spaces_loop_skip _ hc.2]
  rw [check_spaces_loop_space _ _ _ (hd.2 d0 (List.mem_cons_self _ _))]
  have := check_spaces_loop_skip (d0 :: dt) hd.2 [] (0 + 1 + 1 + 1)
  rw [List.append_nil] at this
  rw [this]
  rfl

theorem parse_line_one_header (g0 : Game) (w h c t : Nat)
    (hw : 3 ≤ w ∧ w ≤ 100) (hh : 3 ≤ h ∧ h ≤ 100) (hc : 11 ≤ c ∧ c < 2 ^ 31)
    (ht : t = 1 ∨ t = 2) :
    parse_line_one (fmt_d w ++ 32 :: (fmt_d h ++ 32 :: (fmt_d c ++ 32 :: fmt_d t))) g0 =
      .ok (malloc_var
        { g0 with width := w, height := h, cardsDrawn := c, turn := t, status := NEW_GAME }) := by
  have sw := fmt_d_spec w
  have sh := fmt_d_spec h
  have sc := fmt_d_spec c
  have st := fmt_d_spec t
  have nw := digits_no_space _ sw.2.1
  have nh := digits_no_space _ sh.2.1
  have nc := digits_no_space _ sc.2.1
  have nt := digits_no_space _ st.2.1
  unfold parse_line_one
  rw [check_spaces_header _ _ _ _ ⟨sw.1, nw⟩ ⟨sh.1, nh⟩ ⟨sc.1, nc⟩ ⟨st.1, nt⟩]
  simp only
  rw [strtok_first _ _ sw.1 nw]
  simp only
  rw [strtok_first _ _ sh.1 nh]
  simp only
  rw [strtok_first _ _ sc.1 nc]
  simp only
  rw [strtok_last _ st.1 nt]
  simp only [check_dimension, read_int_ptr]
  rw [read_int_fmt_d w (by omega), read_int_fmt_d h (by omega), read_int_fmt_d c hc.2,
    read_int_fmt_d t (by omega)]
  have e1 : ¬ ((w : Int) < 3 ∨ (w : Int) > 100) := by omega
  have e2 : ¬ ((h : Int) < 3 ∨ (h : Int) > 100) := by omega
  have e3 : ¬ (((t : Int) ≠ (TURN_ONE : Int) ∧ (t : Int) ≠ (TURN_TWO : Int)) ∨ (c : Int) < 11) := by
    unfold TURN_ONE TURN_TWO
    omega
  simp only [if_neg e1, if_neg e2, if_neg e3, Int.toNat_ofNat]

/-! ### Saving and loading: lines -/

theorem read_lines_eq_read_line (s cur : List Nat) :
    read_lines s cur =
      match read_line s cur with
      | none => []
      | some (line, rest) => line :: read_lines rest [] := by
  induction s generalizing cur with
  | nil => rfl
  | cons c rest ih =>
    by_cases hc : c = 10
    · simp [read_lines, read_line, hc]
    · simp only [read_lines, read_line, if_neg hc]
      exact ih (cur ++ [c])

theorem save_text_eq (g : Game) :
    save_text g = (save_lines g).flatMap (fun l => l ++ [10]) := by
  unfold save_text save_lines save_header save_hand
  have h2 : List.range NUM_PLAYERS = [0, 1] := rfl
  rw [h2]
  simp only [List.flatMap_cons, List.flatMap_nil, List.flatMap_append, List.flatMap_map,
    List.append_assoc, List.cons_append, List.nil_append, List.append_nil, List.singleton_append]

theorem cstr_eq (l : List Nat) (h : ∀ c ∈ l, c ≠ 0) : cstr l = l :=
  (takeWhile_all (fun c => decide (c ≠ 0)) l (fun c hc => by simpa using h c hc)).1

theorem read_lines_line (l : List Nat) (hl : ∀ c ∈ l, c ≠ 10) :
    ∀ rest cur, read_lines (l ++ 10 :: rest) cur = cstr (cur ++ l) :: read_lines rest [] := by
  induction l with
  | nil => intro rest cur; simp [read_lines]
  | cons c l ih =>
    intro rest cur
    have hc := hl c (List.mem_cons_self _ _)
    rw [List.cons_append]
    simp only [read_lines, if_neg hc]
    rw [ih (fun x hx => hl x (List.mem_cons_of_mem _ hx))]
    simp

theorem read_lines_flatMap (lines : List (List Nat))
    (h : ∀ l ∈ lines, ∀ c ∈ l, c ≠ 10 ∧ c ≠ 0) :
    read_lines (lines.flatMap (fun l => l ++ [10])) [] = lines := by
  induction lines with
  | nil => rfl
  | cons l rest ih =>
    have hl := h l (List.mem_cons_self _ _)
    rw [List.flatMap_cons, List.append_assoc, List.singleton_append,
      read_lines_line l (fun c hc => (hl c hc).1), List.nil_append,
      cstr_eq l (fun c hc => (hl c hc).2), ih (fun l' hl' => h l' (List.mem_cons_of_mem _ hl'))]

theorem save_cards_succ (cards : Nat → Card) (n : Nat) :
    save_cards cards (n + 1) = save_cards cards n ++ [(cards n).num, (cards n).suit] := by
  unfold save_cards
  rw [List.range_succ, List.flatMap_append]
  simp

theorem save_cards_length (cards : Nat → Card) (n : Nat) :
    (save_cards cards n).length = 2 * n := by
  induction n with
  | zero => rfl
  | succ n ih => rw [save_cards_succ, List.length_append, ih]; simp; omega

theorem save_cards_getD (cards : Nat → Card) (n k : Nat) (hk : k < n) :
    (save_cards cards n).getD (GET_NUM k) 0 = (cards k).num ∧
      (save_cards cards n).getD (GET_SUIT k) 0 = (cards k).suit := by
  unfold GET_NUM GET_SUIT
  induction n with
  | zero => omega
  | succ n ih =>
    rw [save_cards_succ]
    by_cases hkn : k < n
    · have := ih hkn
      have hlen := save_cards_length cards n
      rw [List.getD_append _ _ _ _ (by omega), List.getD_append _ _ _ _ (by omega)]
      exact this
    · have hkn' : k = n := by omega
      subst hkn'
      have hlen := save_cards_length cards k
      rw [List.getD_append_right _ _ _ _ (by omega), List.getD_append_right _ _ _ _ (by omega)]
      rw [hlen]
      have e1 : 2 * k - 2 * k = 0 := by omega
      have e2 : 2 * k + 1 - 2 * k = 1 := by omega
      rw [e1, e2]
      simp

theorem save_cards_mem (cards : Nat → Card) (n c : Nat) (hc : c ∈ save_cards cards n) :
    ∃ k, k < n ∧ (c = (cards k).num ∨ c = (cards k).suit) := by
  unfold save_cards at hc
  rw [List.mem_flatMap] at hc
  obtain ⟨k, hk, hck⟩ := hc
  rw [List.mem_range] at hk
  simp only [List.mem_cons, List.mem_singleton, List.not_mem_nil, or_false] at hck
  exact ⟨k, hk, hck⟩

/-! ### Saving and loading: hands and board rows -/

theorem parse_hands_loop_ok (line : List Nat) :
    ∀ n i (cards : Nat → Card),
      (∀ k, i ≤ k → k < i + n →
        check_card (line.getD (GET_SUIT k) 0) (line.getD (GET_NUM k) 0) = true) →
      ∃ cards', parse_hands_loop line n i cards = .ok cards' ∧
        (∀ k, i ≤ k → k < i + n →
          cards' k = ⟨line.getD (GET_NUM k) 0, line.getD (GET_SUIT k) 0⟩) ∧
        (∀ k, k < i → cards' k = cards k) := by
  intro n
  induction n with
  | zero =>
    intro i cards _
    exact ⟨cards, rfl, fun k h1 h2 => by omega, fun _ _ => rfl⟩
  | succ n ih =>
    intro i cards hall
    have hi := hall i (le_refl _) (by omega)
    obtain ⟨cards', h1, h2, h3⟩ := ih (i + 1)
      (store cards i ⟨line.getD (GET_NUM i) 0, line.getD (GET_SUIT i) 0⟩)
      (fun k hk1 hk2 => hall k (by omega) (by omega))
    refine ⟨cards', ?_, ?_, ?_⟩
    · simp only [parse_hands_loop, hi, Bool.true_eq_false, if_false]
      exact h1
    · intro k hk1 hk2
      by_cases hki : k = i
      · subst hki
        rw [h3 k (by omega)]
        simp [store]
      · exact h2 k (by omega) (by omega)
    · intro k hk
      rw [h3 k (by omega)]
      have : k ≠ i := by omega
      simp [store, this]

theorem parse_board_loop_ok (line : List Nat) (lineN : Nat) :
    ∀ n i (g : Game), lineN < g.height →
      (∀ k, i ≤ k → k < i + n →
        check_card (line.getD (GET_SUIT k) 0) (line.getD (GET_NUM k) 0) = true) →
      ∃ g1, parse_board_loop line lineN n i g = .ok g1 ∧ SameExceptBoard g g1 ∧
        (∀ k, i ≤ k → k < i + n →
          g1.board lineN k = ⟨line.getD (GET_NUM k) 0, line.getD (GET_SUIT k) 0⟩) ∧
        (∀ r k, ¬ (r = lineN ∧ i ≤ k ∧ k < i + n) → g1.board r k = g.board r k) ∧
        (g.status ≠ NEW_GAME → g1.status = g.status) ∧
        (g.status = NEW_GAME →
          (∃ k, i ≤ k ∧ k < i + n ∧ line.getD (GET_SUIT k) 0 ≠ 42) → g1.status = MIDDLE_GAME) ∧
        (g.status = NEW_GAME →
          (∀ k, i ≤ k → k < i + n → line.getD (GET_SUIT k) 0 = 42) → g1.status = NEW_GAME) := by
  intro n
  induction n with
  | zero =>
    intro i g _ _
    refine ⟨g, rfl, ⟨rfl, rfl, rfl, rfl, rfl, rfl, rfl, rfl⟩, fun k h1 h2 => by omega,
      fun _ _ _ => rfl, fun _ => rfl, ?_, fun h _ => h⟩
    rintro _ ⟨k, h1, h2, _⟩
    omega
  | succ n ih =>
    intro i g hN hall
    have hi := hall i (le_refl _) (by omega)
    simp only [parse_board_loop, hi, Bool.true_eq_false, if_false]
    by_cases hst : g.status = NEW_GAME ∧ line.getD (GET_SUIT i) 0 ≠ 42
    · rw [if_pos hst]
      have hN' : ¬ lineN ≥ g.height := by omega
      simp only [hN', if_false]
      obtain ⟨g1, h1, hf, hb1, hb2, hs1, _, _⟩ := ih (i + 1)
        { g with
          status := MIDDLE_GAME
          board := store2 g.board lineN i
            ⟨line.getD (GET_NUM i) 0, line.getD (GET_SUIT i) 0⟩ } hN
        (fun k hk1 hk2 => hall k (by omega) (by omega))
      have hmid : g1.status = MIDDLE_GAME := hs1 (by simp [MIDDLE_GAME, NEW_GAME])
      refine ⟨g1, h1, hf, ?_, ?_, fun h => absurd hst.1 h, fun _ _ => hmid, ?_⟩
      · intro k hk1 hk2
        by_cases hki : k = i
        · subst hki
          rw [hb2 lineN k (by omega)]
          simp [store2]
        · exact hb1 k (by omega) (by omega)
      · intro r k hrk
        rw [hb2 r k (by omega)]
        have : ¬ (r = lineN ∧ k = i) := by omega
        simp [store2, this]
      · intro _ hemp
        exact absurd (hemp i (le_refl _) (by omega)) hst.2
    · rw [if_neg hst]
      have hN' : ¬ lineN ≥ g.height := by omega
      simp only [hN', if_false]
      obtain ⟨g1, h1, hf, hb1, hb2, hs1, hs2, hs3⟩ := ih (i + 1)
        { g with
          board := store2 g.board lineN i
            ⟨line.getD (GET_NUM i) 0, line.getD (GET_SUIT i) 0⟩ } hN
        (fun k hk1 hk2 => hall k (by omega) (by omega))
      refine ⟨g1, h1, hf, ?_, ?_, hs1, ?_, ?_⟩
      · intro k hk1 hk2
        by_cases hki : k = i
        · subst hki
          rw [hb2 lineN k (by omega)]
          simp [store2]
        · exact hb1 k (by omega) (by omega)
      · intro r k hrk
        rw [hb2 r k (by omega)]
        have : ¬ (r = lineN ∧ k = i) := by omega
        simp [store2, this]
      · rintro hnew ⟨k, hk1, hk2, hk3⟩
        have hki : k ≠ i := by
          intro e
          subst e
          exact hst ⟨hnew, hk3⟩
        exact hs2 hnew ⟨k, by omega, by omega, hk3⟩
      · intro hnew hemp
        exact hs3 hnew (fun k hk1 hk2 => hemp k (by omega) (by omega))

/-! ### Saving and loading: the whole file -/

theorem check_card_blank_or_valid (c : Card) (h : c = blank ∨ ValidCard c) :
    check_card c.suit c.num = true := by
  rcases h with rfl | ⟨⟨h1, h2⟩, h3, h4⟩
  · rfl
  · unfold check_card
    have e1 : ¬ (c.suit = 42 ∧ c.num = 42) := by omega
    have e2 : ¬ (c.suit > 90 ∨ c.suit < 65 ∨ c.num > 57 ∨ c.num < 49) := by omega
    rw [if_neg e1, if_neg e2]

theorem parse_board_row (g gl : Game) (r : Nat) (hr : r < g.height)
    (hh : gl.height = g.height) (hw : gl.width = g.width)
    (hcells : ∀ c, c < g.width → g.board r c = blank ∨ ValidCard (g.board r c)) :
    ∃ g1, parse_board gl (save_cards (g.board r) g.width) r = .ok g1 ∧ SameExceptBoard gl g1 ∧
      (∀ c, c < g.width → g1.board r c = g.board r c) ∧
      (∀ r' c, r' ≠ r → g1.board r' c = gl.board r' c) ∧
      (gl.status ≠ NEW_GAME → g1.status = gl.status) ∧
      (gl.status = NEW_GAME → (∃ c, c < g.width ∧ (g.board r c).suit ≠ 42) →
        g1.status = MIDDLE_GAME) ∧
      (gl.status = NEW_GAME → (∀ c, c < g.width → (g.board r c).suit = 42) →
        g1.status = NEW_GAME) := by
  unfold parse_board
  have hlen := save_cards_length (g.board r) g.width
  have hne : ¬ (save_cards (g.board r) g.width).length ≠ gl.width * 2 := by
    rw [hlen, hw]; omega
  simp only [hne, if_false]
  have hhalf : (save_cards (g.board r) g.width).length / 2 = g.width := by
    rw [hlen]; omega
  rw [hhalf]
  obtain ⟨g1, h1, hf, hb1, hb2, hs1, hs2, hs3⟩ :=
    parse_board_loop_ok (save_cards (g.board r) g.width) r g.width 0 gl (by omega)
      (fun k _ hk => by
        have hk' : k < g.width := by omega
        have hg := save_cards_getD (g.board r) g.width k hk'
        rw [hg.1, hg.2]
        exact check_card_blank_or_valid _ (hcells k hk'))
  refine ⟨g1, h1, hf, ?_, ?_, hs1, ?_, ?_⟩
  · intro c hc
    have hg := save_cards_getD (g.board r) g.width c hc
    rw [hb1 c (by omega) (by omega), hg.1, hg.2]
  · intro r' c hr'
    exact hb2 r' c (by omega)
  · rintro hnew ⟨c, hc, ho⟩
    refine hs2 hnew ⟨c, by omega, by omega, ?_⟩
    rw [(save_cards_getD (g.board r) g.width c hc).2]
    exact ho
  · intro hnew hemp
    refine hs3 hnew (fun k _ hk => ?_)
    have hk' : k < g.width := by omega
    rw [(save_cards_getD (g.board r) g.width k hk').2]
    exact hemp k hk'

theorem sameExceptBoard_trans (a b c : Game) (h1 : SameExceptBoard a b)
    (h2 : SameExceptBoard b c) : SameExceptBoard a c := by
  obtain ⟨a1, a2, a3, a4, a5, a6, a7, a8⟩ := h1
  obtain ⟨b1, b2, b3, b4, b5, b6, b7, b8⟩ := h2
  exact ⟨b1.trans a1, b2.trans a2, b3.trans a3, b4.trans a4, b5.trans a5, b6.trans a6,
    b7.trans a7, b8.trans a8⟩

theorem parse_save_loop_rows (fs : List Nat → Option (List Nat)) (freed : List Nat) (g : Game)
    (hcells : ∀ r, r < g.height → ∀ c, c < g.width →
      g.board r c = blank ∨ ValidCard (g.board r c)) :
    ∀ m r (gl : Game), r + m = g.height → gl.height = g.height → gl.width = g.width →
      ∃ g1, parse_save_loop fs freed
          ((List.range' r m).map (fun i => save_cards (g.board i) g.width)) (4 + r) gl =
          .ok (4 + g.height, g1) ∧
        SameExceptBoard gl g1 ∧
        (∀ r' c, r ≤ r' → r' < g.height → c < g.width → g1.board r' c = g.board r' c) ∧
        (∀ r' c, r' < r → g1.board r' c = gl.board r' c) ∧
        (gl.status ≠ NEW_GAME → g1.status = gl.status) ∧
        (gl.status = NEW_GAME →
          (∃ r' c, r ≤ r' ∧ r' < g.height ∧ c < g.width ∧ (g.board r' c).suit ≠ 42) →
          g1.status = MIDDLE_GAME) ∧
        (gl.status = NEW_GAME →
          (∀ r' c, r ≤ r' → r' < g.height → c < g.width → (g.board r' c).suit = 42) →
          g1.status = NEW_GAME) := by
  intro m
  induction m with
  | zero =>
    intro r gl hr _ _
    have hr' : r = g.height := by omega
    subst hr'
    refine ⟨gl, rfl, ⟨rfl, rfl, rfl, rfl, rfl, rfl, rfl, rfl⟩, ?_, fun _ _ _ => rfl,
      fun _ => rfl, ?_, fun h _ => h⟩
    · intro r' c h1 h2; omega
    · rintro _ ⟨r', c, h1, h2, _⟩; omega
  | succ m ih =>
    intro r gl hr hh hw
    have hrlt : r < g.height := by omega
    obtain ⟨g1, h1, hf1, hb1, hb1', hs1, hs2, hs3⟩ :=
      parse_board_row g gl r hrlt hh hw (hcells r hrlt)
    obtain ⟨g2, h2, hf2, hb2, hb2', ht1, ht2, ht3⟩ :=
      ih (r + 1) g1 (by omega) (hf1.2.1.trans hh) (hf1.1.trans hw)
    refine ⟨g2, ?_, sameExceptBoard_trans _ _ _ hf1 hf2, ?_, ?_, ?_, ?_, ?_⟩
    · rw [List.range'_succ, List.map_cons]
      unfold parse_save_loop
      have e0 : ¬ 4 + r = 0 := by omega
      have e1 : ¬ 4 + r = 1 := by omega
      have e2 : ¬ (4 + r = 2 ∨ 4 + r = 3) := by omega
      have e3 : 4 + r - 4 = r := by omega
      simp only [e0, e1, e2, if_false, e3, h1]
      have e4 : 4 + r + 1 = 4 + (r + 1) := by omega
      rw [e4]
      exact h2
    · intro r' c hr1 hr2 hc
      by_cases e : r' = r
      · subst e
        rw [hb2' r' c (by omega)]
        exact hb1 c hc
      · exact hb2 r' c (by omega) hr2 hc
    · intro r' c hr'
      rw [hb2' r' c (by omega)]
      exact hb1' r' c (by omega)
    · intro hn
      rw [ht1 (by rw [hs1 hn]; exact hn), hs1 hn]
    · rintro hnew ⟨r', c, hr1, hr2, hc, ho⟩
      by_cases hrow : ∃ c, c < g.width ∧ (g.board r c).suit ≠ 42
      · have hmid := hs2 hnew hrow
        rw [ht1 (by rw [hmid]; simp [MIDDLE_GAME, NEW_GAME]), hmid]
      · have hemp : ∀ c, c < g.width → (g.board r c).suit = 42 := by
          intro c hc
          by_contra hne
          exact hrow ⟨c, hc, hne⟩
        have hn1 := hs3 hnew hemp
        have hr'ne : r' ≠ r := by
          intro e
          subst e
          exact ho (hemp c hc)
        exact ht2 hn1 ⟨r', c, by omega, hr2, hc, ho⟩
    · intro hnew hemp
      have hn1 := hs3 hnew (fun c hc => hemp r c (le_refl _) hrlt hc)
      exact ht3 hn1 (fun r' c hr1 hr2 hc => hemp r' c (by omega) hr2 hc)

theorem parse_deck_file_congr (fs : List Nat → Option (List Nat)) (g gd g2 : Game)
    (h : parse_deck_file fs g = .ok gd) (hn : g2.deckFile = g.deckFile)
    (hc : g2.cardsDrawn = g.cardsDrawn) :
    parse_deck_file fs g2 = .ok { g2 with deck := gd.deck } := by
  unfold parse_deck_file at h ⊢
  rw [hn, hc]
  cases hfs : fs g.deckFile with
  | none => rw [hfs] at h; simp at h
  | some text =>
    rw [hfs] at h
    simp only at h ⊢
    cases hl : read_lines text [] with
    | nil => rw [hl] at h; simp at h
    | cons first rest =>
      rw [hl] at h
      simp only at h ⊢
      by_cases hbad : read_int first ≤ 0 ∨ read_int first < (g.cardsDrawn : Int)
      · rw [if_pos hbad] at h; simp at h
      · rw [if_neg hbad] at h ⊢
        cases hp : parse_deck_loop (read_int first) rest 0 (fun _ => ⟨0, 0⟩) with
        | error e => rw [hp] at h; simp at h
        | ok r =>
          rw [hp] at h
          simp only at h ⊢
          by_cases hne : (r.1 : Int) ≠ read_int first
          · rw [if_pos hne] at h; simp at h
          · rw [if_neg hne] at h ⊢
            simp only [Except.ok.injEq] at h
            rw [← h]

theorem parse_hands_saved (gl : Game) (cs : Nat → Card) (n : Nat) (hn : n = 6 ∨ n = 5)
    (hv : ∀ k, k < n → ValidCard (cs k)) (player : Nat) :
    ∃ cards', parse_hands gl (save_cards cs n) player =
        .ok { gl with hands := store gl.hands (player - 1) ⟨cards', (n : Int)⟩ } ∧
      ∀ k, k < n → cards' k = cs k := by
  unfold parse_hands
  have hlen := save_cards_length cs n
  have hok : ¬ ((save_cards cs n).length ≠ HAND_SIZE * 2 ∧
      (save_cards cs n).length ≠ (HAND_SIZE - 1) * 2) := by
    rw [hlen]; unfold HAND_SIZE; omega
  simp only [hok, if_false]
  have hhalf : (save_cards cs n).length / 2 = n := by rw [hlen]; omega
  rw [hhalf]
  obtain ⟨cards', h1, h2, _⟩ := parse_hands_loop_ok (save_cards cs n) n 0
    (gl.hands (player - 1)).cards (fun k _ hk => by
      have hk' : k < n := by omega
      have hg := save_cards_getD cs n k hk'
      rw [hg.1, hg.2]
      exact check_card_blank_or_valid _ (Or.inr (hv k hk')))
  refine ⟨cards', by rw [h1], ?_⟩
  intro k hk
  have hg := save_cards_getD cs n k hk
  rw [h2 k (by omega) (by omega), hg.1, hg.2]

theorem board_full_scan_false (g : Game)
    (h : ∃ r, r < g.height ∧ ∃ c, c < g.width ∧ (g.board r c).suit = 42) :
    board_full_scan g = false := by
  obtain ⟨r, hr, c, hc, he⟩ := h
  by_contra hne
  have ht : board_full_scan g = true := by simpa using hne
  unfold board_full_scan at ht
  rw [List.all_eq_true] at ht
  have h1 := ht r (List.mem_range.mpr hr)
  rw [List.all_eq_true] at h1
  have h2 := h1 c (List.mem_range.mpr hc)
  simp only [decide_eq_true_eq] at h2
  exact h2 he

theorem save_lines_chars (g : Game) (hg : MidGame g) (hname : ∀ c ∈ g.deckFile, c ≠ 10) :
    ∀ l ∈ save_lines g, ∀ c ∈ l, c ≠ 10 ∧ c ≠ 0 := by
  obtain ⟨hw, hh, ht, h6, h5, hhands, hcur, hcells, _, _, hnul⟩ := hg
  have hdig : ∀ n, ∀ c ∈ fmt_d n, c ≠ 10 ∧ c ≠ 0 := by
    intro n c hc
    have := (fmt_d_spec n).2.1 c hc
    omega
  intro l hl c hc
  unfold save_lines at hl
  simp only [List.cons_append, List.nil_append, List.mem_cons, List.mem_map, List.mem_range] at hl
  rcases hl with rfl | rfl | rfl | rfl | ⟨i, hi, rfl⟩
  · unfold save_header at hc
    simp only [List.mem_append, List.mem_cons] at hc
    rcases hc with hc | rfl | hc | rfl | hc | rfl | hc
    · exact hdig _ c hc
    · omega
    · exact hdig _ c hc
    · omega
    · exact hdig _ c hc
    · omega
    · exact hdig _ c hc
  · exact ⟨hname c hc, hnul c hc⟩
  · obtain ⟨k, hk, hck⟩ := save_cards_mem _ _ c hc
    have hlen : (k : Int) < (g.hands 0).length := by
      rcases ht with ht | ht
      · rw [ht] at h6 hk; simp only [Nat.sub_self] at h6; rw [h6]
        simp only [zero_add, if_true] at hk; unfold HAND_SIZE at hk; omega
      · rw [ht] at h5 hk; simp only [Nat.sub_self] at h5; rw [h5]
        simp only [zero_add] at hk; unfold HAND_SIZE at hk; simp at hk; omega
    have hv := hhands 0 (by omega) k (by omega)
    unfold ValidCard at hv
    omega
  · obtain ⟨k, hk, hck⟩ := save_cards_mem _ _ c hc
    have hlen : (k : Int) < (g.hands 1).length := by
      rcases ht with ht | ht
      · rw [ht] at h5 hk; simp only [Nat.add_one_sub_one] at h5; rw [h5]
        unfold HAND_SIZE at hk; simp at hk; omega
      · rw [ht] at h6 hk; simp only [Nat.add_one_sub_one] at h6; rw [h6]
        unfold HAND_SIZE at hk; simp at hk; omega
    have hv := hhands 1 (by omega) k (by omega)
    unfold ValidCard at hv
    omega
  · obtain ⟨k, hk, hck⟩ := save_cards_mem _ _ c hc
    rcases hcells i hi k hk with hb | hv
    · rw [hb] at hck
      unfold blank at hck
      simp only at hck
      omega
    · unfold ValidCard at hv
      omega

theorem midGame_hand_lengths (g : Game) (hg : MidGame g) :
    (g.hands 0).length = ((if g.turn = 0 + 1 then HAND_SIZE else HAND_SIZE - 1 : Nat) : Int) ∧
    (g.hands 1).length = ((if g.turn = 1 + 1 then HAND_SIZE else HAND_SIZE - 1 : Nat) : Int) := by
  obtain ⟨_, _, ht, h6, h5, _⟩ := hg
  unfold HAND_SIZE
  rcases ht with ht | ht
  · rw [ht] at h6 h5 ⊢
    simp only [Nat.sub_self, Nat.add_one_sub_one] at h6 h5
    rw [h6, h5]
    simp
  · rw [ht] at h6 h5 ⊢
    simp only [Nat.sub_self, Nat.add_one_sub_one] at h6 h5
    rw [h6, h5]
    simp

/-- Round trip for a state whose deck file can be read under the name the
state holds: for a valid mid-game state whose deck file name holds no line
feed, and a deck file that parses with the state's cursor, the text written by
`save_game` is read back by `parse_save_file` into a state with the same
width, height, board cells, hands (length, contents and order), cursor, turn
and phase; its deck is the one read from the deck file. -/
theorem save_load_round_trip (fs : List Nat → Option (List Nat)) (canOpen : List Nat → Bool)
    (freed : List Nat) (g0 g gd : Game) (fileName text : List Nat)
    (hg : MidGame g) (hname : ∀ c ∈ g.deckFile, c ≠ 10)
    (hdeck : parse_deck_file fs g = .ok gd)
    (hsave : save_game canOpen g fileName = .written text)
    (hfile : fs fileName = some text) :
    ∃ g1, parse_save_file fs freed g0 fileName = .ok g1 ∧
      g1.width = g.width ∧ g1.height = g.height ∧
      (∀ r, r < g.height → ∀ c, c < g.width → g1.board r c = g.board r c) ∧
      (∀ i, i < 2 → (g1.hands i).length = (g.hands i).length ∧
        handList (g1.hands i) = handList (g.hands i)) ∧
      g1.cardsDrawn = g.cardsDrawn ∧ g1.turn = g.turn ∧ g1.status = g.status ∧
      g1.deck = gd.deck := by
  have htext : text = save_text g := by
    unfold save_game at hsave
    split at hsave
    · simp at hsave
    · split at hsave
      · simp at hsave
      · simp only [SaveOutcome.written.injEq] at hsave
        exact hsave.symm
  subst htext
  have hlens := midGame_hand_lengths g hg
  have hchars := save_lines_chars g hg hname
  obtain ⟨hw, hh, ht, h6, h5, hhands, hcur, hcells, hnotfull, hstatus, hnul⟩ := hg
  -- the lines read
  have hlines : read_lines (save_text g) [] = save_lines g := by
    rw [save_text_eq, read_lines_flatMap _ hchars]
  -- line 0
  have hline0 := parse_line_one_header g0 g.width g.height g.cardsDrawn g.turn hw hh
    ⟨hcur.1, hcur.2.2⟩ ht
  -- line 1
  obtain ⟨G1, hG1⟩ : ∃ G1 : Game, G1 = malloc_var
      { g0 with
        width := g.width
        height := g.height
        cardsDrawn := g.cardsDrawn
        turn := g.turn
        status := NEW_GAME } := ⟨_, rfl⟩
  rw [← hG1] at hline0
  have hG1w : G1.width = g.width := by rw [hG1]; rfl
  have hG1h : G1.height = g.height := by rw [hG1]; rfl
  have hG1c : G1.cardsDrawn = g.cardsDrawn := by rw [hG1]; rfl
  have hG1t : G1.turn = g.turn := by rw [hG1]; rfl
  have hG1s : G1.status = NEW_GAME := by rw [hG1]; rfl
  have hline1 := parse_deck_file_congr fs g gd
    { G1 with deckFile := g.deckFile } hdeck rfl hG1c
  -- lines 2 and 3
  have hn0 : (if g.turn = 0 + 1 then HAND_SIZE else HAND_SIZE - 1) = 6 ∨
      (if g.turn = 0 + 1 then HAND_SIZE else HAND_SIZE - 1) = 5 := by
    unfold HAND_SIZE; split <;> simp
  have hn1 : (if g.turn = 1 + 1 then HAND_SIZE else HAND_SIZE - 1) = 6 ∨
      (if g.turn = 1 + 1 then HAND_SIZE else HAND_SIZE - 1) = 5 := by
    unfold HAND_SIZE; split <;> simp
  have hv0 : ∀ k, k < (if g.turn = 0 + 1 then HAND_SIZE else HAND_SIZE - 1) →
      ValidCard ((g.hands 0).cards k) := by
    intro k hk
    refine hhands 0 (by omega) k ?_
    rw [hlens.1, Int.toNat_ofNat]
    exact hk
  have hv1 : ∀ k, k < (if g.turn = 1 + 1 then HAND_SIZE else HAND_SIZE - 1) →
      ValidCard ((g.hands 1).cards k) := by
    intro k hk
    refine hhands 1 (by omega) k ?_
    rw [hlens.2, Int.toNat_ofNat]
    exact hk
  obtain ⟨c0, hline2, hc0⟩ := parse_hands_saved
    { G1 with
      deckFile := freed
      deck := gd.deck }
    (g.hands 0).cards _ hn0 hv0 1
  obtain ⟨c1, hline3, hc1⟩ := parse_hands_saved
    { G1 with
      deckFile := freed
      deck := gd.deck
      hands := store (G1).hands (1 - 1)
          ⟨c0, ((if g.turn = 0 + 1 then HAND_SIZE else HAND_SIZE - 1 : Nat) : Int)⟩ }
    (g.hands 1).cards _ hn1 hv1 2
  -- the board rows
  obtain ⟨g1, hrows, hf, hb, _, _, hs2, hs3⟩ := parse_save_loop_rows fs freed g hcells g.height 0
    { G1 with
      deckFile := freed
      deck := gd.deck
      hands := store (store (G1).hands (1 - 1)
          ⟨c0, ((if g.turn = 0 + 1 then HAND_SIZE else HAND_SIZE - 1 : Nat) : Int)⟩) (2 - 1)
          ⟨c1, ((if g.turn = 1 + 1 then HAND_SIZE else HAND_SIZE - 1 : Nat) : Int)⟩ }
    (by omega) hG1h hG1w
  obtain ⟨f1, f2, f3, f4, f5, f6, f7, f8⟩ := hf
  have f1' : g1.width = g.width := f1.trans hG1w
  have f2' : g1.height = g.height := f2.trans hG1h
  have hboard : ∀ r, r < g.height → ∀ c, c < g.width → g1.board r c = g.board r c :=
    fun r hr c hc => hb r c (by omega) hr hc
  have hfull : board_full_scan g1 = false := by
    apply board_full_scan_false
    obtain ⟨r, hr, c, hc, he⟩ := hnotfull
    exact ⟨r, by rw [f2']; exact hr, c, by rw [f1']; exact hc, by rw [hboard r hr c hc]; exact he⟩
  have hload : parse_save_file fs freed g0 fileName = .ok g1 := by
    unfold parse_save_file
    rw [hfile]
    simp only
    rw [hlines]
    have hsl : save_lines g = save_header g :: g.deckFile :: save_hand g 0 :: save_hand g 1 ::
        (List.range g.height).map (fun i => save_cards (g.board i) g.width) := rfl
    rw [hsl]
    rw [← List.range_eq_range'] at hrows
    simp only [List.cons_append, List.nil_append, parse_save_loop, if_true, save_header, hline0,
      hline1, save_hand, hline2, hline3, Nat.reduceAdd, Nat.reduceSub, OfNat.ofNat_ne_zero,
      OfNat.ofNat_ne_one, Nat.reduceEqDiff, or_true, true_or, if_false, one_ne_zero,
      Nat.succ_ne_self, zero_add] at hrows ⊢
    rw [hrows]
    simp only
    have e : ¬ 4 + g.height ≠ g1.height + 4 := by rw [f2']; omega
    simp only [e, if_false, board_full, hfull, Bool.false_eq_true]
  refine ⟨g1, hload, f1', f2', hboard, ?_, f6.trans hG1c, f3.trans hG1t, ?_, f7⟩
  · intro i hi
    rw [f8]
    have hi' : i = 0 ∨ i = 1 := by omega
    rcases hi' with rfl | rfl
    · simp only [store, Nat.reduceSub, OfNat.ofNat_ne_one, OfNat.zero_ne_ofNat, if_false,
        zero_ne_one, if_true, one_ne_zero]
      refine ⟨hlens.1.symm, ?_⟩
      unfold handList
      simp only
      rw [hlens.1]
      apply List.map_congr_left
      intro k hk
      rw [List.mem_range] at hk
      rw [Int.toNat_ofNat] at hk
      exact hc0 k hk
    · simp only [store, Nat.reduceSub, if_true]
      refine ⟨hlens.2.symm, ?_⟩
      unfold handList
      simp only
      rw [hlens.2]
      apply List.map_congr_left
      intro k hk
      rw [List.mem_range] at hk
      rw [Int.toNat_ofNat] at hk
      exact hc1 k hk
  · by_cases hemp : BoardEmpty g
    · rw [hstatus.1 hemp]
      exact hs3 hG1s (fun r c _ hr hc => hemp r hr c hc)
    · rw [hstatus.2 hemp]
      refine hs2 hG1s ?_
      unfold BoardEmpty at hemp
      push_neg at hemp
      obtain ⟨r, hr, c, hc, ho⟩ := hemp
      exact ⟨r, c, by omega, hr, hc, ho⟩

theorem demoMid_midGame : MidGame demoMid := by
  unfold MidGame BoardEmpty
  decide

theorem save_load_round_trip_witness :
    ∃ g1, parse_save_file demoFsSaved [] demoStack [115] = .ok g1 ∧
      g1.width = 3 ∧ g1.height = 3 ∧
      (∀ r, r < 3 → ∀ c, c < 3 → g1.board r c = demoMid.board r c) ∧
      (∀ i, i < 2 → (g1.hands i).length = (demoMid.hands i).length ∧
        handList (g1.hands i) = handList (demoMid.hands i)) ∧
      g1.cardsDrawn = 12 ∧ g1.turn = 2 ∧ g1.status = MIDDLE_GAME := by
  obtain ⟨g1, h1, h2, h3, h4, h5, h6, h7, h8, _⟩ :=
    save_load_round_trip demoFsSaved (fun _ => true) [] demoStack demoMid
      { demoMid with deck := (⟨_, 13⟩ : CardArray) } [115] (save_text demoMid)
      demoMid_midGame (by decide) rfl rfl rfl
  exact ⟨g1, h1, h2, h3, h4, h5, h6, h7, h8⟩

/-- A deck file name with a line feed does not survive the round trip:
`demoNewline` is a valid mid-game state (3x3, board not full, player two on
turn with six valid cards, player one with five, cursor 12 of a deck of 13)
whose deck file name contains a line feed; `save_game` writes the name over two
lines, and `parse_save_file` rejects the text with the save-file error although
the deck is readable under both names. -/
theorem save_load_fails_on_newline_name :
    MidGame demoNewline ∧
      (∃ gd, parse_deck_file demoFsNewline demoNewline = .ok gd) ∧
      save_game (fun _ => true) demoNewline [115] = .written (save_text demoNewline) ∧
      demoFsNewline [115] = some (save_text demoNewline) ∧
      parse_save_file demoFsNewline [] demoStack [115] = .error (.exit ERROR_SAVE_READ) := by
  refine ⟨?_, ⟨_, rfl⟩, rfl, rfl, rfl⟩
  unfold MidGame BoardEmpty
  decide

/-- C3 fails on the code: `parse_save_file` stores the pointer to the line it
read as `deckFile` and frees that line, so in a game loaded from a snapshot the
deck file name dangles.  After `bark s h h` (the snapshot of `demoMid`, deck
file `d`) the state in which player two is asked for a move is a valid
mid-game state, here with the freed buffer reading as the empty string; the
line `SAVEt` makes `save_game` write that string as the deck file line, and
loading the written text ends with the deck-file error 3 instead of
reconstructing the state.  The same happens when the freed buffer reads as the
line `SAVEt` that was read into it last. -/
theorem save_after_load_unreadable :
    ∃ g0 text, main_start demoFsSaved [] demoStack demoArgvSaved = .ok g0 ∧
      (game_loop_cond g0).1 = true ∧ MidGame (game_loop_cond g0).2 ∧
      (∀ c ∈ (game_loop_cond g0).2.deckFile, c ≠ 10) ∧
      (game_loop_cond g0).2.deckFile = [] ∧
      check_input (fun _ => true) (game_loop_cond g0).2 [83, 65, 86, 69, 116] =
        .ok (false, (game_loop_cond g0).2, some (.written text)) ∧
      text = save_text (game_loop_cond g0).2 ∧
      parse_save_file (fun name => if name = [116] then some text else demoFsSaved name) []
        demoStack [116] = .error (.exit ERROR_DECK_READ) ∧
      ∃ g2, main_start demoFsSaved [83, 65, 86, 69, 116] demoStack demoArgvSaved = .ok g2 ∧
        (game_loop_cond g2).2.deckFile = [83, 65, 86, 69, 116] ∧
        parse_save_file
          (fun name =>
            if name = [116] then some (save_text (game_loop_cond g2).2) else demoFsSaved name)
          [] demoStack [116] = .error (.exit ERROR_DECK_READ) := by
  refine ⟨_, _, rfl, by decide, ?_, by decide, by decide, rfl, rfl, rfl, _, rfl, by decide, rfl⟩
  unfold MidGame BoardEmpty
  decide

/-! ### Placement -/

theorem adjacent_to_eq (g : Game) (x y : Nat) (hx : x < g.height) (hy : y < g.width) :
    adjacent_to g x y = true ↔
      g.status = NEW_GAME ∨ ((g.board x y).suit = 42 ∧
        ∃ p, torusAdj g.height g.width (x, y) p ∧ (g.board p.1 p.2).suit ≠ 42) := by
  unfold adjacent_to
  by_cases hs : g.status = NEW_GAME
  · simp [hs]
  · rw [if_neg hs]
    by_cases ho : (g.board x y).suit ≠ 42
    · rw [if_pos ho]
      simp only [Bool.false_eq_true, false_iff, not_or, not_and]
      exact ⟨hs, fun h => absurd h ho⟩
    · rw [if_neg ho]
      have ho' : (g.board x y).suit = 42 := by simpa using ho
      simp only [List.any_cons, List.any_nil, Bool.or_false]
      rw [wrap_zero _ _ hx, wrap_zero _ _ hy, wrap_one, wrap_one, wrap_neg_one _ _ hx,
        wrap_neg_one _ _ hy]
      simp only [torusAdj, hs, ho', false_or, true_and]
      simp only [show ((-1 : Int).natAbs = (-1 : Int).natAbs) = True by simp,
        show ((0 : Int).natAbs = (-1 : Int).natAbs) = False by simp,
        show ((1 : Int).natAbs = (-1 : Int).natAbs) = True by simp,
        show ((-1 : Int).natAbs = (0 : Int).natAbs) = False by simp,
        show ((0 : Int).natAbs = (0 : Int).natAbs) = True by simp,
        show ((1 : Int).natAbs = (0 : Int).natAbs) = False by simp,
        show ((-1 : Int).natAbs = (1 : Int).natAbs) = True by simp,
        show ((0 : Int).natAbs = (1 : Int).natAbs) = False by simp,
        show ((1 : Int).natAbs = (1 : Int).natAbs) = True by simp,
        if_true, if_false, Bool.false_or, Bool.or_false, Bool.or_eq_true, decide_eq_true_eq]
      constructor
      · rintro (h | (h | h) | h)
        · exact ⟨(_, _), Or.inl ⟨rfl, Or.inr rfl⟩, h⟩
        · exact ⟨(_, _), Or.inr ⟨rfl, Or.inr rfl⟩, h⟩
        · exact ⟨(_, _), Or.inr ⟨rfl, Or.inl rfl⟩, h⟩
        · exact ⟨(_, _), Or.inl ⟨rfl, Or.inl rfl⟩, h⟩
      · rintro ⟨⟨a, b⟩, (⟨h1, h2 | h2⟩ | ⟨h1, h2 | h2⟩), h⟩ <;> simp only at h1 h2 h <;>
          subst h1 <;> subst h2
        · exact Or.inr (Or.inr h)
        · exact Or.inl h
        · exact Or.inr (Or.inl (Or.inr h))
        · exact Or.inr (Or.inl (Or.inl h))


/-- Function `adjacent_to` on an in-bounds cell: it is true for every cell when
the phase is `New`; in any other phase it is true exactly when the cell is
empty and one of its four orthogonal neighbours, wrapped modulo height and
width, is occupied, so it is false for an occupied cell and for an empty cell
whose four orthogonal neighbours are all empty, whatever the diagonal cells
hold.  In a state that satisfies the phase invariant (phase `New` exactly on an
empty board) this is the property with "empty board" for "phase `New`". -/
theorem adjacent_to_placeable (g : Game) (x y : Nat) (hx : x < g.height) (hy : y < g.width) :
    (g.status = NEW_GAME → adjacent_to g x y = true) ∧
    (g.status ≠ NEW_GAME →
      (adjacent_to g x y = true ↔
        (g.board x y).suit = 42 ∧
          ∃ p, torusAdj g.height g.width (x, y) p ∧ (g.board p.1 p.2).suit ≠ 42)) ∧
    (g.status ≠ NEW_GAME → (g.board x y).suit ≠ 42 → adjacent_to g x y = false) ∧
    (g.status ≠ NEW_GAME →
      (∀ p, torusAdj g.height g.width (x, y) p → (g.board p.1 p.2).suit = 42) →
      adjacent_to g x y = false) ∧
    (PhaseInv g →
      (BoardEmpty g → adjacent_to g x y = true) ∧
      (¬ BoardEmpty g →
        (adjacent_to g x y = true ↔
          (g.board x y).suit = 42 ∧
            ∃ p, torusAdj g.height g.width (x, y) p ∧ (g.board p.1 p.2).suit ≠ 42))) := by
  have key := adjacent_to_eq g x y hx hy
  have hiff : g.status ≠ NEW_GAME →
      (adjacent_to g x y = true ↔
        (g.board x y).suit = 42 ∧
          ∃ p, torusAdj g.height g.width (x, y) p ∧ (g.board p.1 p.2).suit ≠ 42) := by
    intro hs
    rw [key]
    simp [hs]
  refine ⟨fun hs => key.mpr (Or.inl hs), hiff, ?_, ?_, ?_⟩
  · intro hs ho
    have := (hiff hs).not.mpr (fun h => ho h.1)
    simpa using this
  · intro hs hall
    have := (hiff hs).not.mpr (fun h => by
      obtain ⟨_, p, hp, hocc⟩ := h
      exact hocc (hall p hp))
    simpa using this
  · intro hphase
    exact ⟨fun he => key.mpr (Or.inl (hphase.mpr he)),
      fun hne => hiff (fun h => hne (hphase.mp h))⟩

theorem adjacent_to_placeable_witness :
    PhaseInv demoScored ∧ adjacent_to demoFresh 2 2 = true ∧
      adjacent_to demoScored 1 0 = true ∧ adjacent_to demoScored 0 0 = false := by
  have hp : PhaseInv demoScored := by unfold PhaseInv BoardEmpty; decide
  have hne : ¬ BoardEmpty demoScored := by unfold BoardEmpty; decide
  have h := adjacent_to_placeable demoScored 1 0 (by decide) (by decide)
  refine ⟨hp, (adjacent_to_placeable demoFresh 2 2 (by decide) (by decide)).1 rfl,
    ((h.2.2.2.2 hp).2 hne).mpr ⟨by decide, (0, 0), by unfold torusAdj; decide, by decide⟩,
    (adjacent_to_placeable demoScored 0 0 (by decide) (by decide)).2.2.1 (by decide)
      (by decide)⟩

/-- C4 fails on the code: the deck file `e` starts with the card line `**`,
which `parse_deck_file` accepts; after the fresh start `bark e 3 3 h h` and the
first deal, player one's move `1 1 1` is accepted and puts that card on the
board.  The board then still has no occupied cell while the phase is `Middle`,
and `adjacent_to`, which tests the phase and not the board, is false for every
cell of the empty board. -/
theorem adjacent_to_false_on_empty_board :
    ∃ g g2, main_start demoFsStar [] demoStack demoArgvStar = .ok g ∧
      (deal_cards g).1 = true ∧
      check_entry (deal_cards g).2 [49, 32, 49, 32, 49] = .ok (true, g2) ∧
      g2.status = MIDDLE_GAME ∧ BoardEmpty g2 ∧
      ∀ x, x < g2.height → ∀ y, y < g2.width → adjacent_to g2 x y = false := by
  refine ⟨_, _, rfl, by decide, rfl, by decide, ?_, by decide⟩
  unfold BoardEmpty
  decide

/-! ### Checking a line of input -/

theorem check_entry_cases (g : Game) (line : List Nat) (b : Bool) (g' : Game)
    (h : check_entry g line = .ok (b, g')) :
    (b = false ∧ g' = g) ∨
    (b = true ∧ check_spaces line 2 = .ok true ∧
      ∃ card col row : Int,
        read_int_ptr (strtok line).1 = .ok card ∧
        read_int_ptr (strtok (strtok line).2).1 = .ok col ∧
        read_int_ptr (strtok (strtok (strtok line).2).2).1 = .ok row ∧
        1 ≤ card ∧ card ≤ (HAND_SIZE : Int) ∧ 1 ≤ col ∧ col ≤ (g.width : Int) ∧
        1 ≤ row ∧ row ≤ (g.height : Int) ∧
        adjacent_to g (row - 1).toNat (col - 1).toNat = true ∧
        g' = make_move g (row - 1).toNat (col - 1).toNat (card - 1).toNat) := by
  unfold check_entry at h
  cases hs : check_spaces line 2 with
  | error e => rw [hs] at h; simp at h
  | ok sp =>
    rw [hs] at h
    cases sp with
    | false =>
      simp only [Except.ok.injEq, Prod.mk.injEq] at h
      exact Or.inl ⟨h.1.symm, h.2.symm⟩
    | true =>
      simp only at h
      cases h1 : read_int_ptr (strtok line).1 with
      | error e => rw [h1] at h; simp at h
      | ok card =>
        rw [h1] at h
        simp only at h
        cases h2 : read_int_ptr (strtok (strtok line).2).1 with
        | error e => rw [h2] at h; simp at h
        | ok col =>
          rw [h2] at h
          simp only at h
          cases h3 : read_int_ptr (strtok (strtok (strtok line).2).2).1 with
          | error e => rw [h3] at h; simp at h
          | ok row =>
            rw [h3] at h
            simp only at h
            split at h
            · simp only [Except.ok.injEq, Prod.mk.injEq] at h
              exact Or.inl ⟨h.1.symm, h.2.symm⟩
            · rename_i hcond
              simp only [Except.ok.injEq, Prod.mk.injEq] at h
              refine Or.inr ⟨h.1.symm, rfl, card, col, row, rfl, rfl, rfl, ?_⟩
              simp only [not_or, not_lt, Bool.not_eq_false] at hcond
              obtain ⟨c1, c2, c3, c4, c5, c6, c7⟩ := hcond
              exact ⟨c1, c2, c3, c4, c5, c6, c7, h.2.symm⟩


/-- What `check_entry` accepts: a move whose three tokens read as a hand-slot
index in 1..6 (`HAND_SIZE`, which is the length of the on-turn hand when that
hand is full), a column in 1..width and a row in 1..height, and whose target
cell passes `adjacent_to`; the accepted move is then applied by `make_move`.
A line with three tokens that fail one of these checks is rejected and the
state is left as it was. -/
theorem check_entry_accepts_only_valid (g : Game) (line : List Nat) :
    (∀ g', check_entry g line = .ok (true, g') →
      ∃ card col row : Int,
        read_int_ptr (strtok line).1 = .ok card ∧
        read_int_ptr (strtok (strtok line).2).1 = .ok col ∧
        read_int_ptr (strtok (strtok (strtok line).2).2).1 = .ok row ∧
        1 ≤ card ∧ card ≤ (HAND_SIZE : Int) ∧
        ((g.hands (g.turn - 1)).length = (HAND_SIZE : Int) →
          card ≤ (g.hands (g.turn - 1)).length) ∧
        1 ≤ col ∧ col ≤ (g.width : Int) ∧ 1 ≤ row ∧ row ≤ (g.height : Int) ∧
        adjacent_to g (row - 1).toNat (col - 1).toNat = true ∧
        g' = make_move g (row - 1).toNat (col - 1).toNat (card - 1).toNat) ∧
    (∀ card col row : Int, line ≠ [] →
      read_int_ptr (strtok line).1 = .ok card →
      read_int_ptr (strtok (strtok line).2).1 = .ok col →
      read_int_ptr (strtok (strtok (strtok line).2).2).1 = .ok row →
      (card < 1 ∨ card > (HAND_SIZE : Int) ∨ col < 1 ∨ col > (g.width : Int) ∨ row < 1
        ∨ row > (g.height : Int) ∨ adjacent_to g (row - 1).toNat (col - 1).toNat = false) →
      check_entry g line = .ok (false, g)) := by
  refine ⟨?_, ?_⟩
  · intro g' h
    rcases check_entry_cases g line true g' h with ⟨hb, _⟩ | ⟨_, _, card, col, row, h1, h2, h3,
      c1, c2, c3, c4, c5, c6, c7, hg⟩
    · exact absurd hb (by simp)
    · exact ⟨card, col, row, h1, h2, h3, c1, c2, fun hfull => by rw [hfull]; exact c2,
        c3, c4, c5, c6, c7, hg⟩
  · intro card col row hne h1 h2 h3 hbad
    unfold check_entry
    have hsp : ∃ sp, check_spaces line 2 = .ok sp := by
      unfold check_spaces
      rw [if_neg hne]
      split
      · exact ⟨_, rfl⟩
      · exact ⟨_, rfl⟩
    obtain ⟨sp, hsp⟩ := hsp
    rw [hsp]
    cases sp with
    | false => rfl
    | true =>
      simp only [h1, h2, h3]
      rw [if_pos hbad]

theorem check_entry_accepts_only_valid_witness :
    ∃ card col row : Int,
      read_int_ptr (strtok [50, 32, 51, 32, 49]).1 = .ok card ∧
      read_int_ptr (strtok (strtok [50, 32, 51, 32, 49]).2).1 = .ok col ∧
      read_int_ptr (strtok (strtok (strtok [50, 32, 51, 32, 49]).2).2).1 = .ok row ∧
      1 ≤ card ∧ card ≤ (HAND_SIZE : Int) ∧
      ((demoFresh.hands (demoFresh.turn - 1)).length = (HAND_SIZE : Int) →
        card ≤ (demoFresh.hands (demoFresh.turn - 1)).length) ∧
      1 ≤ col ∧ col ≤ (demoFresh.width : Int) ∧ 1 ≤ row ∧ row ≤ (demoFresh.height : Int) ∧
      adjacent_to demoFresh (row - 1).toNat (col - 1).toNat = true ∧
      make_move demoFresh 0 2 1 =
        make_move demoFresh (row - 1).toNat (col - 1).toNat (card - 1).toNat :=
  (check_entry_accepts_only_valid demoFresh [50, 32, 51, 32, 49]).1
    (make_move demoFresh 0 2 1) (by rfl)

/-- The slot bound of `check_entry` is the constant `HAND_SIZE`: in a state
built with five cards in the on-turn hand (`game_loop` fills that hand to six
before it asks for a move) the line `6 1 1` is accepted. -/
theorem check_entry_accepts_slot_beyond_hand :
    (demoShort.hands (demoShort.turn - 1)).length = 5 ∧
      read_int_ptr (strtok [54, 32, 49, 32, 49]).1 = .ok 6 ∧
      check_entry demoShort [54, 32, 49, 32, 49] = .ok (true, make_move demoShort 0 0 5) ∧
      ((make_move demoShort 0 0 5).hands 0).length = 4 ∧
      (make_move demoShort 0 0 5).board 0 0 = ⟨0, 0⟩ := by
  refine ⟨by decide, by rfl, by rfl, by decide, by decide⟩

/-- C5 fails on the code: in the first turn of `bark d 3 3 h h` the line
` 11 1` (a leading space, slot 11, one more number) is not rejected.
`check_spaces` counts its two single spaces and lets it pass, the third
`strtok` returns NULL, and `read_int` hands NULL to `strtol`: undefined
behaviour, before the slot, which is beyond the six cards of the hand, is
compared with anything. -/
theorem check_entry_missing_token :
    ∃ g0, main_start demoFs [] demoStack demoArgv = .ok g0 ∧
      (game_loop_cond g0).1 = true ∧
      ((game_loop_cond g0).2.hands 0).length = 6 ∧
      check_spaces [32, 49, 49, 32, 49] 2 = .ok true ∧
      (strtok [32, 49, 49, 32, 49]).1 = some [49, 49] ∧
      read_int [49, 49] = 11 ∧
      (strtok (strtok (strtok [32, 49, 49, 32, 49]).2).2).1 = none ∧
      check_entry (game_loop_cond g0).2 [32, 49, 49, 32, 49] = .error .undefined ∧
      game_loop_body (fun _ => true) (game_loop_cond g0).2 [[32, 49, 49, 32, 49]] =
        .error .undefined ∧
      main_run demoFs (fun _ => true) [] demoStack demoArgv [[32, 49, 49, 32, 49]] 9 =
        .error .undefined := by
  refine ⟨_, rfl, by decide, by decide, rfl, rfl, by rfl, rfl, rfl, rfl, rfl⟩

/-- C7: a line on which `check_input` returns `false` (a rejected move, a line
that is too short, or a `SAVE` request whatever `save_game` did) leaves the
whole state, turn included, as it was, and does not use up the turn: the
player is asked again as if the line had not been entered.  A line on which
`check_input` returns `true` is a move applied in full by `make_move`, and no
file is written then. -/
theorem check_input_atomic (canOpen : List Nat → Bool) (g : Game) (line : List Nat)
    (b : Bool) (g1 : Game) (sv : Option SaveOutcome)
    (h : check_input canOpen g line = .ok (b, g1, sv)) :
    (b = false → g1 = g ∧
      ∀ rest, player_handler_loop canOpen g (line :: rest) = player_handler_loop canOpen g rest) ∧
    (b = true → sv = none ∧ ∃ row col c, g1 = make_move g row col c) ∧
    (sv ≠ none → b = false ∧ g1 = g) := by
  have hfalse : b = false → g1 = g := by
    intro hb
    subst hb
    unfold check_input at h
    split at h
    · simp only [Except.ok.injEq, Prod.mk.injEq] at h
      exact h.2.1.symm
    · split at h
      · cases hc : check_entry g line with
        | error e => rw [hc] at h; simp at h
        | ok r =>
          rw [hc] at h
          simp only [Except.ok.injEq, Prod.mk.injEq] at h
          have hc1 : check_entry g line = .ok (false, g1) := by rw [hc, ← h.1, ← h.2.1]
          rcases check_entry_cases g line false g1 hc1 with ⟨_, hg⟩ | ⟨hb, _⟩
          · exact hg
          · exact absurd hb (by simp)
      · simp only [Except.ok.injEq, Prod.mk.injEq] at h
        exact h.2.1.symm
  refine ⟨?_, ?_, ?_⟩
  · intro hb
    refine ⟨hfalse hb, ?_⟩
    intro rest
    have hg := hfalse hb
    subst hb
    subst hg
    simp only [player_handler_loop, h]
  · intro hb
    subst hb
    unfold check_input at h
    split at h
    · simp at h
    · split at h
      · cases hc : check_entry g line with
        | error e => rw [hc] at h; simp at h
        | ok r =>
          rw [hc] at h
          simp only [Except.ok.injEq, Prod.mk.injEq] at h
          have hc1 : check_entry g line = .ok (true, g1) := by rw [hc, ← h.1, ← h.2.1]
          rcases check_entry_cases g line true g1 hc1 with ⟨hb, _⟩ | ⟨_, _, card, col, row, _, _,
            _, _, _, _, _, _, _, _, hg⟩
          · exact absurd hb (by simp)
          · exact ⟨h.2.2.symm, _, _, _, hg⟩
      · simp at h
  · intro hsv
    have hb : b = false := by
      unfold check_input at h
      split at h
      · simp only [Except.ok.injEq, Prod.mk.injEq] at h
        exact h.1.symm
      · split at h
        · cases hc : check_entry g line with
          | error e => rw [hc] at h; simp at h
          | ok r =>
            rw [hc] at h
            simp only [Except.ok.injEq, Prod.mk.injEq] at h
            exact absurd h.2.2.symm hsv
        · simp only [Except.ok.injEq, Prod.mk.injEq] at h
          exact h.1.symm
    exact ⟨hb, hfalse hb⟩

theorem check_input_atomic_witness :
    check_input (fun _ => true) demoFresh [55, 32, 49, 32, 49] = .ok (false, demoFresh, none) ∧
      ∀ rest, player_handler_loop (fun _ => true) demoFresh ([55, 32, 49, 32, 49] :: rest) =
        player_handler_loop (fun _ => true) demoFresh rest :=
  ⟨by rfl, ((check_input_atomic (fun _ => true) demoFresh [55, 32, 49, 32, 49] false demoFresh
    none (by rfl)).1 rfl).2⟩

/-! ### Applying a move -/

theorem shuffle_down_apply (i : Nat) :
    ∀ fuel k (cards : Nat → Card), k + fuel ≤ HAND_SIZE - 1 →
      shuffle_down fuel k cards i = if k ≤ i ∧ i < k + fuel then cards (i + 1) else cards i := by
  intro fuel
  induction fuel with
  | zero =>
    intro k cards _
    have : ¬ (k ≤ i ∧ i < k) := by omega
    simp [shuffle_down, this]
  | succ fuel ih =>
    intro k cards hk
    have hlt : k < HAND_SIZE - 1 := by omega
    simp only [shuffle_down, if_pos hlt]
    rw [ih (k + 1) _ (by omega)]
    unfold store
    by_cases h1 : k + 1 ≤ i ∧ i < k + 1 + fuel
    · have h2 : k ≤ i ∧ i < k + (fuel + 1) := by omega
      have h3 : i + 1 ≠ k := by omega
      simp [h1, h2, h3]
    · by_cases h4 : i = k
      · have h2 : k ≤ i ∧ i < k + (fuel + 1) := by omega
        simp [h1, h2, h4]
      · have h2 : ¬ (k ≤ i ∧ i < k + (fuel + 1)) := by omega
        simp [h1, h2, h4]

theorem make_move_hand_cards (g : Game) (row col c i : Nat) (hc : c ≤ HAND_SIZE - 1) :
    ((make_move g row col c).hands (g.turn - 1)).cards i =
      if c ≤ i ∧ i < HAND_SIZE - 1 then (g.hands (g.turn - 1)).cards (i + 1)
      else (g.hands (g.turn - 1)).cards i := by
  unfold make_move
  simp only [store, if_true]
  rw [shuffle_down_apply i _ _ _ (by omega)]
  have : c + (HAND_SIZE - 1 - c) = HAND_SIZE - 1 := by omega
  rw [this]

/-- C6: for a move with hand slot `c` that indexes a card held by the player on
turn, `make_move` leaves that player's hand equal to the old hand with the card
at index `c` removed, the other cards in their order and the length one less;
it writes the removed card into cell `(row, col)`, turns phase `New` into
`Middle` and keeps any other phase, and leaves the other board cells, the other
hand, the deck, the cursor, the turn and the dimensions unchanged. -/
theorem make_move_effect (g : Game) (row col c : Nat)
    (hl : (g.hands (g.turn - 1)).length ≤ (HAND_SIZE : Int))
    (hc : (c : Int) < (g.hands (g.turn - 1)).length) :
    handList ((make_move g row col c).hands (g.turn - 1)) =
        (handList (g.hands (g.turn - 1))).eraseIdx c ∧
      ((make_move g row col c).hands (g.turn - 1)).length =
        (g.hands (g.turn - 1)).length - 1 ∧
      (make_move g row col c).board row col = (g.hands (g.turn - 1)).cards c ∧
      (∀ r k, ¬ (r = row ∧ k = col) → (make_move g row col c).board r k = g.board r k) ∧
      (make_move g row col c).status =
        (if g.status = NEW_GAME then MIDDLE_GAME else g.status) ∧
      (∀ i, i ≠ g.turn - 1 → (make_move g row col c).hands i = g.hands i) ∧
      (make_move g row col c).deck = g.deck ∧
      (make_move g row col c).cardsDrawn = g.cardsDrawn ∧
      (make_move g row col c).turn = g.turn ∧
      (make_move g row col c).width = g.width ∧
      (make_move g row col c).height = g.height := by
  have hlen : ((make_move g row col c).hands (g.turn - 1)).length =
      (g.hands (g.turn - 1)).length - 1 := by
    simp [make_move, store]
  have hH : HAND_SIZE = 6 := rfl
  refine ⟨?_, hlen, by simp [make_move, store2], ?_, rfl, ?_, rfl, rfl, rfl, rfl, rfl⟩
  · apply List.ext_getElem?
    intro i
    unfold handList
    rw [hlen, List.getElem?_eraseIdx]
    simp only [List.getElem?_map, List.getElem?_range]
    rw [hH] at hl
    by_cases hi : (i : Int) < (g.hands (g.turn - 1)).length - 1
    · have h1 : i < ((g.hands (g.turn - 1)).length - 1).toNat := by omega
      have h2 : i < (g.hands (g.turn - 1)).length.toNat := by omega
      have h3 : i + 1 < (g.hands (g.turn - 1)).length.toNat := by omega
      rw [List.getElem?_range h1, Option.map_some',
        make_move_hand_cards g row col c i (by rw [hH]; omega)]
      by_cases hci : i < c
      · have : ¬ (c ≤ i ∧ i < HAND_SIZE - 1) := by omega
        simp [hci, this, List.getElem?_range h2]
      · have : c ≤ i ∧ i < HAND_SIZE - 1 := by rw [hH]; omega
        simp [hci, this, List.getElem?_range h3]
    · have h1 : ¬ i < ((g.hands (g.turn - 1)).length - 1).toNat := by omega
      have h3 : ¬ i + 1 < (g.hands (g.turn - 1)).length.toNat := by omega
      have hci : ¬ i < c := by omega
      rw [List.getElem?_eq_none (by simp; omega)]
      simp only [hci, if_false, Option.map_eq_none']
      rw [List.getElem?_eq_none (by simp; omega)]
      simp
  · intro r k hrk
    simp [make_move, store2, hrk]
  · intro i hi
    simp [make_move, store, hi]

theorem make_move_effect_witness :
    handList ((make_move demoFresh 1 1 2).hands 0) = (handList (demoFresh.hands 0)).eraseIdx 2 ∧
      (make_move demoFresh 1 1 2).board 1 1 = ⟨51, 67⟩ ∧
      (make_move demoFresh 1 1 2).status = MIDDLE_GAME :=
  ⟨(make_move_effect demoFresh 1 1 2 (by decide) (by decide)).1,
    (make_move_effect demoFresh 1 1 2 (by decide) (by decide)).2.2.1,
    (make_move_effect demoFresh 1 1 2 (by decide) (by decide)).2.2.2.2.1⟩

/-! ### Saving -/

theorem save_name_loop_iff (name : List Nat) (hne : name ≠ []) :
    save_name_loop name = true ↔
      ∀ c ∈ name, ¬ ((65 ≤ c ∧ c ≤ 90) ∨ (97 ≤ c ∧ c ≤ 122)) := by
  induction name with
  | nil => exact absurd rfl hne
  | cons c rest ih =>
    unfold save_name_loop
    by_cases ha : (c ≥ 65 ∧ c ≤ 90) ∨ (c ≥ 97 ∧ c ≤ 122)
    · rw [if_pos ha]
      simp only [Bool.false_eq_true, false_iff, not_forall]
      exact ⟨c, List.mem_cons_self _ _, fun h => h ha⟩
    · rw [if_neg ha]
      by_cases hr : rest = []
      · subst hr
        simp only [if_true, true_iff, List.mem_singleton]
        intro d hd
        subst hd
        exact ha
      · rw [if_neg hr, ih hr]
        constructor
        · intro h d hd
          rcases List.mem_cons.mp hd with rfl | hd
          · exact ha
          · exact h d hd
        · intro h d hd
          exact h d (List.mem_cons_of_mem _ hd)

/-- C8: for a non-empty destination name, `save_game` stops at the name check
(with the notice "Unable to save") exactly when no character of the name, at
any position, is in `A`-`Z` or `a`-`z`; in particular the line `SAVE 123` is
answered by that rejection, `check_input` returns `false` and the state is
unchanged. -/
theorem save_game_name_check (canOpen : List Nat → Bool) (g : Game) (name : List Nat)
    (hne : name ≠ []) :
    (save_game canOpen g name = .nameRejected ↔
      ∀ c ∈ name, ¬ ((65 ≤ c ∧ c ≤ 90) ∨ (97 ≤ c ∧ c ≤ 122))) ∧
    check_input canOpen g [83, 65, 86, 69, 32, 49, 50, 51] =
      .ok (false, g, some .nameRejected) := by
  refine ⟨?_, by rfl⟩
  rw [← save_name_loop_iff name hne]
  unfold save_game
  by_cases h : save_name_loop name = true
  · simp [h]
  · have h' : save_name_loop name = false := by simpa using h
    rw [h']
    simp only [Bool.false_eq_true, if_false, false_iff]
    by_cases ho : canOpen name = false
    · rw [if_pos ho]; simp
    · rw [if_neg ho]; simp

theorem save_game_name_check_witness :
    (save_game (fun _ => true) demoFresh [49, 120, 50] = .nameRejected ↔
      ∀ c ∈ [49, 120, 50], ¬ ((65 ≤ c ∧ c ≤ 90) ∨ (97 ≤ c ∧ c ≤ 122))) ∧
    check_input (fun _ => true) demoFresh [83, 65, 86, 69, 32, 49, 50, 51] =
      .ok (false, demoFresh, some .nameRejected) :=
  save_game_name_check (fun _ => true) demoFresh [49, 120, 50] (by decide)

/-! ### The automated player -/

theorem return_move_cols_done (g : Game) (player fuel i j row column : Nat)
    (hj : ¬ j < g.width) : return_move_cols g player fuel i j row column = (i, row, column) := by
  cases fuel with
  | zero => rfl
  | succ fuel => simp [return_move_cols, hj]

theorem return_move_rows_done (g : Game) (player fuel i row column : Nat)
    (hi : ¬ i < g.height) : return_move_rows g player fuel i row column = (row, column) := by
  cases fuel with
  | zero => rfl
  | succ fuel => simp [return_move_rows, hi]

theorem return_move_cols_spec (g : Game) (player i : Nat) :
    ∀ fuel j row column, g.width - j < fuel →
      (∀ c, ((List.range' j (g.width - j)).map (scanCell g player i)).find?
          (fun p => adjacent_to g p.1 p.2) = some c →
        return_move_cols g player fuel i j row column = (g.height, c.1, c.2)) ∧
      (((List.range' j (g.width - j)).map (scanCell g player i)).find?
          (fun p => adjacent_to g p.1 p.2) = none →
        (return_move_cols g player fuel i j row column).1 = i) := by
  intro fuel
  induction fuel with
  | zero => intro j row column h; omega
  | succ fuel ih =>
    intro j row column hf
    by_cases hj : j < g.width
    · have e : g.width - j = (g.width - (j + 1)) + 1 := by omega
      rw [e, List.range'_succ, List.map_cons, List.find?_cons]
      simp only [return_move_cols, if_pos hj]
      have hcell : scanCell g player i j =
          (if player ≠ PLAYER_ONE then g.height - i - 1 else i,
            if player ≠ PLAYER_ONE then g.width - j - 1 else j) := rfl
      by_cases ha : adjacent_to g (scanCell g player i j).1 (scanCell g player i j).2 = true
      · rw [ha]
        rw [hcell] at ha
        simp only at ha
        rw [if_pos ha, return_move_cols_done g player fuel _ _ _ _ (by omega)]
        refine ⟨?_, by simp⟩
        intro c hc
        simp only [Option.some.injEq] at hc
        rw [← hc, hcell]
      · have ha' : adjacent_to g (scanCell g player i j).1 (scanCell g player i j).2 = false := by
          simpa using ha
        rw [ha']
        rw [hcell] at ha
        simp only at ha
        rw [if_neg ha]
        exact ih (j + 1) _ _ (by omega)
    · have e : g.width - j = 0 := by omega
      rw [e, return_move_cols_done g player _ i j row column hj]
      simp

theorem return_move_rows_spec (g : Game) (player : Nat) :
    ∀ fuel i row column, g.height - i < fuel →
      ∀ c, ((List.range' i (g.height - i)).flatMap
          (fun i => (List.range g.width).map (scanCell g player i))).find?
          (fun p => adjacent_to g p.1 p.2) = some c →
        return_move_rows g player fuel i row column = c := by
  intro fuel
  induction fuel with
  | zero => intro i row column h; omega
  | succ fuel ih =>
    intro i row column hf c hc
    by_cases hi : i < g.height
    · have e : g.height - i = (g.height - (i + 1)) + 1 := by omega
      rw [e, List.range'_succ, List.flatMap_cons, List.find?_append] at hc
      simp only [return_move_rows, if_pos hi]
      have hcols := return_move_cols_spec g player i (g.width + 1) 0 row column (by omega)
      rw [Nat.sub_zero, ← List.range_eq_range'] at hcols
      cases hrow : ((List.range g.width).map (scanCell g player i)).find?
          (fun p => adjacent_to g p.1 p.2) with
      | some c' =>
        rw [hrow] at hc
        simp only [Option.or_some, Option.some.injEq] at hc
        rw [hcols.1 c' hrow]
        simp only
        rw [return_move_rows_done g player fuel _ _ _ (by omega), ← hc]
      | none =>
        rw [hrow] at hc
        simp only [Option.none_or] at hc
        have h1 := hcols.2 hrow
        rw [h1]
        exact ih (i + 1) _ _ (by omega) c hc
    · have e : g.height - i = 0 := by omega
      rw [e] at hc
      simp at hc

theorem scan_player_one (g : Game) :
    (List.range' 0 (g.height - 0)).flatMap
        (fun i => (List.range g.width).map (scanCell g 0 i)) = rowMajor g.height g.width := by
  rw [Nat.sub_zero, ← List.range_eq_range']
  rfl

theorem range_reverse_eq (n : Nat) : (List.range n).reverse = (List.range n).map (fun i => n - i - 1) := by
  rw [List.range_eq_range', List.reverse_range', ← List.range_eq_range']
  apply List.map_congr_left
  intro a _
  omega

theorem scan_player_two (g : Game) :
    (List.range' 0 (g.height - 0)).flatMap
        (fun i => (List.range g.width).map (scanCell g 1 i)) = mirrored g.height g.width := by
  rw [Nat.sub_zero, ← List.range_eq_range']
  unfold mirrored
  rw [range_reverse_eq g.height, range_reverse_eq g.width, List.flatMap_map]
  congr 1
  funext i
  rw [List.map_map]
  rfl

/-- C9: `return_move` always plays hand slot 0.  In phase `New` its target is
`((height - 1) / 2, (width - 1) / 2)`; otherwise, when some cell satisfies
`adjacent_to`, the target is the first such cell in row-major order for player
one and the first such cell in the mirrored order (rows `height - 1` down to 0,
columns `width - 1` down to 0) for player two. -/
theorem return_move_choice (g : Game) :
    return_move g = make_move g (return_move_target g).1 (return_move_target g).2 0 ∧
    (g.status = NEW_GAME →
      return_move_target g = ((g.height - 1) / 2, (g.width - 1) / 2)) ∧
    (g.status ≠ NEW_GAME → g.turn = TURN_ONE →
      ∀ c, (rowMajor g.height g.width).find? (fun p => adjacent_to g p.1 p.2) = some c →
        return_move_target g = c) ∧
    (g.status ≠ NEW_GAME → g.turn = TURN_TWO →
      ∀ c, (mirrored g.height g.width).find? (fun p => adjacent_to g p.1 p.2) = some c →
        return_move_target g = c) := by
  refine ⟨rfl, ?_, ?_, ?_⟩
  · intro hs
    simp [return_move_target, hs]
  · intro hs ht c hc
    unfold return_move_target
    rw [if_neg hs, ht]
    rw [← scan_player_one] at hc
    exact return_move_rows_spec g 0 (g.height + 1) 0 0 0 (by omega) c hc
  · intro hs ht c hc
    unfold return_move_target
    rw [if_neg hs, ht]
    rw [← scan_player_two] at hc
    exact return_move_rows_spec g 1 (g.height + 1) 0 0 0 (by omega) c hc

theorem return_move_choice_witness :
    return_move_target demoFresh = (1, 1) ∧ return_move_target demoScored = (1, 0) ∧
      return_move_target { demoScored with turn := 2 } = (2, 2) := by
  refine ⟨?_, ?_, ?_⟩
  · exact (return_move_choice demoFresh).2.1 (by decide)
  · exact (return_move_choice demoScored).2.2.1 (by decide) (by decide) (1, 0) (by decide)
  · exact (return_move_choice { demoScored with turn := 2 }).2.2.2 (by decide) (by decide)
      (2, 2) (by decide)

/-! ### Start-up -/

/-- C10 fails on the code: the fresh start `bark d 3 3 h h` on a deck of
thirteen cards hands a state to `game_loop` in which each player holds five cards and the
cursor is 10, because `main` deals with `turn` set to `PLAYER_ONE` (0), which
matches neither player in `deal_cards`; the phase is `New` and the board empty.
The sixth card of player one is only dealt by the first `deal_cards` call of
`game_loop`. -/
theorem main_start_deals_ten_cards :
    ∃ g, main_start demoFs [] demoStack demoArgv = .ok g ∧
      (g.hands 0).length = 5 ∧ (g.hands 1).length = 5 ∧ g.cardsDrawn = 10 ∧
      g.turn = TURN_ONE ∧ g.status = NEW_GAME ∧ BoardEmpty g ∧
      (deal_cards g).1 = true ∧ ((deal_cards g).2.hands 0).length = 6 ∧
      ((deal_cards g).2.hands 1).length = 5 ∧ (deal_cards g).2.cardsDrawn = 11 := by
  refine ⟨_, rfl, by decide, by decide, by decide, by decide, by decide, ?_, by decide,
    by decide, by decide, by decide⟩
  unfold BoardEmpty
  decide

/-! ### Loading the deck -/

theorem parse_deck_loop_count (length : Int) :
    ∀ (rest : List (List Nat)) (lineN : Nat) (cards : Nat → Card) (r : Nat × (Nat → Card)),
      parse_deck_loop length rest lineN cards = .ok r → r.1 = lineN + rest.length := by
  intro rest
  induction rest with
  | nil =>
    intro lineN cards r h
    simp only [parse_deck_loop, Except.ok.injEq] at h
    rw [← h]
    rfl
  | cons line rest ih =>
    intro lineN cards r h
    unfold parse_deck_loop at h
    split at h
    · simp at h
    · have := ih _ _ r h
      rw [this, List.length_cons]
      omega

theorem parse_deck_loop_error (length : Int) :
    ∀ (rest : List (List Nat)) (lineN : Nat) (cards : Nat → Card) (e : Err),
      parse_deck_loop length rest lineN cards = .error e → e = .exit ERROR_DECK_READ := by
  intro rest
  induction rest with
  | nil =>
    intro lineN cards e h
    simp [parse_deck_loop] at h
  | cons line rest ih =>
    intro lineN cards e h
    unfold parse_deck_loop at h
    split at h
    · simp only [Except.error.injEq] at h
      exact h.symm
    · exact ih _ _ e h

/-- The count test of `parse_deck_file` on the lines that `read_line`
delivers: when the first line reads as a positive length `N` and the number of
complete lines that follow differs from `N`, fewer or more, `parse_deck_file`
ends with the deck-file error, exit status 3. -/
theorem parse_deck_file_line_count (fs : List Nat → Option (List Nat)) (g : Game)
    (text first : List Nat) (rest : List (List Nat))
    (hfs : fs g.deckFile = some text) (hlines : read_lines text [] = first :: rest)
    (_hpos : 0 < read_int first) (hcount : (rest.length : Int) ≠ read_int first) :
    parse_deck_file fs g = .error (.exit ERROR_DECK_READ) := by
  unfold parse_deck_file
  rw [hfs]
  simp only
  rw [hlines]
  simp only
  split
  · rfl
  · cases hp : parse_deck_loop (read_int first) rest 0 (fun _ => ⟨0, 0⟩) with
    | error e =>
      simp only
      rw [parse_deck_loop_error _ _ _ _ e hp]
    | ok r =>
      have hc := parse_deck_loop_count _ _ _ _ r hp
      simp only
      have hne : (r.1 : Int) ≠ read_int first := by
        rw [hc]
        simpa using hcount
      rw [if_pos hne]

theorem parse_deck_file_line_count_witness :
    parse_deck_file demoFsNine { demoStack with deckFile := [116] } =
      .error (.exit ERROR_DECK_READ) :=
  parse_deck_file_line_count demoFsNine { demoStack with deckFile := [116] } demoNineText
    [49, 48] ((demoDeck.take 9).map (fun c => [c.num, c.suit])) rfl (by decide) (by decide)
    (by decide)


/-- C12 fails on the code: the deck file `y` declares 13 and holds fourteen card
lines, the thirteen of the deck file `d` and a last line `9Z` that is not ended
by a line feed.  `read_line` returns NULL when the end of the file comes before
a line feed and drops what it has read, so `parse_deck_file` counts thirteen
lines and accepts the deck, and `bark y 3 3 h h` starts the game. -/
theorem parse_deck_file_unterminated_line :
    demoFsTail [121] =
        some (fileText ([49, 51] :: demoDeck.map (fun c => [c.num, c.suit])) [57, 90]) ∧
      (demoDeck.map (fun c => [c.num, c.suit])).length = 13 ∧
      check_card 90 57 = true ∧
      (∃ g, parse_deck_file demoFsTail { demoStack with deckFile := [121] } = .ok g ∧
        g.deck.length = 13) ∧
      ∃ g0, main_start demoFsTail [] demoStack demoArgvTail = .ok g0 ∧ g0.deck.length = 13 := by
  refine ⟨by decide, by decide, by decide, ⟨_, rfl, by decide⟩, _, rfl, by decide⟩

theorem check_card_true (suit num : Nat) (h : check_card suit num = true) :
    (⟨num, suit⟩ : Card) = blank ∨ ValidCard ⟨num, suit⟩ := by
  unfold check_card at h
  split at h
  · rename_i hb
    left
    unfold blank
    rw [hb.1, hb.2]
  · split at h
    · simp at h
    · rename_i hv
      right
      unfold ValidCard
      simp only
      omega

theorem parse_deck_loop_cards (length : Int) :
    ∀ (rest : List (List Nat)) (lineN : Nat) (cards : Nat → Card) (r : Nat × (Nat → Card)),
      parse_deck_loop length rest lineN cards = .ok r →
      (∀ k, k < lineN → cards k = blank ∨ ValidCard (cards k)) →
      ∀ k, k < r.1 → r.2 k = blank ∨ ValidCard (r.2 k) := by
  intro rest
  induction rest with
  | nil =>
    intro lineN cards r h hc
    simp only [parse_deck_loop, Except.ok.injEq] at h
    rw [← h]
    exact hc
  | cons line rest ih =>
    intro lineN cards r h hc
    unfold parse_deck_loop at h
    split at h
    · simp at h
    · rename_i hok
      simp only [not_or, Bool.not_eq_false] at hok
      refine ih _ _ r h ?_
      intro k hk
      unfold store
      by_cases hkl : k = lineN
      · rw [if_pos hkl]
        exact check_card_true _ _ hok.2.2
      · rw [if_neg hkl]
        exact hc k (by omega)

theorem parse_deck_file_cards (fs : List Nat → Option (List Nat)) (g g1 : Game)
    (h : parse_deck_file fs g = .ok g1) :
    (g.cardsDrawn : Int) ≤ g1.deck.length ∧ 0 < g1.deck.length ∧
      ∀ k : Nat, (k : Int) < g1.deck.length →
        g1.deck.cards k = blank ∨ ValidCard (g1.deck.cards k) := by
  unfold parse_deck_file at h
  cases hfs : fs g.deckFile with
  | none => rw [hfs] at h; simp at h
  | some text =>
    rw [hfs] at h
    simp only at h
    cases hl : read_lines text [] with
    | nil => rw [hl] at h; simp at h
    | cons first rest =>
      rw [hl] at h
      simp only at h
      by_cases hbad : read_int first ≤ 0 ∨ read_int first < (g.cardsDrawn : Int)
      · rw [if_pos hbad] at h; simp at h
      · rw [if_neg hbad] at h
        cases hp : parse_deck_loop (read_int first) rest 0 (fun _ => ⟨0, 0⟩) with
        | error e => rw [hp] at h; simp at h
        | ok r =>
          rw [hp] at h
          simp only at h
          by_cases hne : (r.1 : Int) ≠ read_int first
          · rw [if_pos hne] at h; simp at h
          · rw [if_neg hne] at h
            simp only [Except.ok.injEq] at h
            rw [← h]
            simp only
            refine ⟨by omega, by omega, ?_⟩
            intro k hk
            exact parse_deck_loop_cards _ _ _ _ r hp (fun k hk => by omega) k (by omega)

/-- C13 fails on the code: the deck file `e` has the card line `**` (the empty
marker) as its first card line; `parse_deck_file` accepts it, because
`check_card` admits the marker, and the loaded deck holds a card that has no
rank in 1-9 and no suit in A-Z. -/
theorem parse_deck_file_accepts_marker :
    ∃ g, parse_deck_file demoFsStar { demoStack with deckFile := [101] } = .ok g ∧
      g.deck.length = 13 ∧ g.deck.cards 0 = blank ∧ ¬ ValidCard (g.deck.cards 0) := by
  refine ⟨_, rfl, by decide, by decide, by decide⟩

/-! ### Loading a snapshot: line count and full board -/

theorem parse_save_loop_count (fs : List Nat → Option (List Nat)) (freed : List Nat) :
    ∀ (lines : List (List Nat)) (lineN : Nat) (g : Game) (r : Nat × Game),
      parse_save_loop fs freed lines lineN g = .ok r → r.1 = lineN + lines.length := by
  intro lines
  induction lines with
  | nil =>
    intro lineN g r h
    simp only [parse_save_loop, Except.ok.injEq] at h
    rw [← h]
    rfl
  | cons line rest ih =>
    intro lineN g r h
    unfold parse_save_loop at h
    simp only at h
    split at h
    · simp at h
    · have := ih _ _ r h
      rw [this, List.length_cons]
      omega

theorem board_full_scan_true (g : Game) :
    board_full_scan g = true ↔
      ∀ r, r < g.height → ∀ c, c < g.width → (g.board r c).suit ≠ 42 := by
  unfold board_full_scan
  simp only [List.all_eq_true, List.mem_range, decide_eq_true_eq]

theorem parse_save_file_line_count (fs : List Nat → Option (List Nat)) (freed : List Nat)
    (g g1 : Game) (fileName text : List Nat) (hfs : fs fileName = some text)
    (h : parse_save_file fs freed g fileName = .ok g1) :
    (read_lines text []).length = g1.height + 4 := by
  unfold parse_save_file at h
  rw [hfs] at h
  simp only at h
  cases hl : parse_save_loop fs freed (read_lines text []) 0 g with
  | error e => rw [hl] at h; simp at h
  | ok r =>
    rw [hl] at h
    simp only at h
    have hc := parse_save_loop_count fs freed _ _ _ r hl
    split at h
    · simp at h
    · rename_i hn
      split at h
      · simp at h
      · rename_i hfull
        simp only [Except.ok.injEq] at h
        have hb : (board_full r.2).2 = r.2 := by
          unfold board_full at hfull ⊢
          split
          · rename_i hs
            rw [if_pos hs] at hfull
            simp at hfull
          · rfl
        rw [hb] at h
        rw [← h]
        omega

/-- What the last two tests of `parse_save_file` give: every state it returns
has an empty cell, and a state read to the end with the right number of lines
and a full board ends the load with the full-board error. -/
theorem parse_save_file_not_full (fs : List Nat → Option (List Nat)) (freed : List Nat)
    (g : Game) (fileName : List Nat) :
    (∀ g1, parse_save_file fs freed g fileName = .ok g1 →
      ∃ r, r < g1.height ∧ ∃ c, c < g1.width ∧ (g1.board r c).suit = 42) ∧
    (∀ text lineN g1, fs fileName = some text →
      parse_save_loop fs freed (read_lines text []) 0 g = .ok (lineN, g1) →
      lineN = g1.height + 4 →
      (∀ r, r < g1.height → ∀ c, c < g1.width → (g1.board r c).suit ≠ 42) →
      parse_save_file fs freed g fileName = .error (.exit ERROR_FULL_BOARD)) := by
  refine ⟨?_, ?_⟩
  · intro g1 h
    unfold parse_save_file at h
    cases hfs : fs fileName with
    | none => rw [hfs] at h; simp at h
    | some text =>
      rw [hfs] at h
      simp only at h
      cases hl : parse_save_loop fs freed (read_lines text []) 0 g with
      | error e => rw [hl] at h; simp at h
      | ok r =>
        rw [hl] at h
        simp only at h
        split at h
        · simp at h
        · split at h
          · simp at h
          · rename_i hfull
            simp only [Except.ok.injEq] at h
            have hscan : board_full_scan r.2 = false := by
              unfold board_full at hfull
              by_contra hne
              have ht : board_full_scan r.2 = true := by simpa using hne
              rw [if_pos ht] at hfull
              exact hfull rfl
            have hb : (board_full r.2).2 = r.2 := by
              unfold board_full
              rw [hscan]
              rfl
            rw [hb] at h
            subst h
            by_contra hnone
            have hall : board_full_scan r.2 = true := by
              rw [board_full_scan_true]
              intro x hx y hy he
              exact hnone ⟨x, hx, y, hy, he⟩
            rw [hscan] at hall
            exact absurd hall (by simp)
  · intro text lineN g1 hfs hl hcount hfull
    unfold parse_save_file
    rw [hfs]
    simp only
    rw [hl]
    simp only
    have hscan : board_full_scan g1 = true := (board_full_scan_true g1).mpr hfull
    have hn : ¬ lineN ≠ g1.height + 4 := by omega
    simp only [hn, if_false, board_full, hscan, if_true]

/-- C14 as stated fails: the file `f` holds the snapshot of `demoFull`, a 3x3
board with a card on every cell and all other fields well-formed; loading it
ends with exit status 6 (`ERROR_FULL_BOARD`, "Board full"), not with the
save-file error 4. -/
theorem parse_save_file_full_board_status :
    (∀ r, r < 3 → ∀ c, c < 3 → (demoFull.board r c).suit ≠ 42) ∧
      demoFsFull [102] = some (save_text demoFull) ∧
      parse_save_file demoFsFull [] demoStack [102] = .error (.exit 6) ∧
      parse_save_file demoFsFull [] demoStack [102] ≠ .error (.exit ERROR_SAVE_READ) := by
  refine ⟨by decide, rfl, rfl, ?_⟩
  have h : parse_save_file demoFsFull [] demoStack [102] = .error (.exit 6) := rfl
  rw [h]
  simp [ERROR_SAVE_READ]

/-- C15 fails on the code: the snapshot `w` has the header `2 3 12 2`, whose
width is outside [3,100]; `parse_line_one` hands the field to
`check_dimension`, which ends the program with exit status 2
(`ERROR_PLAYER_INVALID`, "Incorrect arg types"), not with the save-file error
4.  The snapshot `u` has the header ` 3 3 12`, which passes `check_spaces`
with only three fields; the fourth `strtok` returns NULL and `read_int` hands
it to `strtol`, which is undefined. -/
theorem parse_save_file_bad_header :
    demoFsBroken [119] = some (save_text { demoMid with width := 2 }) ∧
      parse_save_file demoFsBroken [] demoStack [119] = .error (.exit ERROR_PLAYER_INVALID) ∧
      parse_save_file demoFsBroken [] demoStack [119] ≠ .error (.exit ERROR_SAVE_READ) ∧
      check_spaces [32, 51, 32, 51, 32, 49, 50] 3 = .ok true ∧
      parse_save_file demoFsBroken [] demoStack [117] = .error .undefined := by
  refine ⟨rfl, rfl, ?_, rfl, rfl⟩
  have h : parse_save_file demoFsBroken [] demoStack [119] =
      .error (.exit ERROR_PLAYER_INVALID) := rfl
  rw [h]
  simp [ERROR_SAVE_READ, ERROR_PLAYER_INVALID]

/-- C16 fails on the code: the snapshot `x` is the well-formed snapshot of
`demoMid` (3 rows, 7 lines) followed by an eighth line `******`;
`parse_board` is called for row index 3 = height and stores its first cell
outside the board before the number of lines is compared with `height + 4`:
undefined behaviour instead of the save-file error 4. -/
theorem parse_save_file_extra_row :
    (read_lines demoExtraRowText []).length = demoMid.height + 4 + 1 ∧
      (∃ g1, parse_save_file demoFsSaved [] demoStack [115] = .ok g1) ∧
      parse_save_file demoFsBroken [] demoStack [120] = .error .undefined := by
  refine ⟨by decide, ⟨_, rfl⟩, rfl⟩

/-! ### The score of a single card -/

theorem single_card_invokes (g : Game) (r c : Nat) (hr : r < g.height) (hc : c < g.width)
    (ho : (g.board r c).suit ≠ 42)
    (honly : ∀ r', r' < g.height → ∀ c', c' < g.width → ¬ (r' = r ∧ c' = c) →
      (g.board r' c').suit = 42)
    (b : Nat × Nat × Nat) (hb : Invokes g (r, c, 1) b) : b.2.2 = 1 := by
  obtain ⟨rest, hall, hchain, _, hlen⟩ := invokes_chain g _ b hb hr hc ho
  cases rest with
  | nil => simpa using hlen
  | cons x rest =>
    exfalso
    rw [List.chain_cons] at hchain
    have hx := hall x (List.mem_cons_of_mem _ (List.mem_cons_self _ _))
    have hxe : x.1 = r ∧ x.2 = c := by
      by_contra hne
      exact hx.2.2 (honly x.1 hx.1 x.2 hx.2.1 hne)
    have hlt := hchain.1.2
    simp only at hlt
    rw [hxe.1, hxe.2] at hlt
    omega

/-- C17: on a board of any height and width that holds a single valid card, at
any cell, `calc_scores` yields (1, 0) when the character code of the card's
suit is odd and (0, 1) when it is even; nothing but the board enters the
computation. -/
theorem single_card_score (g : Game) (r c : Nat) (hr : r < g.height) (hc : c < g.width)
    (hcard : ValidCard (g.board r c))
    (honly : ∀ r', r' < g.height → ∀ c', c' < g.width → ¬ (r' = r ∧ c' = c) →
      (g.board r' c').suit = 42)
    (fuel : Nat) (hf : 9 ≤ fuel) :
    calc_scores g fuel = some (if (g.board r c).suit % 2 ≠ 0 then (1, 0) else (0, 1)) := by
  have ho : (g.board r c).suit ≠ 42 := by
    unfold ValidCard at hcard
    omega
  have hroot : ∀ i j, i < g.height → j < g.width → (g.board i j).suit ≠ 42 → i = r ∧ j = c := by
    intro i j hi hj hoc
    by_contra hne
    exact hoc (honly i hi j hj hne)
  have hv : ValidRanks g := by
    intro i hi j hj hoc
    obtain ⟨rfl, rfl⟩ := hroot i j hi hj hoc
    exact hcard.1
  obtain ⟨p, hp, h1, h2⟩ := calc_scores_rows_spec g hv fuel hf g.height (le_refl _)
  have hself : Invokes g (r, c, 1) (r, c, 1) := (invokes_head g _ _).mpr (Or.inl rfl)
  have hval : ∀ (odd : Bool) (s : Nat), ScoreOver g (fun i _ => i < g.height) odd s →
      (decide ((g.board r c).suit % 2 ≠ 0) = odd → s = 1) ∧
      (decide ((g.board r c).suit % 2 ≠ 0) ≠ odd → s = 0) := by
    intro odd s hs
    refine ⟨?_, ?_⟩
    · intro hpar
      have hge := hs.1 r c hr hr hc ho hpar _ hself rfl
      rcases hs.2 with h0 | ⟨i, j, _, hi, hj, hoc, _, b, hb, _, hsb⟩
      · simp only at hge
        omega
      · obtain ⟨rfl, rfl⟩ := hroot i j hi hj hoc
        rw [hsb]
        exact single_card_invokes g i j hr hc ho honly b hb
    · intro hpar
      rcases hs.2 with h0 | ⟨i, j, _, hi, hj, hoc, hp', _⟩
      · exact h0
      · obtain ⟨rfl, rfl⟩ := hroot i j hi hj hoc
        exact absurd hp' hpar
  rw [calc_scores_eq, hp]
  by_cases hpar : (g.board r c).suit % 2 ≠ 0
  · rw [if_pos hpar]
    have e1 := (hval true p.1 h1).1 (by simpa using hpar)
    have e2 := (hval false p.2 h2).2 (by simpa using hpar)
    rw [← e1, ← e2]
  · rw [if_neg hpar]
    have e1 := (hval true p.1 h1).2 (by simpa using hpar)
    have e2 := (hval false p.2 h2).1 (by simpa using hpar)
    rw [← e1, ← e2]

theorem single_card_score_witness : calc_scores demoSingle 9 = some (1, 0) :=
  single_card_score demoSingle 1 1 (by decide) (by decide) (by decide) (by decide) 9 (le_refl _)

/-! ### Dealing -/

theorem dealTarget_le (g : Game) (i : Nat) : dealTarget g i ≤ 6 ∧ 5 ≤ dealTarget g i := by
  unfold dealTarget HAND_SIZE
  split <;> omega

theorem deal_loop_spec_same (i : Nat) (g : Game) (L : Nat) (r : Bool × Game)
    (hr : r = (true, g)) (hL : (g.hands i).length = (L : Int)) (hstop : L = dealTarget g i) :
    (r.1 = true ↔
        (L = dealTarget g i ∨
          (g.cardsDrawn : Int) + ((dealTarget g i - L : Nat) : Int) ≤ g.deck.length)) ∧
      DealFrame i g r.2 ∧
      (r.1 = true →
        (r.2.hands i).length = (dealTarget g i : Int) ∧
        (∀ k, k < L → (r.2.hands i).cards k = (g.hands i).cards k) ∧
        (∀ k, L ≤ k → k < dealTarget g i →
          (r.2.hands i).cards k = g.deck.cards (g.cardsDrawn + (k - L))) ∧
        r.2.cardsDrawn = g.cardsDrawn + (dealTarget g i - L)) ∧
      (r.1 = false → (g.cardsDrawn : Int) ≤ g.deck.length →
        (r.2.cardsDrawn : Int) = g.deck.length + 1) := by
  subst hr
  refine ⟨?_, ⟨rfl, rfl, rfl, rfl, rfl, rfl, rfl, rfl, fun _ _ => rfl⟩, ?_, ?_⟩
  · simp only [true_iff]
    exact Or.inl hstop
  · intro _
    refine ⟨by rw [hL, hstop], fun _ _ => rfl, fun k h1 h2 => by omega, ?_⟩
    show g.cardsDrawn = g.cardsDrawn + (dealTarget g i - L)
    omega
  · intro h
    exact absurd h (by simp)

theorem deal_loop_spec (i : Nat) :
    ∀ fuel (g : Game) (L : Nat), (g.hands i).length = (L : Int) → L ≤ dealTarget g i →
      dealTarget g i - L ≤ fuel →
      ((deal_loop i fuel g).1 = true ↔
        (L = dealTarget g i ∨
          (g.cardsDrawn : Int) + ((dealTarget g i - L : Nat) : Int) ≤ g.deck.length)) ∧
      DealFrame i g (deal_loop i fuel g).2 ∧
      ((deal_loop i fuel g).1 = true →
        ((deal_loop i fuel g).2.hands i).length = (dealTarget g i : Int) ∧
        (∀ k, k < L → ((deal_loop i fuel g).2.hands i).cards k = (g.hands i).cards k) ∧
        (∀ k, L ≤ k → k < dealTarget g i →
          ((deal_loop i fuel g).2.hands i).cards k = g.deck.cards (g.cardsDrawn + (k - L))) ∧
        (deal_loop i fuel g).2.cardsDrawn = g.cardsDrawn + (dealTarget g i - L)) ∧
      ((deal_loop i fuel g).1 = false → (g.cardsDrawn : Int) ≤ g.deck.length →
        ((deal_loop i fuel g).2.cardsDrawn : Int) = g.deck.length + 1) := by
  intro fuel
  induction fuel with
  | zero =>
    intro g L hL hle hf
    have hT : L = dealTarget g i := by omega
    exact deal_loop_spec_same i g L _ rfl hL hT
  | succ fuel ih =>
    intro g L hL hle hf
    have hT := dealTarget_le g i
    by_cases hstop : L = dealTarget g i
    · -- nothing to draw
      have hsame : deal_loop i (fuel + 1) g = (true, g) := by
        simp only [deal_loop, hL]
        by_cases h6 : (L : Int) < (HAND_SIZE : Int)
        · rw [if_pos h6]
          have h5 : (L : Int) = (HAND_SIZE : Int) - 1 ∧ i + 1 ≠ g.turn := by
            unfold dealTarget at hstop
            unfold HAND_SIZE at h6 hstop ⊢
            by_cases ht : i + 1 = g.turn
            · rw [if_pos ht] at hstop; omega
            · rw [if_neg ht] at hstop; exact ⟨by omega, ht⟩
          rw [if_pos h5]
        · rw [if_neg h6]
      exact deal_loop_spec_same i g L _ hsame hL hstop
    · -- one card is drawn
      have hlt : L < dealTarget g i := by omega
      have h6 : (L : Int) < (HAND_SIZE : Int) := by unfold HAND_SIZE; omega
      have h5 : ¬ ((L : Int) = (HAND_SIZE : Int) - 1 ∧ i + 1 ≠ g.turn) := by
        rintro ⟨h, ht⟩
        unfold dealTarget at hlt
        rw [if_neg ht] at hlt
        unfold HAND_SIZE at h hlt
        omega
      by_cases hshort : g.deck.length < ((g.cardsDrawn + 1 : Nat) : Int)
      · have hres : deal_loop i (fuel + 1) g = (false,
            { g with
              hands := store g.hands i
                ⟨store (g.hands i).cards (L : Int).toNat (g.deck.cards g.cardsDrawn), (L : Int) + 1⟩
              cardsDrawn := g.cardsDrawn + 1 }) := by
          simp only [deal_loop, hL, if_pos h6, if_neg h5, if_pos hshort]
        rw [hres]
        refine ⟨?_, ⟨rfl, rfl, rfl, rfl, rfl, rfl, rfl, rfl, ?_⟩, by simp, ?_⟩
        · simp only [Bool.false_eq_true, false_iff, not_or]
          refine ⟨hstop, ?_⟩
          push_cast at hshort ⊢
          omega
        · intro k hk
          simp [store, hk]
        · intro _ hc
          simp only
          push_cast at hshort ⊢
          omega
      · have hres : deal_loop i (fuel + 1) g = deal_loop i fuel
            { g with
              hands := store g.hands i
                ⟨store (g.hands i).cards (L : Int).toNat (g.deck.cards g.cardsDrawn), (L : Int) + 1⟩
              cardsDrawn := g.cardsDrawn + 1 } := by
          simp only [deal_loop, hL, if_pos h6, if_neg h5, if_neg hshort]
        rw [hres]
        obtain ⟨i1, i2, i3, i4⟩ := ih
          { g with
            hands := store g.hands i
              ⟨store (g.hands i).cards (L : Int).toNat (g.deck.cards g.cardsDrawn), (L : Int) + 1⟩
            cardsDrawn := g.cardsDrawn + 1 } (L + 1) (by simp [store]) (by
              show L + 1 ≤ dealTarget g i
              omega) (by
              show dealTarget g i - (L + 1) ≤ fuel
              omega)
        have hTT : dealTarget
            { g with
              hands := store g.hands i
                ⟨store (g.hands i).cards (L : Int).toNat (g.deck.cards g.cardsDrawn), (L : Int) + 1⟩
              cardsDrawn := g.cardsDrawn + 1 } i = dealTarget g i := rfl
        rw [hTT] at i1 i3
        simp only at i1 i3 i4
        refine ⟨?_, ?_, ?_, ?_⟩
        · rw [i1]
          push_cast at hshort ⊢
          constructor
          · rintro (h | h)
            · right; omega
            · right; omega
          · rintro (h | h)
            · omega
            · by_cases he : L + 1 = dealTarget g i
              · left; exact he
              · right; omega
        · obtain ⟨f1, f2, f3, f4, f5, f6, f7, f8, f9⟩ := i2
          refine ⟨f1, f2, f3, f4, f5, f6, f7, f8, ?_⟩
          intro k hk
          rw [f9 k hk]
          simp [store, hk]
        · intro hok
          obtain ⟨c1, c2, c3, c4⟩ := i3 hok
          refine ⟨c1, ?_, ?_, by rw [c4]; omega⟩
          · intro k hk
            rw [c2 k (by omega)]
            have : k ≠ L := by omega
            simp [store, this]
          · intro k hk1 hk2
            by_cases hkL : k = L
            · subst hkL
              rw [c2 k (by omega)]
              simp [store]
            · rw [c3 k (by omega) hk2]
              have : g.cardsDrawn + 1 + (k - (L + 1)) = g.cardsDrawn + (k - L) := by omega
              rw [this]
        · intro hfail hc
          have := i4 hfail (by push_cast at hshort ⊢; omega)
          exact this


/-- C19: in a state with turn 1 or 2 whose hands hold at most six cards for the
player on turn and at most five for the other, `deal_cards` succeeds when
enough undrawn cards are left, and a successful `deal_cards` leaves the player
on turn with exactly six cards and the other with exactly five, keeps the
cards already held in place, appends the next undrawn deck cards in deck order
(player one's hand is filled before player two's), advances the cursor by
exactly the number of cards drawn, and changes nothing else. -/
theorem deal_cards_refill (g : Game) (L0 L1 : Nat)
    (ht : g.turn = TURN_ONE ∨ g.turn = TURN_TWO)
    (h0 : (g.hands 0).length = (L0 : Int)) (h1 : (g.hands 1).length = (L1 : Int))
    (hl0 : L0 ≤ dealTarget g 0) (hl1 : L1 ≤ dealTarget g 1) :
    ((g.cardsDrawn : Int) + ((dealTarget g 0 - L0 : Nat) : Int)
        + ((dealTarget g 1 - L1 : Nat) : Int) ≤ g.deck.length → (deal_cards g).1 = true) ∧
    ((deal_cards g).1 = true →
      (((deal_cards g).2.hands (g.turn - 1)).length = 6 ∧
        ((deal_cards g).2.hands (2 - g.turn)).length = 5) ∧
      (∀ k, k < L0 → ((deal_cards g).2.hands 0).cards k = (g.hands 0).cards k) ∧
      (∀ k, k < L1 → ((deal_cards g).2.hands 1).cards k = (g.hands 1).cards k) ∧
      (∀ k, L0 ≤ k → k < dealTarget g 0 →
        ((deal_cards g).2.hands 0).cards k = g.deck.cards (g.cardsDrawn + (k - L0))) ∧
      (∀ k, L1 ≤ k → k < dealTarget g 1 →
        ((deal_cards g).2.hands 1).cards k =
          g.deck.cards (g.cardsDrawn + (dealTarget g 0 - L0) + (k - L1))) ∧
      (deal_cards g).2.cardsDrawn =
        g.cardsDrawn + (dealTarget g 0 - L0) + (dealTarget g 1 - L1) ∧
      (deal_cards g).2.deck = g.deck ∧ (deal_cards g).2.board = g.board ∧
      (deal_cards g).2.turn = g.turn ∧ (deal_cards g).2.status = g.status) := by
  have hT0 := dealTarget_le g 0
  have hT1 := dealTarget_le g 1
  have hf0 : dealTarget g 0 - L0 ≤ ((HAND_SIZE : Int) - (g.hands 0).length).toNat := by
    rw [h0]; unfold HAND_SIZE; omega
  obtain ⟨a1, a2, a3, a4⟩ := deal_loop_spec 0 _ g L0 h0 hl0 hf0
  obtain ⟨f1, f2, f3, f4, f5, f6, f7, f8, f9⟩ := a2
  -- the second loop starts in the state the first one leaves
  have hh1 : ((deal_loop 0 ((HAND_SIZE : Int) - (g.hands 0).length).toNat g).2.hands 1).length
      = (L1 : Int) := by rw [f9 1 (by omega), h1]
  have hTT : dealTarget (deal_loop 0 ((HAND_SIZE : Int) - (g.hands 0).length).toNat g).2 1
      = dealTarget g 1 := by unfold dealTarget; rw [f3]
  have hf1 : dealTarget (deal_loop 0 ((HAND_SIZE : Int) - (g.hands 0).length).toNat g).2 1 - L1
      ≤ ((HAND_SIZE : Int)
        - ((deal_loop 0 ((HAND_SIZE : Int) - (g.hands 0).length).toNat g).2.hands 1).length).toNat := by
    rw [hh1, hTT]; unfold HAND_SIZE; omega
  obtain ⟨b1, b2, b3, b4⟩ := deal_loop_spec 1 _
    (deal_loop 0 ((HAND_SIZE : Int) - (g.hands 0).length).toNat g).2 L1 hh1 (by rw [hTT]; exact hl1)
    hf1
  obtain ⟨e1, e2, e3, e4, e5, e6, e7, e8, e9⟩ := b2
  rw [hTT] at b1 b3
  rw [f8] at b1
  have hdc : deal_cards g =
      if (deal_loop 0 ((HAND_SIZE : Int) - (g.hands 0).length).toNat g).1 = true then
        deal_loop 1 ((HAND_SIZE : Int)
          - ((deal_loop 0 ((HAND_SIZE : Int) - (g.hands 0).length).toNat g).2.hands 1).length).toNat
          (deal_loop 0 ((HAND_SIZE : Int) - (g.hands 0).length).toNat g).2
      else deal_loop 0 ((HAND_SIZE : Int) - (g.hands 0).length).toNat g := rfl
  refine ⟨?_, ?_⟩
  · intro henough
    have hfirst : (deal_loop 0 ((HAND_SIZE : Int) - (g.hands 0).length).toNat g).1 = true :=
      a1.mpr (by
        by_cases he : L0 = dealTarget g 0
        · exact Or.inl he
        · right; omega)
    rw [hdc, if_pos hfirst]
    have hc := (a3 hfirst).2.2.2
    refine b1.mpr ?_
    by_cases he : L1 = dealTarget g 1
    · exact Or.inl he
    · right
      rw [hc]
      push_cast
      omega
  · intro hok
    have hfirst : (deal_loop 0 ((HAND_SIZE : Int) - (g.hands 0).length).toNat g).1 = true := by
      by_contra hne
      rw [hdc, if_neg hne] at hok
      exact hne hok
    rw [hdc, if_pos hfirst] at hok ⊢
    obtain ⟨c1, c2, c3, c4⟩ := a3 hfirst
    obtain ⟨d1, d2, d3, d4⟩ := b3 hok
    have hand0 := e9 0 (by omega)
    refine ⟨?_, ?_, fun k hk => by rw [d2 k hk, f9 1 (by omega)], ?_, ?_, ?_, e8.trans f8, e6.trans f6, e3.trans f3, e4.trans f4⟩
    · unfold dealTarget HAND_SIZE at c1 d1
      unfold TURN_ONE TURN_TWO at ht
      rcases ht with ht | ht
      · rw [ht] at c1 d1 ⊢
        simp only [Nat.sub_self, Nat.reduceSub]
        rw [hand0]
        refine ⟨by simpa using c1, by simpa using d1⟩
      · rw [ht] at c1 d1 ⊢
        simp only [Nat.sub_self, Nat.reduceSub]
        rw [hand0]
        refine ⟨by simpa using d1, by simpa using c1⟩
    · intro k hk
      rw [hand0]
      exact c2 k hk
    · intro k hk1 hk2
      rw [hand0]
      exact c3 k hk1 hk2
    · intro k hk1 hk2
      rw [d3 k hk1 hk2, f8, c4]
    · rw [d4, c4]

theorem deal_cards_refill_witness :
    (deal_cards { make_move demoMid 0 1 0 with turn := 1 }).1 = true ∧
      ((deal_cards { make_move demoMid 0 1 0 with turn := 1 }).2.hands 0).length = 6 ∧
      ((deal_cards { make_move demoMid 0 1 0 with turn := 1 }).2.hands 0).cards 5 = ⟨52, 77⟩ ∧
      (deal_cards { make_move demoMid 0 1 0 with turn := 1 }).2.cardsDrawn = 13 := by
  have h := deal_cards_refill { make_move demoMid 0 1 0 with turn := 1 } 5 5 (Or.inl rfl) rfl rfl
    (by decide) (by decide)
  have hok := h.1 (by decide)
  obtain ⟨⟨h1, _⟩, _, _, h4, _, h6, _⟩ := h.2 hok
  exact ⟨hok, h1, h4 5 (by decide) (by decide), h6⟩

/-! ### Whole runs -/

theorem deal_cards_flag (g : Game) (L0 L1 : Nat)
    (h0 : (g.hands 0).length = (L0 : Int)) (h1 : (g.hands 1).length = (L1 : Int))
    (hl0 : L0 ≤ dealTarget g 0) (hl1 : L1 ≤ dealTarget g 1) :
    (deal_cards g).1 = true ↔
      (L0 = dealTarget g 0 ∨
        (g.cardsDrawn : Int) + ((dealTarget g 0 - L0 : Nat) : Int) ≤ g.deck.length) ∧
      (L1 = dealTarget g 1 ∨
        (g.cardsDrawn : Int) + ((dealTarget g 0 - L0 : Nat) : Int)
          + ((dealTarget g 1 - L1 : Nat) : Int) ≤ g.deck.length) := by
  have hT0 := dealTarget_le g 0
  have hT1 := dealTarget_le g 1
  have hf0 : dealTarget g 0 - L0 ≤ ((HAND_SIZE : Int) - (g.hands 0).length).toNat := by
    rw [h0]; unfold HAND_SIZE; omega
  obtain ⟨a1, a2, a3, _⟩ := deal_loop_spec 0 _ g L0 h0 hl0 hf0
  obtain ⟨_, _, f3, _, _, _, _, f8, f9⟩ := a2
  have hh1 : ((deal_loop 0 ((HAND_SIZE : Int) - (g.hands 0).length).toNat g).2.hands 1).length
      = (L1 : Int) := by rw [f9 1 (by omega), h1]
  have hTT : dealTarget (deal_loop 0 ((HAND_SIZE : Int) - (g.hands 0).length).toNat g).2 1
      = dealTarget g 1 := by unfold dealTarget; rw [f3]
  have hf1 : dealTarget (deal_loop 0 ((HAND_SIZE : Int) - (g.hands 0).length).toNat g).2 1 - L1
      ≤ ((HAND_SIZE : Int)
        - ((deal_loop 0 ((HAND_SIZE : Int) - (g.hands 0).length).toNat g).2.hands 1).length).toNat := by
    rw [hh1, hTT]; unfold HAND_SIZE; omega
  obtain ⟨b1, _, _, _⟩ := deal_loop_spec 1 _
    (deal_loop 0 ((HAND_SIZE : Int) - (g.hands 0).length).toNat g).2 L1 hh1 (by rw [hTT]; exact hl1)
    hf1
  rw [hTT, f8] at b1
  have hdc : deal_cards g =
      if (deal_loop 0 ((HAND_SIZE : Int) - (g.hands 0).length).toNat g).1 = true then
        deal_loop 1 ((HAND_SIZE : Int)
          - ((deal_loop 0 ((HAND_SIZE : Int) - (g.hands 0).length).toNat g).2.hands 1).length).toNat
          (deal_loop 0 ((HAND_SIZE : Int) - (g.hands 0).length).toNat g).2
      else deal_loop 0 ((HAND_SIZE : Int) - (g.hands 0).length).toNat g := rfl
  by_cases hfirst : (deal_loop 0 ((HAND_SIZE : Int) - (g.hands 0).length).toNat g).1 = true
  · rw [hdc, if_pos hfirst, b1, (a3 hfirst).2.2.2]
    have ha := a1.mp hfirst
    push_cast
    constructor
    · intro h
      exact ⟨ha, by rcases h with h | h; exact Or.inl h; right; omega⟩
    · rintro ⟨_, h⟩
      rcases h with h | h
      · exact Or.inl h
      · right; omega
  · rw [hdc, if_neg hfirst]
    constructor
    · intro h
      exact absurd h hfirst
    · rintro ⟨h, _⟩
      exact absurd (a1.mpr h) hfirst

/-- C11 fails on the code: the fresh start `bark n 3 3 h h` on the well-formed
deck file `n` of ten cards does not end with the short-deck error.  `main`
deals with `turn` 0, which makes `deal_cards` stop at five cards for each
player, so ten cards are enough for start-up (a deck of nine, file `m`, does
give exit status 5).  The first `deal_cards` of `game_loop` then fails, no turn
is played, and the program prints the scores 0 and 0 and ends with exit
status 0. -/
theorem main_run_ten_card_deck :
    (∃ g, main_start demoFsTen [] demoStack demoArgvTen = .ok g ∧ g.deck.length = 10 ∧
      g.cardsDrawn = 10 ∧ (game_loop_cond g).1 = false) ∧
      main_run demoFsTen (fun _ => true) [] demoStack demoArgvTen [] 9 = .ok (some (0, 0)) ∧
      main_run demoFsTen (fun _ => true) [] demoStack demoArgvNine [] 9 =
        .error (.exit ERROR_SHORT_DECK) := by
  refine ⟨⟨_, rfl, by decide, by decide, by decide⟩, by rfl, by rfl⟩

/-- C18 fails on the code: in the game `bark d 3 3 h h` on the deck of thirteen
cards, after the moves `1 1 1`, `1 2 1` and `1 3 1` the cursor is 13, the deck
length.  The next `deal_cards` of `game_loop` reads `deck.cards[13]`, one
position beyond the deck, before it compares the cursor with the deck length;
it reports failure and leaves the cursor at 14. -/
theorem deal_cards_reads_beyond_deck :
    ∃ g0 g1 g2 g3, main_start demoFs [] demoStack demoArgv = .ok g0 ∧
      (game_loop_cond g0).1 = true ∧
      game_loop_body (fun _ => true) (game_loop_cond g0).2
        [[49, 32, 49, 32, 49], [49, 32, 50, 32, 49], [49, 32, 51, 32, 49]] =
        .ok (g1, [[49, 32, 50, 32, 49], [49, 32, 51, 32, 49]]) ∧
      (game_loop_cond g1).1 = true ∧
      game_loop_body (fun _ => true) (game_loop_cond g1).2
        [[49, 32, 50, 32, 49], [49, 32, 51, 32, 49]] = .ok (g2, [[49, 32, 51, 32, 49]]) ∧
      (game_loop_cond g2).1 = true ∧
      game_loop_body (fun _ => true) (game_loop_cond g2).2 [[49, 32, 51, 32, 49]] =
        .ok (g3, []) ∧
      g3.deck.length = 13 ∧ g3.cardsDrawn = 13 ∧
      deal_cards_reads g3 = [13] ∧ (deal_cards g3).1 = false ∧
      (game_loop_cond g3).1 = false ∧ (game_loop_cond g3).2.cardsDrawn = 14 ∧
      (game_loop_cond g3).2.deck.length = 13 := by
  refine ⟨_, _, _, _, rfl, by decide, rfl, by decide, rfl, by decide, rfl, by decide, by decide,
    by decide, by decide, by decide, by decide, by decide⟩

/-- C20 fails on the code: in the game `bark e 3 3 h h`, whose deck file starts
with the card line `**`, the first turn of `game_loop` accepts player one's move
`1 1 1`, which puts the empty marker on the board.  The state after that turn
has phase `Middle` and a board without an occupied cell. -/
theorem phase_invariant_broken :
    ∃ g0 g1, main_start demoFsStar [] demoStack demoArgvStar = .ok g0 ∧
      PhaseInv g0 ∧ (game_loop_cond g0).1 = true ∧
      game_loop_body (fun _ => true) (game_loop_cond g0).2 [[49, 32, 49, 32, 49]] =
        .ok (g1, []) ∧
      g1.status = MIDDLE_GAME ∧ BoardEmpty g1 ∧ ¬ PhaseInv g1 := by
  refine ⟨_, _, rfl, ?_, by decide, rfl, by decide, ?_, ?_⟩
  · unfold PhaseInv BoardEmpty
    decide
  · unfold BoardEmpty
    decide
  · unfold PhaseInv BoardEmpty
    decide

theorem make_move_phaseInv (g : Game) (row col c : Nat) (hr : row < g.height)
    (hc : col < g.width) (hcard : ((g.hands (g.turn - 1)).cards c).suit ≠ 42) :
    PhaseInv (make_move g row col c) := by
  have hb : (make_move g row col c).board row col = (g.hands (g.turn - 1)).cards c := by
    simp [make_move, store2]
  have hne : ¬ BoardEmpty (make_move g row col c) := by
    intro he
    have := he row hr col hc
    rw [hb] at this
    exact hcard this
  have hs : (make_move g row col c).status ≠ NEW_GAME := by
    show (if g.status = NEW_GAME then MIDDLE_GAME else g.status) ≠ NEW_GAME
    split
    · simp [MIDDLE_GAME, NEW_GAME]
    · assumption
  unfold PhaseInv
  exact ⟨fun h => absurd h hs, fun h => absurd h hne⟩

/-! ### Invariants of dealing -/

theorem dealFrame_trans (i : Nat) (a b c : Game) (h1 : DealFrame i a b) (h2 : DealFrame i b c) :
    DealFrame i a c := by
  obtain ⟨a1, a2, a3, a4, a5, a6, a7, a8, a9⟩ := h1
  obtain ⟨b1, b2, b3, b4, b5, b6, b7, b8, b9⟩ := h2
  exact ⟨b1.trans a1, b2.trans a2, b3.trans a3, b4.trans a4, b5.trans a5, b6.trans a6,
    b7.trans a7, b8.trans a8, fun k hk => (b9 k hk).trans (a9 k hk)⟩

theorem deal_loop_frame (i : Nat) :
    ∀ fuel (g : Game), DealFrame i g (deal_loop i fuel g).2 := by
  intro fuel
  induction fuel with
  | zero =>
    intro g
    exact ⟨rfl, rfl, rfl, rfl, rfl, rfl, rfl, rfl, fun _ _ => rfl⟩
  | succ fuel ih =>
    intro g
    have hsame : DealFrame i g g := ⟨rfl, rfl, rfl, rfl, rfl, rfl, rfl, rfl, fun _ _ => rfl⟩
    unfold deal_loop
    simp only
    split
    · split
      · exact hsame
      · have hstep : DealFrame i g
            { g with
              hands := store g.hands i
                ⟨store (g.hands i).cards (g.hands i).length.toNat (g.deck.cards g.cardsDrawn),
                  (g.hands i).length + 1⟩
              cardsDrawn := g.cardsDrawn + 1 } := by
          refine ⟨rfl, rfl, rfl, rfl, rfl, rfl, rfl, rfl, ?_⟩
          intro k hk
          simp [store, hk]
        split
        · exact hstep
        · exact dealFrame_trans i _ _ _ hstep (ih _)
    · exact hsame

theorem deal_loop_hand (P : Card → Prop) (i : Nat) :
    ∀ fuel (g : Game), DeckInv P g → HandInv P g i → (deal_loop i fuel g).1 = true →
      HandInv P (deal_loop i fuel g).2 i := by
  intro fuel
  induction fuel with
  | zero =>
    intro g _ hh _
    exact hh
  | succ fuel ih =>
    intro g hd hh hflag
    unfold deal_loop at hflag ⊢
    simp only at hflag ⊢
    split
    · rename_i hlt
      rw [if_pos hlt] at hflag
      split
      · exact hh
      · rename_i hstop
        rw [if_neg hstop] at hflag
        split
        · rename_i hshort
          rw [if_pos hshort] at hflag
          exact absurd hflag (by simp)
        · rename_i hshort
          rw [if_neg hshort] at hflag
          refine ih _ ?_ ?_ hflag
          · exact hd
          · obtain ⟨h0, _, hc⟩ := hh
            have hlen : (g.cardsDrawn : Int) < g.deck.length := by
              simp only [not_lt] at hshort
              push_cast at hshort
              omega
            unfold HandInv
            simp only [store, if_true]
            unfold HAND_SIZE at hlt
            refine ⟨by omega, by omega, ?_⟩
            intro k hk
            by_cases hkj : k = (g.hands i).length.toNat
            · rw [if_pos hkj]
              exact hd _ hlen
            · rw [if_neg hkj]
              exact hc k (by omega)
    · exact hh

theorem deal_cards_frame (g : Game) :
    (deal_cards g).2.width = g.width ∧ (deal_cards g).2.height = g.height ∧
      (deal_cards g).2.turn = g.turn ∧ (deal_cards g).2.status = g.status ∧
      (deal_cards g).2.playerType = g.playerType ∧ (deal_cards g).2.board = g.board ∧
      (deal_cards g).2.deck = g.deck := by
  have f0 := deal_loop_frame 0 ((HAND_SIZE : Int) - (g.hands 0).length).toNat g
  unfold deal_cards
  simp only
  split
  · have f1 := deal_loop_frame 1
      ((HAND_SIZE : Int)
        - ((deal_loop 0 ((HAND_SIZE : Int) - (g.hands 0).length).toNat g).2.hands 1).length).toNat
      (deal_loop 0 ((HAND_SIZE : Int) - (g.hands 0).length).toNat g).2
    obtain ⟨a1, a2, a3, a4, a5, a6, _, a8, _⟩ := f0
    obtain ⟨b1, b2, b3, b4, b5, b6, _, b8, _⟩ := f1
    exact ⟨b1.trans a1, b2.trans a2, b3.trans a3, b4.trans a4, b5.trans a5, b6.trans a6,
      b8.trans a8⟩
  · obtain ⟨a1, a2, a3, a4, a5, a6, _, a8, _⟩ := f0
    exact ⟨a1, a2, a3, a4, a5, a6, a8⟩

theorem deal_cards_hands (P : Card → Prop) (g : Game) (hd : DeckInv P g)
    (h0 : HandInv P g 0) (h1 : HandInv P g 1) (hflag : (deal_cards g).1 = true) :
    HandInv P (deal_cards g).2 0 ∧ HandInv P (deal_cards g).2 1 ∧
      (g.turn = TURN_ONE ∨ g.turn = TURN_TWO →
        ((deal_cards g).2.hands (g.turn - 1)).length = 6) := by
  have f0 := deal_loop_frame 0 ((HAND_SIZE : Int) - (g.hands 0).length).toNat g
  have f1 := deal_loop_frame 1
      ((HAND_SIZE : Int)
        - ((deal_loop 0 ((HAND_SIZE : Int) - (g.hands 0).length).toNat g).2.hands 1).length).toNat
      (deal_loop 0 ((HAND_SIZE : Int) - (g.hands 0).length).toNat g).2
  have hdc : deal_cards g =
      if (deal_loop 0 ((HAND_SIZE : Int) - (g.hands 0).length).toNat g).1 = true then
        deal_loop 1 ((HAND_SIZE : Int)
          - ((deal_loop 0 ((HAND_SIZE : Int) - (g.hands 0).length).toNat g).2.hands 1).length).toNat
          (deal_loop 0 ((HAND_SIZE : Int) - (g.hands 0).length).toNat g).2
      else deal_loop 0 ((HAND_SIZE : Int) - (g.hands 0).length).toNat g := rfl
  by_cases hfirst : (deal_loop 0 ((HAND_SIZE : Int) - (g.hands 0).length).toNat g).1 = true
  · rw [hdc, if_pos hfirst] at hflag ⊢
    have a0 := deal_loop_hand P 0 _ g hd h0 hfirst
    obtain ⟨_, _, f03, _, _, _, _, f08, f09⟩ := f0
    obtain ⟨_, _, f13, _, _, _, _, f18, f19⟩ := f1
    have hd1 : DeckInv P (deal_loop 0 ((HAND_SIZE : Int) - (g.hands 0).length).toNat g).2 := by
      unfold DeckInv
      rw [f08]
      exact hd
    have h1' : HandInv P (deal_loop 0 ((HAND_SIZE : Int) - (g.hands 0).length).toNat g).2 1 := by
      unfold HandInv
      rw [f09 1 (by omega)]
      exact h1
    have a1 := deal_loop_hand P 1 _ _ hd1 h1' hflag
    have a0' : HandInv P (deal_loop 1 ((HAND_SIZE : Int)
          - ((deal_loop 0 ((HAND_SIZE : Int) - (g.hands 0).length).toNat g).2.hands 1).length).toNat
          (deal_loop 0 ((HAND_SIZE : Int) - (g.hands 0).length).toNat g).2).2 0 := by
      unfold HandInv
      rw [f19 0 (by omega)]
      exact a0
    refine ⟨a0', a1, ?_⟩
    intro ht
    rcases ht with ht | ht
    · -- player one is on turn
      rw [ht]
      show ((deal_loop 1 _ _).2.hands 0).length = 6
      rw [f19 0 (by omega)]
      have hL : (g.hands 0).length = (((g.hands 0).length.toNat : Nat) : Int) := by
        rw [Int.toNat_of_nonneg h0.1]
      have hT : dealTarget g 0 = 6 := by
        unfold dealTarget
        rw [ht]
        rfl
      have hle : (g.hands 0).length.toNat ≤ dealTarget g 0 := by
        rw [hT]
        have := h0.2.1
        omega
      have hfuel : dealTarget g 0 - (g.hands 0).length.toNat
          ≤ ((HAND_SIZE : Int) - (g.hands 0).length).toNat := by
        rw [hT]
        unfold HAND_SIZE
        have := h0.1
        omega
      have hs := (deal_loop_spec 0 _ g _ hL hle hfuel).2.2.1 hfirst
      rw [hs.1, hT]
      rfl
    · -- player two is on turn
      rw [ht]
      show ((deal_loop 1 _ _).2.hands 1).length = 6
      have hL : ((deal_loop 0 ((HAND_SIZE : Int) - (g.hands 0).length).toNat g).2.hands 1).length
          = (((g.hands 1).length.toNat : Nat) : Int) := by
        rw [f09 1 (by omega), Int.toNat_of_nonneg h1.1]
      have hT : dealTarget (deal_loop 0 ((HAND_SIZE : Int) - (g.hands 0).length).toNat g).2 1
          = 6 := by
        unfold dealTarget
        rw [f03, ht]
        rfl
      have hle : (g.hands 1).length.toNat
          ≤ dealTarget (deal_loop 0 ((HAND_SIZE : Int) - (g.hands 0).length).toNat g).2 1 := by
        rw [hT]
        have := h1.2.1
        omega
      have hfuel :
          dealTarget (deal_loop 0 ((HAND_SIZE : Int) - (g.hands 0).length).toNat g).2 1
            - (g.hands 1).length.toNat
          ≤ ((HAND_SIZE : Int)
            - ((deal_loop 0 ((HAND_SIZE : Int) - (g.hands 0).length).toNat g).2.hands 1).length).toNat
          := by
        rw [hT, f09 1 (by omega)]
        unfold HAND_SIZE
        have := h1.1
        omega
      have hs := (deal_loop_spec 1 _ _ _ hL hle hfuel).2.2.1 hflag
      rw [hs.1, hT]
      rfl
  · rw [hdc, if_neg hfirst] at hflag
    exact absurd hflag hfirst

/-! ### Invariants of a turn -/

theorem make_move_hand (P : Card → Prop) (g : Game) (row col c : Nat)
    (ht : g.turn = TURN_ONE ∨ g.turn = TURN_TWO) (hc : c < 6)
    (h0 : HandInv P g 0) (h1 : HandInv P g 1) (hfull : (g.hands (g.turn - 1)).length = 6) :
    HandInv P (make_move g row col c) 0 ∧ HandInv P (make_move g row col c) 1 ∧
      ((make_move g row col c).hands (g.turn - 1)).length = 5 ∧
      P ((make_move g row col c).board row col) := by
  have hmover : HandInv P g (g.turn - 1) := by
    rcases ht with ht | ht <;> rw [ht] <;> assumption
  have hnew : HandInv P (make_move g row col c) (g.turn - 1) ∧
      ((make_move g row col c).hands (g.turn - 1)).length = 5 := by
    have hlen : ((make_move g row col c).hands (g.turn - 1)).length = 5 := by
      simp only [make_move, store, if_true]
      rw [hfull]
      rfl
    refine ⟨⟨by rw [hlen]; decide, by rw [hlen]; decide, ?_⟩, hlen⟩
    intro k hk
    rw [hlen] at hk
    rw [make_move_hand_cards g row col c k (by unfold HAND_SIZE; omega)]
    split
    · exact hmover.2.2 (k + 1) (by rw [hfull]; omega)
    · exact hmover.2.2 k (by rw [hfull]; omega)
  have hother : ∀ i, i ≠ g.turn - 1 → (make_move g row col c).hands i = g.hands i := by
    intro i hi
    simp [make_move, store, hi]
  have hcell : P ((make_move g row col c).board row col) := by
    have hb : (make_move g row col c).board row col = (g.hands (g.turn - 1)).cards c := by
      simp [make_move, store2]
    rw [hb]
    exact hmover.2.2 c (by rw [hfull]; omega)
  rcases ht with ht | ht
  · have e : g.turn - 1 = 0 := by rw [ht]; rfl
    rw [e] at hnew hother ⊢
    refine ⟨hnew.1, ?_, hnew.2, hcell⟩
    unfold HandInv
    rw [hother 1 (by omega)]
    exact h1
  · have e : g.turn - 1 = 1 := by rw [ht]; rfl
    rw [e] at hnew hother ⊢
    refine ⟨?_, hnew.1, hnew.2, hcell⟩
    unfold HandInv
    rw [hother 0 (by omega)]
    exact h0

theorem make_move_frame (g : Game) (row col c : Nat) :
    (make_move g row col c).width = g.width ∧ (make_move g row col c).height = g.height ∧
      (make_move g row col c).turn = g.turn ∧
      (make_move g row col c).playerType = g.playerType ∧
      (make_move g row col c).deck = g.deck ∧
      (make_move g row col c).cardsDrawn = g.cardsDrawn ∧
      (∀ r k, ¬ (r = row ∧ k = col) → (make_move g row col c).board r k = g.board r k) := by
  refine ⟨rfl, rfl, rfl, rfl, rfl, rfl, ?_⟩
  intro r k h
  simp [make_move, store2, h]

theorem make_move_loopInv (g : Game) (row col c : Nat) (hc : c < 6) (hinv : LoopInv g)
    (hfull : (g.hands (g.turn - 1)).length = 6) :
    LoopInv (make_move g row col c) := by
  obtain ⟨ht, hb, hd, h0, h1⟩ := hinv
  obtain ⟨m0, m1, _, mc⟩ := make_move_hand WellFormed g row col c ht hc h0 h1 hfull
  obtain ⟨f1, f2, f3, _, f5, _, f7⟩ := make_move_frame g row col c
  refine ⟨by rw [f3]; exact ht, ?_, ?_, m0, m1⟩
  · intro r hr k hk
    by_cases hcell : r = row ∧ k = col
    · rw [hcell.1, hcell.2]
      exact mc
    · rw [f7 r k hcell]
      rw [f2] at hr
      rw [f1] at hk
      exact hb r hr k hk
  · unfold DeckInv
    rw [f5]
    exact hd

theorem check_input_cases (canOpen : List Nat → Bool) (g : Game) (line : List Nat)
    (b : Bool) (g1 : Game) (s : Option SaveOutcome)
    (h : check_input canOpen g line = .ok (b, g1, s)) :
    (b = false ∧ g1 = g) ∨
    (b = true ∧ ∃ row col c, row < g.height ∧ col < g.width ∧ c < 6 ∧
      adjacent_to g row col = true ∧ g1 = make_move g row col c) := by
  unfold check_input at h
  split at h
  · simp only [Except.ok.injEq, Prod.mk.injEq] at h
    exact Or.inl ⟨h.1.symm, h.2.1.symm⟩
  · split at h
    · cases he : check_entry g line with
      | error e => rw [he] at h; simp at h
      | ok r =>
        rw [he] at h
        simp only [Except.ok.injEq, Prod.mk.injEq] at h
        have hr : check_entry g line = .ok (b, g1) := by
          rw [he, ← h.1, ← h.2.1]
        rcases check_entry_cases g line b g1 hr with hc | hc
        · exact Or.inl hc
        · obtain ⟨hb, _, card, col, row, _, _, _, c1, c2, c3, c4, c5, c6, c7, c8⟩ := hc
          unfold HAND_SIZE at c2
          exact Or.inr ⟨hb, (row - 1).toNat, (col - 1).toNat, (card - 1).toNat, by omega,
            by omega, by omega, c7, c8⟩
    · simp only [Except.ok.injEq, Prod.mk.injEq] at h
      exact Or.inl ⟨h.1.symm, h.2.1.symm⟩

theorem player_handler_loop_move (canOpen : List Nat → Bool) (g : Game) :
    ∀ (input : List (List Nat)) (g1 : Game) (rest : List (List Nat)),
      player_handler_loop canOpen g input = .ok (g1, rest) →
      ∃ row col c, row < g.height ∧ col < g.width ∧ c < 6 ∧
        adjacent_to g row col = true ∧ g1 = make_move g row col c := by
  intro input
  induction input with
  | nil =>
    intro g1 rest h
    simp [player_handler_loop] at h
  | cons line input ih =>
    intro g1 rest h
    unfold player_handler_loop at h
    cases hc : check_input canOpen g line with
    | error e => rw [hc] at h; simp at h
    | ok r =>
      obtain ⟨b, g2, s⟩ := r
      rw [hc] at h
      rcases check_input_cases canOpen g line b g2 s hc with ⟨hb, hg⟩ | ⟨hb, hm⟩
      · subst hb
        subst hg
        simp only at h
        exact ih g1 rest h
      · subst hb
        simp only [Except.ok.injEq, Prod.mk.injEq] at h
        rw [← h.1]
        exact hm

theorem player_handler_move (canOpen : List Nat → Bool) (g : Game) (input : List (List Nat))
    (g1 : Game) (rest : List (List Nat)) (h : player_handler canOpen g input = .ok (g1, rest)) :
    (g.playerType (g.turn - 1) = 97 ∧ g1 = return_move g) ∨
    (g.playerType (g.turn - 1) ≠ 97 ∧
      ∃ row col c, row < g.height ∧ col < g.width ∧ c < 6 ∧
        adjacent_to g row col = true ∧ g1 = make_move g row col c) := by
  unfold player_handler at h
  split at h
  · rename_i ha
    simp only [Except.ok.injEq, Prod.mk.injEq] at h
    exact Or.inl ⟨ha, h.1.symm⟩
  · rename_i ha
    exact Or.inr ⟨ha, player_handler_loop_move canOpen g input g1 rest h⟩

theorem game_loop_body_cases (canOpen : List Nat → Bool) (g : Game) (input : List (List Nat))
    (g1 : Game) (rest : List (List Nat))
    (h : game_loop_body canOpen g input = .ok (g1, rest)) :
    ∃ gm, player_handler canOpen g input = .ok (gm, rest) ∧
      g1 = { gm with turn := if gm.turn = TURN_ONE then TURN_TWO else TURN_ONE } := by
  unfold game_loop_body at h
  cases hp : player_handler canOpen g input with
  | error e => rw [hp] at h; simp at h
  | ok r =>
    obtain ⟨gm, rest1⟩ := r
    rw [hp] at h
    simp only [Except.ok.injEq, Prod.mk.injEq] at h
    exact ⟨gm, by rw [h.2], h.1.symm⟩

theorem game_loop_cond_frame (g : Game) :
    (game_loop_cond g).2.width = g.width ∧ (game_loop_cond g).2.height = g.height ∧
      (game_loop_cond g).2.turn = g.turn ∧ (game_loop_cond g).2.board = g.board ∧
      (game_loop_cond g).2.deck = g.deck ∧
      (game_loop_cond g).2.playerType = g.playerType := by
  have hbf : (board_full g).2.width = g.width ∧ (board_full g).2.height = g.height ∧
      (board_full g).2.turn = g.turn ∧ (board_full g).2.board = g.board ∧
      (board_full g).2.deck = g.deck ∧ (board_full g).2.playerType = g.playerType := by
    unfold board_full
    split <;> exact ⟨rfl, rfl, rfl, rfl, rfl, rfl⟩
  unfold game_loop_cond
  split
  · exact ⟨rfl, rfl, rfl, rfl, rfl, rfl⟩
  · split
    · exact hbf
    · obtain ⟨d1, d2, d3, _, d5, d6, d7⟩ := deal_cards_frame (board_full g).2
      obtain ⟨b1, b2, b3, b4, b5, b6⟩ := hbf
      exact ⟨d1.trans b1, d2.trans b2, d3.trans b3, d6.trans b4, d7.trans b5, d5.trans b6⟩

theorem game_loop_cond_true (g : Game) (h : (game_loop_cond g).1 = true) :
    g.status ≠ END_GAME ∧ (board_full g).1 = false ∧ (board_full g).2 = g ∧
      game_loop_cond g = deal_cards g := by
  unfold game_loop_cond at h
  have hs : ¬ g.status = 0 := by
    intro hs
    rw [if_pos hs] at h
    exact absurd h (by simp)
  rw [if_neg hs] at h
  have hbf : ¬ (board_full g).1 = true := by
    intro hb
    rw [if_pos hb] at h
    exact absurd h (by simp)
  have hsame : (board_full g).2 = g := by
    unfold board_full at hbf ⊢
    split
    · rename_i hscan
      rw [if_pos hscan] at hbf
      exact absurd rfl hbf
    · rfl
  refine ⟨hs, by simpa using hbf, hsame, ?_⟩
  unfold game_loop_cond
  rw [if_neg hs, if_neg hbf, hsame]

theorem game_loop_cond_loopInv (g : Game) (hinv : LoopInv g)
    (h : (game_loop_cond g).1 = true) :
    LoopInv (game_loop_cond g).2 ∧
      ((game_loop_cond g).2.hands ((game_loop_cond g).2.turn - 1)).length = 6 := by
  obtain ⟨_, _, _, hcond⟩ := game_loop_cond_true g h
  rw [hcond] at h ⊢
  obtain ⟨ht, hb, hd, h0, h1⟩ := hinv
  obtain ⟨d1, d2, d3, _, _, d6, d7⟩ := deal_cards_frame g
  obtain ⟨a0, a1, a6⟩ := deal_cards_hands WellFormed g hd h0 h1 h
  refine ⟨⟨by rw [d3]; exact ht, ?_, ?_, a0, a1⟩, by rw [d3]; exact a6 ht⟩
  · intro r hr k hk
    rw [d6]
    rw [d2] at hr
    rw [d1] at hk
    exact hb r hr k hk
  · unfold DeckInv
    rw [d7]
    exact hd

theorem return_move_loopInv (g : Game) (hinv : LoopInv g)
    (hfull : (g.hands (g.turn - 1)).length = 6) : LoopInv (return_move g) :=
  make_move_loopInv g _ _ 0 (by decide) hinv hfull

theorem game_loop_body_loopInv (canOpen : List Nat → Bool) (g : Game)
    (input : List (List Nat)) (g1 : Game) (rest : List (List Nat)) (hinv : LoopInv g)
    (hfull : (g.hands (g.turn - 1)).length = 6)
    (h : game_loop_body canOpen g input = .ok (g1, rest)) : LoopInv g1 := by
  obtain ⟨gm, hp, hg1⟩ := game_loop_body_cases canOpen g input g1 rest h
  have hm : LoopInv gm := by
    rcases player_handler_move canOpen g input gm rest hp with ⟨_, hr⟩ | ⟨_, row, col, c, _, _, hc, _, hr⟩
    · rw [hr]
      exact return_move_loopInv g hinv hfull
    · rw [hr]
      exact make_move_loopInv g row col c hc hinv hfull
  obtain ⟨_, hb, hd, h0, h1⟩ := hm
  rw [hg1]
  refine ⟨?_, hb, hd, h0, h1⟩
  show (if gm.turn = TURN_ONE then TURN_TWO else TURN_ONE) = TURN_ONE ∨
    (if gm.turn = TURN_ONE then TURN_TWO else TURN_ONE) = TURN_TWO
  split
  · exact Or.inr rfl
  · exact Or.inl rfl

theorem reachable_loopInv (canOpen : List Nat → Bool) (g0 g : Game) (h0 : LoopInv g0)
    (hr : Reachable canOpen g0 g) : LoopInv g := by
  induction hr with
  | start => exact h0
  | turn g g1 input rest _ hcond hbody ih =>
    obtain ⟨hi, hfull⟩ := game_loop_cond_loopInv g ih hcond
    exact game_loop_body_loopInv canOpen _ input g1 rest hi hfull hbody

theorem game_loop_reachable (canOpen : List Nat → Bool) :
    ∀ fuel (g : Game) (input : List (List Nat)) (gf : Game) (rest : List (List Nat)),
      game_loop canOpen fuel g input = .ok (some (gf, rest)) →
      ∃ gl, Reachable canOpen g gl ∧ (game_loop_cond gl).1 = false ∧
        gf = (game_loop_cond gl).2 := by
  have key : ∀ fuel (g0 g : Game) (input : List (List Nat)) (gf : Game)
      (rest : List (List Nat)), Reachable canOpen g0 g →
      game_loop canOpen fuel g input = .ok (some (gf, rest)) →
      ∃ gl, Reachable canOpen g0 gl ∧ (game_loop_cond gl).1 = false ∧
        gf = (game_loop_cond gl).2 := by
    intro fuel
    induction fuel with
    | zero =>
      intro g0 g input gf rest _ h
      simp [game_loop] at h
    | succ fuel ih =>
      intro g0 g input gf rest hr h
      unfold game_loop at h
      split at h
      · rename_i hc
        simp only [Except.ok.injEq, Option.some.injEq, Prod.mk.injEq] at h
        exact ⟨g, hr, hc, h.1.symm⟩
      · rename_i hc
        cases hb : game_loop_body canOpen (game_loop_cond g).2 input with
        | error e => rw [hb] at h; simp at h
        | ok r =>
          obtain ⟨g1, rest1⟩ := r
          rw [hb] at h
          simp only at h
          exact ih g0 g1 rest1 gf rest
            (Reachable.turn g g1 input rest1 hr (by simpa using hc) hb) h
  intro fuel g input gf rest h
  exact key fuel g g input gf rest Reachable.start h

/-! ### Invariants of start-up -/

theorem parse_line_one_inv (line : List Nat) (g g1 : Game)
    (h : parse_line_one line g = .ok g1) :
    (g1.turn = TURN_ONE ∨ g1.turn = TURN_TWO) ∧ (∀ r c, g1.board r c = blank) := by
  unfold parse_line_one at h
  cases hs : check_spaces line 3 with
  | error e => rw [hs] at h; simp at h
  | ok sp =>
    rw [hs] at h
    cases sp with
    | false => simp at h
    | true =>
      simp only at h
      cases h1 : check_dimension (strtok line).1 with
      | error e => rw [h1] at h; simp at h
      | ok width =>
        rw [h1] at h
        simp only at h
        cases h2 : check_dimension (strtok (strtok line).2).1 with
        | error e => rw [h2] at h; simp at h
        | ok height =>
          rw [h2] at h
          simp only at h
          cases h3 : read_int_ptr (strtok (strtok (strtok line).2).2).1 with
          | error e => rw [h3] at h; simp at h
          | ok cardsDrawn =>
            rw [h3] at h
            simp only at h
            cases h4 : read_int_ptr (strtok (strtok (strtok (strtok line).2).2).2).1 with
            | error e => rw [h4] at h; simp at h
            | ok turn =>
              rw [h4] at h
              simp only at h
              split at h
              · simp at h
              · rename_i hcond
                simp only [Except.ok.injEq] at h
                rw [← h]
                simp only [not_or, not_and, not_lt] at hcond
                refine ⟨?_, fun _ _ => rfl⟩
                show turn.toNat = TURN_ONE ∨ turn.toNat = TURN_TWO
                have hc := hcond.1
                unfold TURN_ONE TURN_TWO at hc ⊢
                by_cases ht : turn = 1
                · left; rw [ht]; rfl
                · right
                  have := hc (by simpa using ht)
                  have e : turn = 2 := by simpa using this
                  rw [e]; rfl

theorem parse_deck_file_frame (fs : List Nat → Option (List Nat)) (g g1 : Game)
    (h : parse_deck_file fs g = .ok g1) : g1 = { g with deck := g1.deck } := by
  unfold parse_deck_file at h
  cases hfs : fs g.deckFile with
  | none => rw [hfs] at h; simp at h
  | some text =>
    rw [hfs] at h
    simp only at h
    cases hl : read_lines text [] with
    | nil => rw [hl] at h; simp at h
    | cons first rest =>
      rw [hl] at h
      simp only at h
      split at h
      · simp at h
      · cases hp : parse_deck_loop (read_int first) rest 0 (fun _ => ⟨0, 0⟩) with
        | error e => rw [hp] at h; simp at h
        | ok r =>
          rw [hp] at h
          simp only at h
          split at h
          · simp at h
          · simp only [Except.ok.injEq] at h
            rw [← h]

theorem parse_hands_loop_cards (line : List Nat) :
    ∀ n i (cards cards1 : Nat → Card), parse_hands_loop line n i cards = .ok cards1 →
      (∀ k, k < i → WellFormed (cards k)) → ∀ k, k < i + n → WellFormed (cards1 k) := by
  intro n
  induction n with
  | zero =>
    intro i cards cards1 h hc k hk
    simp only [parse_hands_loop, Except.ok.injEq] at h
    rw [← h]
    exact hc k (by omega)
  | succ n ih =>
    intro i cards cards1 h hc k hk
    unfold parse_hands_loop at h
    simp only at h
    split at h
    · simp at h
    · rename_i hok
      refine ih (i + 1) _ cards1 h ?_ k (by omega)
      intro k1 hk1
      unfold store
      by_cases he : k1 = i
      · rw [if_pos he]
        exact check_card_true _ _ (by simpa using hok)
      · rw [if_neg he]
        exact hc k1 (by omega)

theorem parse_hands_inv (g g1 : Game) (line : List Nat) (player : Nat)
    (h : parse_hands g line player = .ok g1) :
    HandInv WellFormed g1 (player - 1) ∧
      g1 = { g with hands := store g.hands (player - 1) (g1.hands (player - 1)) } := by
  unfold parse_hands at h
  simp only at h
  split at h
  · simp at h
  · rename_i hlen
    cases hp : parse_hands_loop line (line.length / 2) 0 (g.hands (player - 1)).cards with
    | error e => rw [hp] at h; simp at h
    | ok cards =>
      rw [hp] at h
      simp only [Except.ok.injEq] at h
      have hh : g1.hands (player - 1) = ⟨cards, ((line.length / 2 : Nat) : Int)⟩ := by
        rw [← h]
        simp [store]
      refine ⟨?_, ?_⟩
      · unfold HandInv
        rw [hh]
        simp only
        unfold HAND_SIZE at hlen
        refine ⟨by omega, by omega, ?_⟩
        intro k hk
        exact parse_hands_loop_cards line _ 0 _ cards hp (fun k hk => by omega) k (by omega)
      · rw [hh]
        exact h.symm

theorem parse_board_loop_inv (line : List Nat) (lineN : Nat) :
    ∀ n i (g g1 : Game), parse_board_loop line lineN n i g = .ok g1 →
      SameExceptBoard g g1 ∧
        (∀ r c, WellFormed (g.board r c) → WellFormed (g1.board r c)) := by
  intro n
  induction n with
  | zero =>
    intro i g g1 h
    simp only [parse_board_loop, Except.ok.injEq] at h
    rw [← h]
    exact ⟨⟨rfl, rfl, rfl, rfl, rfl, rfl, rfl, rfl⟩, fun _ _ hw => hw⟩
  | succ n ih =>
    intro i g g1 h
    unfold parse_board_loop at h
    simp only at h
    split at h
    · simp at h
    · rename_i hok
      have hcard : WellFormed ⟨line.getD (GET_NUM i) 0, line.getD (GET_SUIT i) 0⟩ :=
        check_card_true _ _ (by simpa using hok)
      split at h <;> split at h
      · simp at h
      · obtain ⟨hs, hb⟩ := ih (i + 1) _ g1 h
        refine ⟨sameExceptBoard_trans _ _ _ ⟨rfl, rfl, rfl, rfl, rfl, rfl, rfl, rfl⟩ hs, ?_⟩
        intro r c hw
        apply hb
        show WellFormed (store2 g.board lineN i _ r c)
        unfold store2
        split
        · exact hcard
        · exact hw
      · simp at h
      · obtain ⟨hs, hb⟩ := ih (i + 1) _ g1 h
        refine ⟨sameExceptBoard_trans _ _ _ ⟨rfl, rfl, rfl, rfl, rfl, rfl, rfl, rfl⟩ hs, ?_⟩
        intro r c hw
        apply hb
        show WellFormed (store2 g.board lineN i _ r c)
        unfold store2
        split
        · exact hcard
        · exact hw

theorem parse_board_inv (g g1 : Game) (line : List Nat) (lineN : Nat)
    (h : parse_board g line lineN = .ok g1) :
    SameExceptBoard g g1 ∧ (BoardWellFormed g → BoardWellFormed g1) := by
  unfold parse_board at h
  simp only at h
  split at h
  · simp at h
  · obtain ⟨hs, hb⟩ := parse_board_loop_inv line lineN _ 0 g g1 h
    refine ⟨hs, ?_⟩
    intro hw r hr c hc
    rw [hs.2.1] at hr
    rw [hs.1] at hc
    exact hb r c (hw r hr c hc)

theorem parse_save_loop_inv (fs : List Nat → Option (List Nat)) (freed : List Nat) :
    ∀ (lines : List (List Nat)) (lineN : Nat) (g : Game) (r : Nat × Game),
      LoadInv lineN g → parse_save_loop fs freed lines lineN g = .ok r → LoadInv r.1 r.2 := by
  intro lines
  induction lines with
  | nil =>
    intro lineN g r hinv h
    simp only [parse_save_loop, Except.ok.injEq] at h
    rw [← h]
    exact hinv
  | cons line rest ih =>
    intro lineN g r hinv h
    unfold parse_save_loop at h
    simp only at h
    obtain ⟨i1, i2, i3, i4⟩ := hinv
    by_cases h0 : lineN = 0
    · subst h0
      simp only [if_true] at h
      cases hp : parse_line_one line g with
      | error e => rw [hp] at h; simp at h
      | ok g1 =>
        rw [hp] at h
        simp only at h
        obtain ⟨ht, hb⟩ := parse_line_one_inv line g g1 hp
        refine ih 1 g1 r ⟨fun _ => ⟨ht, ?_⟩, fun hn => by omega, fun hn => by omega,
          fun hn => by omega⟩ h
        intro x _ y _
        rw [hb x y]
        exact Or.inl rfl
    · rw [if_neg h0] at h
      by_cases h1 : lineN = 1
      · subst h1
        simp only [if_true] at h
        cases hp : parse_deck_file fs { g with deckFile := line } with
        | error e => rw [hp] at h; simp at h
        | ok g1 =>
          rw [hp] at h
          simp only at h
          have hf := parse_deck_file_frame fs _ g1 hp
          have hd := (parse_deck_file_cards fs _ g1 hp).2.2
          obtain ⟨ht, hb⟩ := i1 (by omega)
          refine ih 2 _ r ⟨fun _ => ⟨?_, ?_⟩, fun _ => ?_, fun hn => by omega,
            fun hn => by omega⟩ h
          · rw [hf]; exact ht
          · rw [hf]; exact hb
          · exact hd
      · rw [if_neg h1] at h
        by_cases h23 : lineN = 2 ∨ lineN = 3
        · rw [if_pos h23] at h
          cases hp : parse_hands g line (lineN - 1) with
          | error e => rw [hp] at h; simp at h
          | ok g1 =>
            rw [hp] at h
            simp only at h
            obtain ⟨hh, hf⟩ := parse_hands_inv g g1 line (lineN - 1) hp
            obtain ⟨ht, hb⟩ := i1 (by omega)
            have hd := i2 (by omega)
            have hturn : g1.turn = g.turn := by rw [hf]
            have hboard : BoardWellFormed g1 := by rw [hf]; exact hb
            have hdeck : DeckInv WellFormed g1 := by rw [hf]; exact hd
            rcases h23 with h2 | h3
            · subst h2
              exact ih 3 g1 r ⟨fun _ => ⟨by rw [hturn]; exact ht, hboard⟩, fun _ => hdeck,
                fun _ => hh, fun hn => by omega⟩ h
            · subst h3
              have hh0 : HandInv WellFormed g1 0 := by
                have e : g1.hands 0 = g.hands 0 := by
                  rw [hf]
                  simp [store]
                unfold HandInv
                rw [e]
                exact i3 (by omega)
              exact ih 4 g1 r ⟨fun _ => ⟨by rw [hturn]; exact ht, hboard⟩, fun _ => hdeck,
                fun _ => hh0, fun _ => hh⟩ h
        · rw [if_neg h23] at h
          cases hp : parse_board g line (lineN - 4) with
          | error e => rw [hp] at h; simp at h
          | ok g1 =>
            rw [hp] at h
            simp only at h
            obtain ⟨hs, hb⟩ := parse_board_inv g g1 line (lineN - 4) hp
            obtain ⟨s1, s2, s3, _, _, _, s7, s8⟩ := hs
            obtain ⟨ht, hbw⟩ := i1 (by omega)
            refine ih (lineN + 1) g1 r ⟨fun _ => ⟨by rw [s3]; exact ht, hb hbw⟩, fun _ => ?_,
              fun _ => ?_, fun _ => ?_⟩ h
            · unfold DeckInv; rw [s7]; exact i2 (by omega)
            · unfold HandInv; rw [s8]; exact i3 (by omega)
            · unfold HandInv; rw [s8]; exact i4 (by omega)

theorem parse_save_file_loopInv (fs : List Nat → Option (List Nat)) (freed : List Nat)
    (g g1 : Game) (fileName : List Nat) (h : parse_save_file fs freed g fileName = .ok g1) :
    LoopInv g1 := by
  unfold parse_save_file at h
  cases hfs : fs fileName with
  | none => rw [hfs] at h; simp at h
  | some text =>
    rw [hfs] at h
    simp only at h
    cases hl : parse_save_loop fs freed (read_lines text []) 0 g with
    | error e => rw [hl] at h; simp at h
    | ok r =>
      rw [hl] at h
      simp only at h
      split at h
      · simp at h
      · rename_i hcount
        split at h
        · simp at h
        · rename_i hfull
          simp only [Except.ok.injEq] at h
          have hb : (board_full r.2).2 = r.2 := by
            unfold board_full at hfull ⊢
            split
            · rename_i hs
              rw [if_pos hs] at hfull
              simp at hfull
            · rfl
          rw [hb] at h
          have hinv := parse_save_loop_inv fs freed _ 0 g r
            ⟨fun hn => by omega, fun hn => by omega, fun hn => by omega, fun hn => by omega⟩ hl
          have hn : r.1 = r.2.height + 4 := by
            simpa using hcount
          obtain ⟨j1, j2, j3, j4⟩ := hinv
          rw [← h]
          exact ⟨(j1 (by omega)).1, (j1 (by omega)).2, j2 (by omega), j3 (by omega),
            j4 (by omega)⟩

theorem main_start_loopInv (fs : List Nat → Option (List Nat)) (freed : List Nat)
    (g g0 : Game) (argv : List (List Nat)) (h : main_start fs freed g argv = .ok g0) :
    LoopInv g0 := by
  unfold main_start at h
  split at h
  · -- loading from a save
    rename_i a0 a1 a2 a3
    cases h1 : check_player a2 with
    | error e => rw [h1] at h; simp at h
    | ok p1 =>
      rw [h1] at h
      simp only at h
      cases h2 : check_player a3 with
      | error e => rw [h2] at h; simp at h
      | ok p2 =>
        rw [h2] at h
        simp only at h
        exact parse_save_file_loopInv fs freed _ g0 a1 h
  · -- loading from scratch
    rename_i a0 a1 a2 a3 a4 a5
    cases h1 : check_dimension (some a2) with
    | error e => rw [h1] at h; simp at h
    | ok width =>
      rw [h1] at h
      simp only at h
      cases h2 : check_dimension (some a3) with
      | error e => rw [h2] at h; simp at h
      | ok height =>
        rw [h2] at h
        simp only at h
        cases h3 : check_player a4 with
        | error e => rw [h3] at h; simp at h
        | ok p1 =>
          rw [h3] at h
          simp only at h
          cases h4 : check_player a5 with
          | error e => rw [h4] at h; simp at h
          | ok p2 =>
            rw [h4] at h
            simp only at h
            cases h5 : parse_deck_file fs
                { g with
                  deckFile := a1
                  width := width
                  height := height
                  playerType := store (store g.playerType 0 p1) 1 p2
                  cardsDrawn := 0 } with
            | error e => rw [h5] at h; simp at h
            | ok g2 =>
              rw [h5] at h
              simp only at h
              obtain ⟨gs, hgs⟩ : ∃ gs : Game, gs = malloc_var
                  { g2 with
                    status := NEW_GAME
                    hands := store (store g2.hands PLAYER_ONE
                        ⟨(g2.hands PLAYER_ONE).cards, 0⟩) PLAYER_TWO
                        ⟨(g2.hands PLAYER_TWO).cards, 0⟩
                    turn := PLAYER_ONE } := ⟨_, rfl⟩
              rw [← hgs] at h
              have hd : DeckInv WellFormed gs := by
                rw [hgs]
                exact (parse_deck_file_cards fs _ g2 h5).2.2
              have hboard : ∀ r c, gs.board r c = blank := by
                intro r c
                rw [hgs]
                rfl
              have hempty : ∀ i, i < 2 → HandInv WellFormed gs i := by
                intro i hi
                have hlen : (gs.hands i).length = 0 := by
                  rw [hgs]
                  have hi' : i = 0 ∨ i = 1 := by omega
                  rcases hi' with rfl | rfl <;> rfl
                refine ⟨by rw [hlen], by rw [hlen]; decide, ?_⟩
                intro k hk
                rw [hlen] at hk
                omega
              split at h
              · simp at h
              · rename_i hflag
                simp only [Except.ok.injEq] at h
                have hflag1 : (deal_cards gs).1 = true := by simpa using hflag
                obtain ⟨a0', a1', _⟩ := deal_cards_hands WellFormed gs hd (hempty 0 (by omega))
                  (hempty 1 (by omega)) hflag1
                obtain ⟨d1, d2, _, _, _, d6, d7⟩ := deal_cards_frame gs
                rw [← h]
                refine ⟨Or.inl rfl, ?_, ?_, a0', a1'⟩
                · intro r _ c _
                  show WellFormed ((deal_cards gs).2.board r c)
                  rw [d6, hboard]
                  exact Or.inl rfl
                · show DeckInv WellFormed (deal_cards gs).2
                  unfold DeckInv
                  rw [d7]
                  exact hd
  · simp at h

/-! ### The scan of the automated player always finds a cell -/

theorem empty_row_of_empty_cell (g : Game)
    (hclosed : ∀ x, x < g.height → ∀ y, y < g.width → (g.board x y).suit = 42 →
      ∀ p, torusAdj g.height g.width (x, y) p → (g.board p.1 p.2).suit = 42)
    (r c : Nat) (hr : r < g.height) (hc : c < g.width) (he : (g.board r c).suit = 42) :
    ∀ c1, c1 < g.width → (g.board r c1).suit = 42 := by
  have step : ∀ k, (g.board r ((c + k) % g.width)).suit = 42 := by
    intro k
    induction k with
    | zero => rw [Nat.add_zero, Nat.mod_eq_of_lt hc]; exact he
    | succ k ih =>
      have hlt : (c + k) % g.width < g.width := Nat.mod_lt _ (by omega)
      have h := hclosed r hr _ hlt ih (r, ((c + k) % g.width + 1) % g.width)
        (Or.inr ⟨rfl, Or.inl rfl⟩)
      simp only at h
      rw [Nat.mod_add_mod] at h
      exact h
  intro c1 hc1
  have h := step (c1 + (g.width - c))
  have e : c + (c1 + (g.width - c)) = c1 + g.width := by omega
  rw [e, Nat.add_mod_right, Nat.mod_eq_of_lt hc1] at h
  exact h

theorem empty_col_of_empty_cell (g : Game)
    (hclosed : ∀ x, x < g.height → ∀ y, y < g.width → (g.board x y).suit = 42 →
      ∀ p, torusAdj g.height g.width (x, y) p → (g.board p.1 p.2).suit = 42)
    (r c : Nat) (hr : r < g.height) (hc : c < g.width) (he : (g.board r c).suit = 42) :
    ∀ r1, r1 < g.height → (g.board r1 c).suit = 42 := by
  have step : ∀ k, (g.board ((r + k) % g.height) c).suit = 42 := by
    intro k
    induction k with
    | zero => rw [Nat.add_zero, Nat.mod_eq_of_lt hr]; exact he
    | succ k ih =>
      have hlt : (r + k) % g.height < g.height := Nat.mod_lt _ (by omega)
      have h := hclosed _ hlt c hc ih (((r + k) % g.height + 1) % g.height, c)
        (Or.inl ⟨rfl, Or.inl rfl⟩)
      simp only at h
      rw [Nat.mod_add_mod] at h
      exact h
  intro r1 hr1
  have h := step (r1 + (g.height - r))
  have e : r + (r1 + (g.height - r)) = r1 + g.height := by omega
  rw [e, Nat.add_mod_right, Nat.mod_eq_of_lt hr1] at h
  exact h

theorem exists_placeable (g : Game)
    (hocc : ∃ r, r < g.height ∧ ∃ c, c < g.width ∧ (g.board r c).suit ≠ 42)
    (hemp : ∃ r, r < g.height ∧ ∃ c, c < g.width ∧ (g.board r c).suit = 42) :
    ∃ r, r < g.height ∧ ∃ c, c < g.width ∧ adjacent_to g r c = true := by
  by_contra hnone
  have hclosed : ∀ x, x < g.height → ∀ y, y < g.width → (g.board x y).suit = 42 →
      ∀ p, torusAdj g.height g.width (x, y) p → (g.board p.1 p.2).suit = 42 := by
    intro x hx y hy he p hp
    by_contra hne
    exact hnone ⟨x, hx, y, hy, (adjacent_to_eq g x y hx hy).mpr (Or.inr ⟨he, p, hp, hne⟩)⟩
  obtain ⟨r, hr, c, hc, he⟩ := hemp
  obtain ⟨r1, hr1, c1, hc1, ho⟩ := hocc
  have h1 := empty_row_of_empty_cell g hclosed r c hr hc he c1 hc1
  exact ho (empty_col_of_empty_cell g hclosed r c1 hr hc1 h1 r1 hr1)

theorem scanCell_mem (g : Game) (player : Nat) (p : Nat × Nat) :
    p ∈ (List.range' 0 (g.height - 0)).flatMap
        (fun i => (List.range g.width).map (scanCell g player i)) ↔
      p.1 < g.height ∧ p.2 < g.width := by
  rw [Nat.sub_zero, ← List.range_eq_range']
  simp only [List.mem_flatMap, List.mem_map, List.mem_range]
  constructor
  · rintro ⟨i, hi, j, hj, rfl⟩
    unfold scanCell
    constructor
    · simp only; split <;> omega
    · simp only; split <;> omega
  · rintro ⟨h1, h2⟩
    by_cases hp : player ≠ PLAYER_ONE
    · refine ⟨g.height - p.1 - 1, by omega, g.width - p.2 - 1, by omega, ?_⟩
      unfold scanCell
      rw [if_pos hp, if_pos hp]
      apply Prod.ext <;> simp only <;> omega
    · refine ⟨p.1, h1, p.2, h2, ?_⟩
      unfold scanCell
      rw [if_neg hp, if_neg hp]

theorem return_move_target_spec (g : Game) (hs : g.status ≠ NEW_GAME)
    (hex : ∃ r, r < g.height ∧ ∃ c, c < g.width ∧ adjacent_to g r c = true) :
    (return_move_target g).1 < g.height ∧ (return_move_target g).2 < g.width ∧
      adjacent_to g (return_move_target g).1 (return_move_target g).2 = true := by
  obtain ⟨r, hr, c, hc, ha⟩ := hex
  have hmem := (scanCell_mem g (g.turn - 1) (r, c)).mpr ⟨hr, hc⟩
  cases hf : ((List.range' 0 (g.height - 0)).flatMap
      (fun i => (List.range g.width).map (scanCell g (g.turn - 1) i))).find?
      (fun p => adjacent_to g p.1 p.2) with
  | none =>
    rw [List.find?_eq_none] at hf
    exact absurd ha (hf (r, c) hmem)
  | some t =>
    have ht : return_move_target g = t := by
      unfold return_move_target
      rw [if_neg hs]
      exact return_move_rows_spec g (g.turn - 1) (g.height + 1) 0 0 0 (by omega) t hf
    have hin := (scanCell_mem g (g.turn - 1) t).mp (List.mem_of_find?_eq_some hf)
    have hp := List.find?_some hf
    rw [ht]
    exact ⟨hin.1, hin.2, hp⟩

/-- C22: on a board with an occupied and an empty cell in phase `Middle`, some
cell passes `adjacent_to` (is_placeable), and the scan of `return_move` stops
at such a cell: the target handed to `make_move` lies on the board, is empty
and has an occupied orthogonal neighbour on the torus, so the automated move is
legal and is not the fall-through of a scan that found nothing. -/
theorem return_move_legal (g : Game) (hs : g.status = MIDDLE_GAME)
    (hocc : ∃ r, r < g.height ∧ ∃ c, c < g.width ∧ (g.board r c).suit ≠ 42)
    (hemp : ∃ r, r < g.height ∧ ∃ c, c < g.width ∧ (g.board r c).suit = 42) :
    (∃ r, r < g.height ∧ ∃ c, c < g.width ∧ adjacent_to g r c = true) ∧
    (return_move_target g).1 < g.height ∧ (return_move_target g).2 < g.width ∧
    adjacent_to g (return_move_target g).1 (return_move_target g).2 = true ∧
    (g.board (return_move_target g).1 (return_move_target g).2).suit = 42 ∧
    (∃ p, torusAdj g.height g.width (return_move_target g) p ∧
      (g.board p.1 p.2).suit ≠ 42) ∧
    return_move g = make_move g (return_move_target g).1 (return_move_target g).2 0 := by
  have hne : g.status ≠ NEW_GAME := by rw [hs]; decide
  have hex := exists_placeable g hocc hemp
  obtain ⟨h1, h2, h3⟩ := return_move_target_spec g hne hex
  have h4 := (adjacent_to_eq g _ _ h1 h2).mp h3
  rcases h4 with h4 | ⟨h4, h5⟩
  · exact absurd h4 hne
  · exact ⟨hex, h1, h2, h3, h4, h5, rfl⟩

theorem return_move_legal_witness :
    return_move_target demoMid = (2, 1) ∧
      adjacent_to demoMid (return_move_target demoMid).1 (return_move_target demoMid).2 = true ∧
      (demoMid.board (return_move_target demoMid).1 (return_move_target demoMid).2).suit = 42 :=
  ⟨by decide,
    (return_move_legal demoMid (by decide) ⟨1, by decide, 1, by decide, by decide⟩
      ⟨0, by decide, 0, by decide, by decide⟩).2.2.2.1,
    (return_move_legal demoMid (by decide) ⟨1, by decide, 1, by decide, by decide⟩
      ⟨0, by decide, 0, by decide, by decide⟩).2.2.2.2.1⟩

/-! ### Committed moves in a game of valid cards -/

theorem filter_range_same (f g : Nat → Bool) (w : Nat) (hsame : ∀ c, c < w → g c = f c) :
    ((List.range w).filter g).length = ((List.range w).filter f).length := by
  have e : (List.range w).filter g = (List.range w).filter f := by
    apply List.filter_congr
    intro x hx
    exact hsame x (List.mem_range.mp hx)
  rw [e]

theorem filter_range_succ (f g : Nat → Bool) (c0 : Nat) (hf : f c0 = false) (hg : g c0 = true)
    (hsame : ∀ c, c ≠ c0 → g c = f c) :
    ∀ w, c0 < w → ((List.range w).filter g).length = ((List.range w).filter f).length + 1 := by
  intro w
  induction w with
  | zero => intro h; omega
  | succ w ih =>
    intro h
    rw [List.range_succ, List.filter_append, List.filter_append, List.length_append,
      List.length_append]
    by_cases hc : c0 = w
    · subst hc
      rw [filter_range_same f g c0 (fun c hc => hsame c (by omega))]
      simp [List.filter, hf, hg]
    · rw [ih (by omega)]
      have e : g w = f w := hsame w (fun h => hc h.symm)
      simp only [List.filter, e]
      omega

theorem sum_range_succ_one (F G : Nat → Nat) (r0 : Nat) (h0 : G r0 = F r0 + 1)
    (hsame : ∀ r, r ≠ r0 → G r = F r) :
    ∀ h, r0 < h → ((List.range h).map G).sum = ((List.range h).map F).sum + 1 := by
  intro h
  induction h with
  | zero => intro h; omega
  | succ h ih =>
    intro hlt
    rw [List.range_succ, List.map_append, List.map_append, List.sum_append, List.sum_append]
    simp only [List.map_cons, List.map_nil, List.sum_cons, List.sum_nil, Nat.add_zero]
    by_cases hc : r0 = h
    · subst hc
      have e : (List.range r0).map G = (List.range r0).map F := by
        apply List.map_congr_left
        intro r hr
        exact hsame r (by have := List.mem_range.mp hr; omega)
      rw [e, h0]
      omega
    · rw [ih (by omega), hsame h (fun h1 => hc h1.symm)]
      omega

theorem occupied_succ (g g1 : Game) (row col : Nat) (hr : row < g.height) (hc : col < g.width)
    (hh : g1.height = g.height) (hw : g1.width = g.width)
    (he : (g.board row col).suit = 42) (hn : (g1.board row col).suit ≠ 42)
    (hsame : ∀ r c, ¬ (r = row ∧ c = col) → g1.board r c = g.board r c) :
    occupied g1 = occupied g + 1 := by
  unfold occupied
  rw [hh, hw]
  apply sum_range_succ_one _ _ row _ _ _ hr
  · apply filter_range_succ _ _ col _ _ _ _ hc
    · simp [he]
    · simp [hn]
    · intro c hne
      rw [hsame row c (fun h => hne h.2)]
  · intro r hne
    apply filter_range_same
    intro c _
    rw [hsame r c (fun h => hne h.1)]

theorem check_dimension_range (line : Option (List Nat)) (n : Nat)
    (h : check_dimension line = .ok n) : 3 ≤ n ∧ n ≤ 100 := by
  unfold check_dimension at h
  cases hr : read_int_ptr line with
  | error e => rw [hr] at h; simp at h
  | ok len =>
    rw [hr] at h
    simp only at h
    split at h
    · simp at h
    · rename_i hc
      simp only [Except.ok.injEq] at h
      omega

theorem phaseInv_of_frame (g g1 : Game) (h : PhaseInv g) (hs : g1.status = g.status)
    (hh : g1.height = g.height) (hw : g1.width = g.width) (hb : g1.board = g.board) :
    PhaseInv g1 := by
  unfold PhaseInv BoardEmpty at h ⊢
  rw [hs, hh, hw, hb]
  exact h

theorem board_full_false (g : Game) (h : (board_full g).1 = false) :
    ∃ r, r < g.height ∧ ∃ c, c < g.width ∧ (g.board r c).suit = 42 := by
  by_contra hnone
  have hall : board_full_scan g = true := by
    rw [board_full_scan_true]
    intro x hx y hy he
    exact hnone ⟨x, hx, y, hy, he⟩
  unfold board_full at h
  rw [if_pos hall] at h
  exact absurd h (by simp)

theorem game_loop_cond_playInv (g : Game) (hinv : PlayInv g)
    (h : (game_loop_cond g).1 = true) :
    PlayInv (game_loop_cond g).2 ∧
      ((game_loop_cond g).2.hands ((game_loop_cond g).2.turn - 1)).length = 6 ∧
      (game_loop_cond g).2.status ≠ END_GAME ∧
      ∃ r, r < (game_loop_cond g).2.height ∧ ∃ c, c < (game_loop_cond g).2.width ∧
        ((game_loop_cond g).2.board r c).suit = 42 := by
  obtain ⟨hst, hbf, _, hcond⟩ := game_loop_cond_true g h
  obtain ⟨r, hr, c, hc, he⟩ := board_full_false g hbf
  rw [hcond] at h ⊢
  obtain ⟨ht, p1, p2, hp, hd, h0, h1⟩ := hinv
  obtain ⟨d1, d2, d3, d4, _, d6, d7⟩ := deal_cards_frame g
  obtain ⟨a0, a1, a6⟩ := deal_cards_hands ValidCard g hd h0 h1 h
  refine ⟨⟨by rw [d3]; exact ht, by rw [d2]; exact p1, by rw [d1]; exact p2,
    phaseInv_of_frame g _ hp d4 d2 d1 d6, ?_, a0, a1⟩, by rw [d3]; exact a6 ht,
    by rw [d4]; exact hst, r, by rw [d2]; exact hr, c, by rw [d1]; exact hc, by rw [d6]; exact he⟩
  unfold DeckInv
  rw [d7]
  exact hd

theorem make_move_commit (g : Game) (row col c : Nat) (hinv : PlayInv g)
    (hfull : (g.hands (g.turn - 1)).length = 6) (hr : row < g.height) (hc : col < g.width)
    (hk : c < 6) (ha : adjacent_to g row col = true) :
    (g.board row col).suit = 42 ∧ occupied (make_move g row col c) = occupied g + 1 ∧
      PlayInv (make_move g row col c) := by
  obtain ⟨ht, p1, p2, hp, hd, h0, h1⟩ := hinv
  obtain ⟨m0, m1, _, mc⟩ := make_move_hand ValidCard g row col c ht hk h0 h1 hfull
  obtain ⟨f1, f2, f3, _, f5, _, f7⟩ := make_move_frame g row col c
  have hempty : (g.board row col).suit = 42 := by
    rcases (adjacent_to_eq g row col hr hc).mp ha with hs | hs
    · exact hp.mp hs row hr col hc
    · exact hs.1
  have hsuit : ((make_move g row col c).board row col).suit ≠ 42 := by
    unfold ValidCard at mc
    omega
  have hcard : ((g.hands (g.turn - 1)).cards c).suit ≠ 42 := by
    have hb : (make_move g row col c).board row col = (g.hands (g.turn - 1)).cards c := by
      simp [make_move, store2]
    rw [← hb]
    exact hsuit
  refine ⟨hempty, occupied_succ g _ row col hr hc f2 f1 hempty hsuit f7, ?_⟩
  refine ⟨by rw [f3]; exact ht, by rw [f2]; exact p1, by rw [f1]; exact p2,
    make_move_phaseInv g row col c hr hc hcard, ?_, m0, m1⟩
  unfold DeckInv
  rw [f5]
  exact hd

theorem return_move_target_placeable (g : Game) (hinv : PlayInv g)
    (hemp : ∃ r, r < g.height ∧ ∃ c, c < g.width ∧ (g.board r c).suit = 42) :
    (return_move_target g).1 < g.height ∧ (return_move_target g).2 < g.width ∧
      adjacent_to g (return_move_target g).1 (return_move_target g).2 = true := by
  obtain ⟨_, p1, p2, hp, _, _, _⟩ := hinv
  by_cases hs : g.status = NEW_GAME
  · have ht : return_move_target g = ((g.height - 1) / 2, (g.width - 1) / 2) := by
      simp [return_move_target, hs]
    rw [ht]
    refine ⟨?_, ?_, ?_⟩
    · show (g.height - 1) / 2 < g.height
      omega
    · show (g.width - 1) / 2 < g.width
      omega
    · unfold adjacent_to
      rw [if_pos hs]
  · have hocc : ∃ r, r < g.height ∧ ∃ c, c < g.width ∧ (g.board r c).suit ≠ 42 := by
      by_contra hnone
      apply hs
      apply hp.mpr
      intro r hr c hc
      by_contra hne
      exact hnone ⟨r, hr, c, hc, hne⟩
    exact return_move_target_spec g hs (exists_placeable g hocc hemp)

theorem player_handler_commit (canOpen : List Nat → Bool) (g : Game) (input : List (List Nat))
    (gm : Game) (rest : List (List Nat)) (hinv : PlayInv g)
    (hfull : (g.hands (g.turn - 1)).length = 6)
    (hemp : ∃ r, r < g.height ∧ ∃ c, c < g.width ∧ (g.board r c).suit = 42)
    (h : player_handler canOpen g input = .ok (gm, rest)) :
    ∃ row col c, row < g.height ∧ col < g.width ∧ (g.board row col).suit = 42 ∧
      gm = make_move g row col c ∧ occupied gm = occupied g + 1 ∧ PlayInv gm := by
  rcases player_handler_move canOpen g input gm rest h with
    ⟨_, hr⟩ | ⟨_, row, col, c, h1, h2, hc, ha, hr⟩
  · obtain ⟨t1, t2, t3⟩ := return_move_target_placeable g hinv hemp
    obtain ⟨m1, m2, m3⟩ := make_move_commit g _ _ 0 hinv hfull t1 t2 (by decide) t3
    refine ⟨(return_move_target g).1, (return_move_target g).2, 0, t1, t2, m1, hr, ?_, ?_⟩
    · rw [hr]; exact m2
    · rw [hr]; exact m3
  · obtain ⟨m1, m2, m3⟩ := make_move_commit g row col c hinv hfull h1 h2 hc ha
    refine ⟨row, col, c, h1, h2, m1, hr, ?_, ?_⟩
    · rw [hr]; exact m2
    · rw [hr]; exact m3

theorem game_loop_body_playInv (canOpen : List Nat → Bool) (g : Game)
    (input : List (List Nat)) (g1 : Game) (rest : List (List Nat)) (hinv : PlayInv g)
    (hfull : (g.hands (g.turn - 1)).length = 6)
    (hemp : ∃ r, r < g.height ∧ ∃ c, c < g.width ∧ (g.board r c).suit = 42)
    (h : game_loop_body canOpen g input = .ok (g1, rest)) : PlayInv g1 := by
  obtain ⟨gm, hp, hg1⟩ := game_loop_body_cases canOpen g input g1 rest h
  obtain ⟨_, _, _, _, _, _, _, _, hm⟩ := player_handler_commit canOpen g input gm rest hinv hfull
    hemp hp
  obtain ⟨_, p1, p2, pp, hd, h0, h1⟩ := hm
  rw [hg1]
  refine ⟨?_, p1, p2, pp, hd, h0, h1⟩
  show (if gm.turn = TURN_ONE then TURN_TWO else TURN_ONE) = TURN_ONE ∨
    (if gm.turn = TURN_ONE then TURN_TWO else TURN_ONE) = TURN_TWO
  split
  · exact Or.inr rfl
  · exact Or.inl rfl

theorem reachable_playInv (canOpen : List Nat → Bool) (g0 g : Game) (h0 : PlayInv g0)
    (hr : Reachable canOpen g0 g) : PlayInv g := by
  induction hr with
  | start => exact h0
  | turn g g1 input rest _ hcond hbody ih =>
    obtain ⟨hi, hfull, _, hemp⟩ := game_loop_cond_playInv g ih hcond
    exact game_loop_body_playInv canOpen _ input g1 rest hi hfull hemp hbody

theorem committed_move_valid_cards (canOpen : List Nat → Bool) (g0 g gm : Game)
    (input rest : List (List Nat)) (h0 : PlayInv g0) (hr : Reachable canOpen g0 g)
    (hcond : (game_loop_cond g).1 = true)
    (h : player_handler canOpen (game_loop_cond g).2 input = .ok (gm, rest)) :
    ∃ row col c, row < g.height ∧ col < g.width ∧
      ((game_loop_cond g).2.board row col).suit = 42 ∧
      gm = make_move (game_loop_cond g).2 row col c ∧
      occupied gm = occupied (game_loop_cond g).2 + 1 := by
  obtain ⟨hi, hfull, _, hemp⟩ := game_loop_cond_playInv g (reachable_playInv canOpen g0 g h0 hr)
    hcond
  obtain ⟨row, col, c, c1, c2, c3, c4, c5, _⟩ :=
    player_handler_commit canOpen _ input gm rest hi hfull hemp h
  obtain ⟨f1, f2, _, _, _, _⟩ := game_loop_cond_frame g
  exact ⟨row, col, c, by rw [← f2]; exact c1, by rw [← f1]; exact c2, c3, c4, c5⟩

theorem main_start_fresh_playInv (fs : List Nat → Option (List Nat)) (freed : List Nat)
    (g g0 : Game) (a0 a1 a2 a3 a4 a5 : List Nat)
    (h : main_start fs freed g [a0, a1, a2, a3, a4, a5] = .ok g0)
    (hdeck : DeckInv ValidCard g0) : PlayInv g0 := by
  unfold main_start at h
  simp only at h
  cases h1 : check_dimension (some a2) with
  | error e => rw [h1] at h; simp at h
  | ok width =>
    rw [h1] at h
    simp only at h
    cases h2 : check_dimension (some a3) with
    | error e => rw [h2] at h; simp at h
    | ok height =>
      rw [h2] at h
      simp only at h
      cases h3 : check_player a4 with
      | error e => rw [h3] at h; simp at h
      | ok p1 =>
        rw [h3] at h
        simp only at h
        cases h4 : check_player a5 with
        | error e => rw [h4] at h; simp at h
        | ok p2 =>
          rw [h4] at h
          simp only at h
          cases h5 : parse_deck_file fs
              { g with
                deckFile := a1
                width := width
                height := height
                playerType := store (store g.playerType 0 p1) 1 p2
                cardsDrawn := 0 } with
          | error e => rw [h5] at h; simp at h
          | ok g2 =>
            rw [h5] at h
            simp only at h
            have hf := parse_deck_file_frame fs _ g2 h5
            have hwidth : g2.width = width := congrArg Game.width hf
            have hheight : g2.height = height := congrArg Game.height hf
            obtain ⟨gs, hgs⟩ : ∃ gs : Game, gs = malloc_var
                { g2 with
                  status := NEW_GAME
                  hands := store (store g2.hands PLAYER_ONE
                      ⟨(g2.hands PLAYER_ONE).cards, 0⟩) PLAYER_TWO
                      ⟨(g2.hands PLAYER_TWO).cards, 0⟩
                  turn := PLAYER_ONE } := ⟨_, rfl⟩
            rw [← hgs] at h
            have hboard : ∀ r c, gs.board r c = blank := by
              intro r c
              rw [hgs]
              rfl
            have hstatus : gs.status = NEW_GAME := by rw [hgs]; rfl
            have hw : gs.width = width := by rw [hgs]; exact hwidth
            have hh : gs.height = height := by rw [hgs]; exact hheight
            have hempty : ∀ i, i < 2 → HandInv ValidCard gs i := by
              intro i hi
              have hlen : (gs.hands i).length = 0 := by
                rw [hgs]
                have hi' : i = 0 ∨ i = 1 := by omega
                rcases hi' with rfl | rfl <;> rfl
              refine ⟨by rw [hlen], by rw [hlen]; decide, ?_⟩
              intro k hk
              rw [hlen] at hk
              omega
            split at h
            · simp at h
            · rename_i hflag
              simp only [Except.ok.injEq] at h
              have hflag1 : (deal_cards gs).1 = true := by simpa using hflag
              obtain ⟨d1, d2, _, d4, _, d6, d7⟩ := deal_cards_frame gs
              have hd : DeckInv ValidCard gs := by
                have hdeck1 := hdeck
                unfold DeckInv at hdeck1 ⊢
                rw [← h] at hdeck1
                rw [← d7]
                exact hdeck1
              obtain ⟨a0', a1', _⟩ := deal_cards_hands ValidCard gs hd (hempty 0 (by omega))
                (hempty 1 (by omega)) hflag1
              have r1 := check_dimension_range _ _ h1
              have r2 := check_dimension_range _ _ h2
              have hphase : PhaseInv gs :=
                ⟨fun _ r _ c _ => by rw [hboard]; rfl, fun _ => hstatus⟩
              subst h
              refine ⟨Or.inl rfl, ?_, ?_, phaseInv_of_frame gs _ hphase d4 d2 d1 d6, hdeck,
                a0', a1'⟩
              · show 0 < (deal_cards gs).2.height
                rw [d2, hh]
                omega
              · show 0 < (deal_cards gs).2.width
                rw [d1, hw]
                omega

/-! ### The board stays well-formed -/

/-- C21: in every state at the head of the loop of `game_loop`, in a run that
starts fresh or from a loaded snapshot and plays accepted human or automated
moves, and in the state the loop condition leaves (after `board_full` and
`deal_cards`, whether they succeed or not), every cell of the board is exactly
the empty marker `**` or holds a rank `'1'..'9'` with a suit `'A'..'Z'`; so the
rank of a cell is the marker exactly when its suit is. -/
theorem board_well_formed (fs : List Nat → Option (List Nat)) (canOpen : List Nat → Bool)
    (freed : List Nat) (gs : Game) (argv : List (List Nat)) (g0 g : Game)
    (hstart : main_start fs freed gs argv = .ok g0) (hreach : Reachable canOpen g0 g) :
    BoardWellFormed g ∧ BoardWellFormed (game_loop_cond g).2 ∧
      (∀ r, r < g.height → ∀ c, c < g.width →
        ((g.board r c).num = 42 ↔ (g.board r c).suit = 42)) := by
  have hinv := reachable_loopInv canOpen g0 g (main_start_loopInv fs freed gs g0 argv hstart) hreach
  obtain ⟨_, hb, _, _, _⟩ := hinv
  obtain ⟨f1, f2, _, f4, _, _⟩ := game_loop_cond_frame g
  refine ⟨hb, ?_, ?_⟩
  · intro r hr c hc
    rw [f4]
    rw [f2] at hr
    rw [f1] at hc
    exact hb r hr c hc
  · intro r hr c hc
    rcases hb r hr c hc with h | h
    · rw [h]
      exact ⟨fun _ => rfl, fun _ => rfl⟩
    · unfold ValidCard at h
      constructor <;> intro h42 <;> omega

theorem board_well_formed_witness :
    ∃ g0 g1, main_start demoFs [] demoStack demoArgv = .ok g0 ∧
      game_loop_body (fun _ => true) (game_loop_cond g0).2 [[49, 32, 49, 32, 49]] =
        .ok (g1, []) ∧
      BoardWellFormed g1 ∧ g1.board 0 0 = ⟨49, 65⟩ :=
  ⟨_, _, rfl, rfl,
    (board_well_formed demoFs (fun _ => true) [] demoStack demoArgv _ _ rfl
      (Reachable.turn _ _ [[49, 32, 49, 32, 49]] [] Reachable.start (by decide) rfl)).1,
    by decide⟩

/-- C23 fails on the code: the snapshot `p` has the well-formed deck `d` of
thirteen valid cards and a second hand line that starts with `**`, which
`parse_hands` accepts because `check_card` admits the empty marker.  The load
succeeds, player two is on turn and commits the move `1 2 1`, which passes
`check_entry`: the target cell (row 0, column 1) was empty before the move and
is still empty after it, and the number of occupied cells is 1 before and 1
after the committed move. -/
theorem committed_move_adds_no_card :
    ∃ g0 g1, main_start demoFsMarker [] demoStack demoArgvLoad = .ok g0 ∧
      g0.deck.length = 13 ∧ (∀ k, k < 13 → ValidCard (g0.deck.cards k)) ∧
      g0.turn = 2 ∧ (g0.hands 1).cards 0 = blank ∧
      (game_loop_cond g0).1 = true ∧
      game_loop_body (fun _ => true) (game_loop_cond g0).2 [[49, 32, 50, 32, 49]] =
        .ok (g1, []) ∧
      ((game_loop_cond g0).2.board 0 1).suit = 42 ∧ g1.board 0 1 = blank ∧
      occupied (game_loop_cond g0).2 = 1 ∧ occupied g1 = 1 := by
  refine ⟨_, _, rfl, by decide, by decide, by decide, by decide, by decide, rfl, by decide,
    by decide, by decide, by decide⟩

/-! ### The board rows of a snapshot text -/

theorem read_lines_tail (tail : List Nat) (h : ∀ c ∈ tail, c ≠ 10) :
    ∀ cur, read_lines tail cur = [] := by
  induction tail with
  | nil => intro cur; rfl
  | cons c rest ih =>
    intro cur
    have hc := h c (List.mem_cons_self _ _)
    simp only [read_lines, if_neg hc]
    exact ih (fun x hx => h x (List.mem_cons_of_mem _ hx)) _

theorem read_lines_fileText (lines : List (List Nat)) (tail : List Nat)
    (h : ∀ l ∈ lines, ∀ c ∈ l, c ≠ 10) (ht : ∀ c ∈ tail, c ≠ 10) :
    read_lines (fileText lines tail) [] = lines.map cstr := by
  unfold fileText
  induction lines with
  | nil => simpa using read_lines_tail tail ht []
  | cons l rest ih =>
    have hl := h l (List.mem_cons_self _ _)
    rw [List.flatMap_cons, List.append_assoc, List.append_assoc, List.singleton_append,
      read_lines_line l hl, List.nil_append, ih (fun l1 hl1 => h l1 (List.mem_cons_of_mem _ hl1))]
    rfl

theorem map_cstr_eq (lines : List (List Nat)) (h : ∀ l ∈ lines, ∀ c ∈ l, c ≠ 10 ∧ c ≠ 0) :
    lines.map cstr = lines := by
  induction lines with
  | nil => rfl
  | cons l rest ih =>
    rw [List.map_cons, cstr_eq l (fun c hc => (h l (List.mem_cons_self _ _) c hc).2),
      ih (fun l1 hl1 => h l1 (List.mem_cons_of_mem _ hl1))]

theorem parse_board_loop_cells (line : List Nat) (lineN : Nat) :
    ∀ n i (g g1 : Game), parse_board_loop line lineN n i g = .ok g1 →
      (∀ k, i ≤ k → k < i + n →
        g1.board lineN k = ⟨line.getD (GET_NUM k) 0, line.getD (GET_SUIT k) 0⟩) ∧
      (∀ r k, ¬ (r = lineN ∧ i ≤ k ∧ k < i + n) → g1.board r k = g.board r k) := by
  intro n
  induction n with
  | zero =>
    intro i g g1 h
    simp only [parse_board_loop, Except.ok.injEq] at h
    rw [← h]
    exact ⟨fun k h1 h2 => by omega, fun _ _ _ => rfl⟩
  | succ n ih =>
    intro i g g1 h
    unfold parse_board_loop at h
    simp only at h
    split at h
    · simp at h
    · split at h <;> split at h
      · simp at h
      · obtain ⟨hc, hu⟩ := ih (i + 1) _ g1 h
        refine ⟨?_, ?_⟩
        · intro k h1 h2
          by_cases hk : k = i
          · subst hk
            rw [hu lineN k (by omega)]
            simp [store2]
          · exact hc k (by omega) (by omega)
        · intro r k hn
          rw [hu r k (by omega)]
          show store2 g.board lineN i _ r k = g.board r k
          unfold store2
          rw [if_neg (by omega)]
      · simp at h
      · obtain ⟨hc, hu⟩ := ih (i + 1) _ g1 h
        refine ⟨?_, ?_⟩
        · intro k h1 h2
          by_cases hk : k = i
          · subst hk
            rw [hu lineN k (by omega)]
            simp [store2]
          · exact hc k (by omega) (by omega)
        · intro r k hn
          rw [hu r k (by omega)]
          show store2 g.board lineN i _ r k = g.board r k
          unfold store2
          rw [if_neg (by omega)]

theorem parse_board_cells (g g1 : Game) (line : List Nat) (lineN : Nat)
    (h : parse_board g line lineN = .ok g1) :
    line.length = g.width * 2 ∧ SameExceptBoard g g1 ∧
      (∀ c, c < g.width →
        g1.board lineN c = ⟨line.getD (GET_NUM c) 0, line.getD (GET_SUIT c) 0⟩) ∧
      (∀ r c, r ≠ lineN → g1.board r c = g.board r c) := by
  have hs := (parse_board_inv g g1 line lineN h).1
  unfold parse_board at h
  simp only at h
  split at h
  · simp at h
  · rename_i hlen
    have hlen' : line.length = g.width * 2 := by simpa using hlen
    obtain ⟨hc, hu⟩ := parse_board_loop_cells line lineN _ 0 g g1 h
    refine ⟨hlen', hs, ?_, ?_⟩
    · intro c hcw
      exact hc c (by omega) (by rw [hlen']; omega)
    · intro r c hr
      exact hu r c (fun hh => hr hh.1)

theorem parse_save_loop_board (fs : List Nat → Option (List Nat)) (freed : List Nat) :
    ∀ (lines : List (List Nat)) (lineN : Nat) (g : Game) (n : Nat) (g1 : Game),
      1 ≤ lineN → parse_save_loop fs freed lines lineN g = .ok (n, g1) →
      g1.height = g.height ∧ g1.width = g.width ∧
      (∀ r c, r + 4 < lineN → g1.board r c = g.board r c) ∧
      (∀ r, lineN ≤ r + 4 → ∀ line, lines[r + 4 - lineN]? = some line →
        line.length = g.width * 2 ∧
        ∀ c, c < g.width →
          g1.board r c = ⟨line.getD (GET_NUM c) 0, line.getD (GET_SUIT c) 0⟩) := by
  intro lines
  induction lines with
  | nil =>
    intro lineN g n g1 _ h
    simp only [parse_save_loop, Except.ok.injEq, Prod.mk.injEq] at h
    rw [← h.2]
    exact ⟨rfl, rfl, fun _ _ _ => rfl, fun r _ line hl => by simp at hl⟩
  | cons line rest ih =>
    intro lineN g n g1 hpos h
    unfold parse_save_loop at h
    simp only at h
    have h0 : ¬ lineN = 0 := by omega
    rw [if_neg h0] at h
    -- the state after this line
    have hstep : ∃ g2, parse_save_loop fs freed rest (lineN + 1) g2 = .ok (n, g1) ∧
        g2.height = g.height ∧ g2.width = g.width ∧
        (∀ r c, r + 4 ≠ lineN → g2.board r c = g.board r c) ∧
        (4 ≤ lineN → line.length = g.width * 2 ∧
          ∀ c, c < g.width →
            g2.board (lineN - 4) c = ⟨line.getD (GET_NUM c) 0, line.getD (GET_SUIT c) 0⟩) := by
      by_cases h1 : lineN = 1
      · rw [if_pos h1] at h
        cases hp : parse_deck_file fs { g with deckFile := line } with
        | error e => rw [hp] at h; simp at h
        | ok gd =>
          rw [hp] at h
          simp only at h
          have hf := parse_deck_file_frame fs _ gd hp
          have hh : gd.height = g.height := by have e := congrArg Game.height hf; exact e
          have hw : gd.width = g.width := by have e := congrArg Game.width hf; exact e
          have hb : gd.board = g.board := by have e := congrArg Game.board hf; exact e
          refine ⟨_, h, hh, hw, ?_, fun h4 => by omega⟩
          intro r c _
          show gd.board r c = g.board r c
          rw [hb]
      · rw [if_neg h1] at h
        by_cases h23 : lineN = 2 ∨ lineN = 3
        · rw [if_pos h23] at h
          cases hp : parse_hands g line (lineN - 1) with
          | error e => rw [hp] at h; simp at h
          | ok gh =>
            rw [hp] at h
            simp only at h
            have hf := (parse_hands_inv g gh line (lineN - 1) hp).2
            have hh : gh.height = g.height := by have e := congrArg Game.height hf; exact e
            have hw : gh.width = g.width := by have e := congrArg Game.width hf; exact e
            have hb : gh.board = g.board := by have e := congrArg Game.board hf; exact e
            refine ⟨gh, h, hh, hw, ?_, fun h4 => by omega⟩
            intro r c _
            rw [hb]
        · rw [if_neg h23] at h
          cases hp : parse_board g line (lineN - 4) with
          | error e => rw [hp] at h; simp at h
          | ok gb =>
            rw [hp] at h
            simp only at h
            obtain ⟨hlen, hs, hc, hu⟩ := parse_board_cells g gb line (lineN - 4) hp
            refine ⟨gb, h, hs.2.1, hs.1, ?_, fun _ => ⟨hlen, hc⟩⟩
            intro r c hr
            exact hu r c (by omega)
    obtain ⟨g2, hloop, e1, e2, hun, hrow⟩ := hstep
    obtain ⟨i1, i2, i3, i4⟩ := ih (lineN + 1) g2 n g1 (by omega) hloop
    refine ⟨i1.trans e1, i2.trans e2, ?_, ?_⟩
    · intro r c hr
      rw [i3 r c (by omega), hun r c (by omega)]
    · intro r hr l hl
      by_cases he : r + 4 = lineN
      · have hidx : r + 4 - lineN = 0 := by omega
        rw [hidx] at hl
        simp only [List.getElem?_cons_zero, Option.some.injEq] at hl
        subst hl
        obtain ⟨hlen, hc⟩ := hrow (by omega)
        refine ⟨hlen, ?_⟩
        intro c hcw
        rw [i3 r c (by omega)]
        have hr4 : lineN - 4 = r := by omega
        rw [← hr4]
        exact hc c hcw
      · have hidx : r + 4 - lineN = (r + 4 - (lineN + 1)) + 1 := by omega
        rw [hidx, List.getElem?_cons_succ] at hl
        have := i4 r (by omega) l hl
        rw [e2] at this
        exact this

theorem parse_save_loop_full (fs : List Nat → Option (List Nat)) (freed : List Nat)
    (lines : List (List Nat)) (g : Game) (n : Nat) (g1 : Game)
    (hfull : ∀ line ∈ lines.drop 4, ∀ c, c < line.length / 2 → line.getD (2 * c + 1) 0 ≠ 42)
    (h : parse_save_loop fs freed lines 0 g = .ok (n, g1)) (hn : n = g1.height + 4) :
    board_full_scan g1 = true := by
  have hcount := parse_save_loop_count fs freed lines 0 g (n, g1) h
  simp only [Nat.zero_add] at hcount
  cases lines with
  | nil =>
    simp only [List.length_nil] at hcount
    omega
  | cons header rest =>
    unfold parse_save_loop at h
    simp only [if_true] at h
    cases hp : parse_line_one header g with
    | error e => rw [hp] at h; simp at h
    | ok g2 =>
      rw [hp] at h
      simp only at h
      obtain ⟨i1, i2, _, i4⟩ := parse_save_loop_board fs freed rest 1 g2 n g1 (by omega) h
      rw [board_full_scan_true]
      intro r hr c hc
      have hlen : r + 3 < rest.length := by
        simp only [List.length_cons] at hcount
        omega
      have hget : rest[r + 4 - 1]? = some (rest.get ⟨r + 3, hlen⟩) := by
        have e : r + 4 - 1 = r + 3 := by omega
        rw [e]
        exact List.getElem?_eq_getElem hlen
      obtain ⟨hl, hcell⟩ := i4 r (by omega) _ hget
      rw [hcell c (by rw [← i2]; exact hc)]
      show (rest.get ⟨r + 3, hlen⟩).getD (GET_SUIT c) 0 ≠ 42
      unfold GET_SUIT
      refine hfull _ ?_ c ?_
      · rw [List.drop_succ_cons]
        have hd : (rest.drop 3)[r]? = some (rest.get ⟨r + 3, hlen⟩) := by
          rw [List.getElem?_drop]
          have e : 3 + r = r + 3 := by omega
          rw [e]
          exact List.getElem?_eq_getElem hlen
        exact List.getElem?_mem hd
      · rw [hl, ← i2]
        omega

/-- C14, amended: loading a snapshot whose board has no empty cell never
succeeds, whatever the other fields hold, so a full board is never resumed.
The board rows of the snapshot are the lines that `read_line` delivers from the
fifth on; none of their cards has the marker `*` as its suit.  When every line
is accepted by its parser and the number of lines is `height + 4`, the load
ends with the full-board error, exit status 6 (`ERROR_FULL_BOARD`); otherwise
it ends with the error of that line or of the line count. -/
theorem parse_save_file_full_board (fs : List Nat → Option (List Nat)) (freed : List Nat)
    (g : Game) (fileName text : List Nat) (hfs : fs fileName = some text)
    (hfull : ∀ line ∈ (read_lines text []).drop 4, ∀ c, c < line.length / 2 →
      line.getD (2 * c + 1) 0 ≠ 42) :
    (∀ g1, parse_save_file fs freed g fileName ≠ .ok g1) ∧
    (∀ n g1, parse_save_loop fs freed (read_lines text []) 0 g = .ok (n, g1) →
      n = g1.height + 4 →
      parse_save_file fs freed g fileName = .error (.exit ERROR_FULL_BOARD)) := by
  have hsix : ∀ n g1, parse_save_loop fs freed (read_lines text []) 0 g = .ok (n, g1) →
      n = g1.height + 4 →
      parse_save_file fs freed g fileName = .error (.exit ERROR_FULL_BOARD) := by
    intro n g1 hloop hn
    have hscan := parse_save_loop_full fs freed _ g n g1 hfull hloop hn
    unfold parse_save_file
    rw [hfs]
    simp only
    rw [hloop]
    simp only
    have hne : ¬ n ≠ g1.height + 4 := by omega
    simp only [hne, if_false, board_full, hscan, if_true]
  refine ⟨?_, hsix⟩
  intro g1 hok
  have hok1 := hok
  unfold parse_save_file at hok1
  rw [hfs] at hok1
  simp only at hok1
  cases hloop : parse_save_loop fs freed (read_lines text []) 0 g with
  | error e => rw [hloop] at hok1; simp at hok1
  | ok r =>
    obtain ⟨n, g2⟩ := r
    rw [hloop] at hok1
    simp only at hok1
    split at hok1
    · simp at hok1
    · rename_i hn
      have h6 := hsix n g2 hloop (by simpa using hn)
      rw [h6] at hok
      simp at hok

theorem parse_save_file_full_board_witness :
    (∀ g1, parse_save_file demoFsFull [] demoStack [102] ≠ .ok g1) ∧
      parse_save_file demoFsFull [] demoStack [102] = .error (.exit ERROR_FULL_BOARD) :=
  ⟨(parse_save_file_full_board demoFsFull [] demoStack [102] (save_text demoFull) rfl
      (by decide)).1,
    (parse_save_file_full_board demoFsFull [] demoStack [102] (save_text demoFull) rfl
      (by decide)).2 _ _ rfl rfl⟩

end Bark
